import Mathlib

/-!
# Carbone template preprocessor (`lib/preprocessor.js`)

A shallow embedding of the XML-part rewriting functions of the preprocessor.
The source works by regular-expression substitution on strings, so the
embedding has two layers:

* `Js`: JavaScript strings as lists of characters, a backtracking regular
  expression matcher with the priority order of ECMAScript (greedy and lazy
  quantifiers, capture groups, back-references, `$`), and the string methods
  the source calls (`exec`, `test`, `match`, `replace` with and without the
  `g` flag, `split`, `parseInt`, number to string);
* `preprocessor`: one regular expression value per regular expression literal
  of the source, and one function per function of the source.

Every quantifier of the source applies to a single-character atom, so the
quantifier node of the matcher carries a character predicate.
-/

namespace Js

/-- A JavaScript string, as the list of its characters. -/
abbrev Str := List Char

/-- Capture groups recorded so far, most recent first: group number and text. -/
abbrev Caps := List (Nat × Str)

/-- Regular expression syntax trees, for the constructs the source uses. -/
inductive Re where
  /-- a literal run of characters -/
  | lit (s : Str)
  /-- one character of a class: `.`, `\w`, `[^>]`, ... -/
  | set (p : Char → Bool)
  /-- a quantified class `p{lo,hi}`, greedy or lazy; `hi = none` is unbounded -/
  | rep (greedy : Bool) (lo : Nat) (hi : Option Nat) (p : Char → Bool)
  /-- concatenation -/
  | seq (a b : Re)
  /-- alternation `a|b`, left alternative first -/
  | alt (a b : Re)
  /-- capture group number `i` -/
  | grp (i : Nat) (r : Re)
  /-- back-reference `\i` -/
  | bref (i : Nat)
  /-- the assertion `$` (no `m` flag): end of input -/
  | eos

/-- Remove the literal `l` from the front of `s`, if `s` starts with it. -/
def dropLit : Str → Str → Option Str
  | [], s => some s
  | _ :: _, [] => none
  | a :: l, b :: s => if a = b then dropLit l s else none

/-- All ways to cut `s` after a run of characters of class `p`, shortest first:
the pairs of what the quantifier consumes and what is left. -/
def splits (p : Char → Bool) : Str → List (Str × Str)
  | [] => [([], [])]
  | c :: t => ([], c :: t) :: (if p c then (splits p t).map (fun x => (c :: x.1, x.2)) else [])

/-- Whether a repetition count lies within the bounds of a quantifier. -/
def inBounds (lo : Nat) (hi : Option Nat) (n : Nat) : Bool :=
  decide (lo ≤ n) && (match hi with | none => true | some h => decide (n ≤ h))

/-- The backtracking matcher. `run r s c` lists, in priority order, every way
for `r` to match at the start of `s` with captures `c`: the text matched, the
rest of the input, and the captures afterwards. The head of the list is the
match that ECMAScript reports. -/
def Re.run : Re → Str → Caps → List (Str × Str × Caps)
  | .lit l, s, c =>
      match dropLit l s with
      | some r => [(l, r, c)]
      | none => []
  | .set p, s, c =>
      match s with
      | [] => []
      | x :: t => if p x then [([x], t, c)] else []
  | .rep g lo hi p, s, c =>
      let cands := ((splits p s).filter (fun x => inBounds lo hi x.1.length)).map
        (fun x => (x.1, x.2, c))
      if g then cands.reverse else cands
  | .seq a b, s, c =>
      (a.run s c).flatMap
        (fun x => (b.run x.2.1 x.2.2).map (fun y => (x.1 ++ y.1, y.2.1, y.2.2)))
  | .alt a b, s, c => a.run s c ++ b.run s c
  | .grp i r, s, c => (r.run s c).map (fun x => (x.1, x.2.1, (i, x.1) :: x.2.2))
  | .bref i, s, c =>
      match c.lookup i with
      | none => [([], s, c)]
      | some l =>
          match dropLit l s with
          | some r => [(l, r, c)]
          | none => []
  | .eos, s, c =>
      match s with
      | [] => [([], [], c)]
      | _ :: _ => []

/-- The match of `re` that starts exactly at the start of `s`, if any:
text matched, rest of the input, captures. -/
def Re.matchAt (re : Re) (s : Str) : Option (Str × Str × Caps) :=
  (re.run s []).head?

/-- Text of capture group `i` (every group of the source's expressions takes
part in every match, so the undefined case does not arise). -/
def cap (c : Caps) (i : Nat) : Str := (c.lookup i).getD []

/-- The result of a search: text before the match, the match, its captures,
text after the match. -/
structure Found where
  before : Str
  whole : Str
  caps : Caps
  after : Str

/-- `re.exec(s)` / `s.match(re)` without the `g` flag: the leftmost match. -/
def Re.search (re : Re) : Str → Option Found
  | [] => (re.matchAt []).map (fun x => ⟨[], x.1, x.2.2, x.2.1⟩)
  | c :: t =>
      match re.matchAt (c :: t) with
      | some x => some ⟨[], x.1, x.2.2, x.2.1⟩
      | none => (re.search t).map (fun y => { y with before := c :: y.before })

/-- `re.test(s)`. -/
def Re.test (re : Re) (s : Str) : Bool := (re.search s).isSome

/-- `s.replace(re, f)` without the `g` flag, `f` a replacer function of the
match and its captures. -/
def Re.replaceFirst (re : Re) (s : Str) (f : Str → Caps → Str) : Str :=
  match re.search s with
  | none => s
  | some y => y.before ++ f y.whole y.caps ++ y.after

/-- A piece of a string scanned with a `g` expression: a character no match
covers, or a match with its captures. -/
inductive Seg where
  | chr (c : Char)
  | hit (m : Str) (caps : Caps)

/-- The scan of `s.replace(re, ...)` and of the `exec` loop with the `g`
flag: matches are looked for from left to right, each search resuming where
the previous match ended (one character further after an empty match). The
second argument counts the characters still covered by the previous match. -/
def Re.segs (re : Re) : Str → Nat → List Seg
  | [], _ =>
      match re.matchAt [] with
      | none => []
      | some x => [Seg.hit x.1 x.2.2]
  | _ :: t, k + 1 => re.segs t k
  | c :: t, 0 =>
      match re.matchAt (c :: t) with
      | none => Seg.chr c :: re.segs t 0
      | some x =>
          Seg.hit x.1 x.2.2 ::
            (if x.1.length = 0 then Seg.chr c :: re.segs t 0 else re.segs t (x.1.length - 1))

/-- The text a segment contributes to the result of a replace. -/
def Seg.render (f : Str → Caps → Str) : Seg → Str
  | .chr c => [c]
  | .hit m caps => f m caps

/-- `s.replace(re, f)` with the `g` flag: all matches are collected first,
then the replacer is called on each one in order. -/
def Re.replaceAll (re : Re) (s : Str) (f : Str → Caps → Str) : Str :=
  (re.segs s 0).flatMap (Seg.render f)

/-- `s.replace(pat, rep)` with a string pattern: the first occurrence of `pat`
is replaced (`rep` holds no `$` in the source's calls). -/
def replaceFirstStr (pat rep : Str) : Str → Str
  | [] =>
      match dropLit pat [] with
      | some r => rep ++ r
      | none => []
  | c :: t =>
      match dropLit pat (c :: t) with
      | some r => rep ++ r
      | none => c :: replaceFirstStr pat rep t

/-- `s.split(sep)` for a one-character separator. -/
def split (sep : Char) : Str → List Str
  | [] => [[]]
  | c :: t =>
      if c = sep then [] :: split sep t
      else
        match split sep t with
        | [] => [[c]]
        | h :: r => (c :: h) :: r

/-- The mathematical value of a string of decimal digits. `parseInt(ds, 10)`
and unary `+ds` give the Number value of it, which is this integer itself
below 2^53 (see `toDouble`). -/
def toNumber (ds : Str) : Nat := ds.foldl (fun n c => 10 * n + (c.toNat - 48)) 0

/-- The decimal digits of a non-negative integer. -/
def numToStr (n : Nat) : Str := Nat.toDigits 10 n

/-- A JavaScript value as the arithmetic of the source meets it: a Number that
is a non-negative integer, `Infinity`, or `NaN` (what `undefined` becomes in
an addition). -/
inductive Num where
  | int (n : Nat)
  | infinity
  | nan
  deriving DecidableEq

/-- The Number value of a non-negative integer: the nearest double, ties going
to the even mantissa of 53 bits; from 2^1024 on (after rounding) `Infinity`.
Every integer below 2^53 is its own Number value. -/
def toDouble (m : Nat) : Num :=
  if m < 2 ^ 53 then .int m
  else
    let e := Nat.log2 m - 52
    let q := m / 2 ^ e
    let r := m % 2 ^ e
    let q1 := if 2 ^ e < 2 * r ∨ (2 * r = 2 ^ e ∧ q % 2 = 1) then q + 1 else q
    if q1 * 2 ^ e < 2 ^ 1024 then .int (q1 * 2 ^ e) else .infinity

/-- Whether the Number value of `w` is the integer `v`. -/
def roundsTo (w v : Nat) : Bool := decide (toDouble w = .int v)

/-- The decimal that `Number::toString` prints for the double `v`, an integer
of 2^53 or more: among the integers with the fewest significant digits whose
Number value is `v`, the one closest to `v` (of two equally close, the one
with the even last significant digit). -/
def shortestDecimal (v : Nat) : Nat :=
  let d := (numToStr v).length
  ((List.range (min 17 d)).findSome? (fun i =>
    let x := d - (i + 1)
    let lo := v / 10 ^ x * 10 ^ x
    let hi := lo + 10 ^ x
    if roundsTo lo v && roundsTo hi v then
      if v - lo < hi - v then some lo
      else if hi - v < v - lo then some hi
      else if (lo / 10 ^ x) % 2 = 0 then some lo else some hi
    else if roundsTo lo v then some lo
    else if roundsTo hi v then some hi
    else none)).getD v

/-- The digits of a decimal without its trailing zeros. -/
def significant (ds : Str) : Str := (ds.reverse.dropWhile (fun c => c = '0')).reverse

/-- `Number::toString` on a value of `Num`, as a template literal applies it:
the decimal digits below 10^21, the exponent form `d.ddde+n` from there on. -/
def Num.toStr : Num → Str
  | .nan => "NaN".toList
  | .infinity => "Infinity".toList
  | .int v =>
      if v < 2 ^ 53 then numToStr v
      else
        let ds := numToStr (shortestDecimal v)
        if ds.length ≤ 21 then ds
        else
          match significant ds with
          | [] => ds
          | [c] => c :: ("e+".toList ++ numToStr (ds.length - 1))
          | c :: t => c :: '.' :: (t ++ ("e+".toList ++ numToStr (ds.length - 1)))

/-- The sum `a + n` of a value and of an array length or function arity `n`
(an integer below 2^32, its own Number value). -/
def Num.add (a : Num) (n : Nat) : Num :=
  match a with
  | .int m => toDouble (m + n)
  | .infinity => .infinity
  | .nan => .nan

/-- The length of a string, in UTF-16 code units. -/
def utf16Length (s : Str) : Nat :=
  (s.map (fun c => if c.toNat < 65536 then 1 else 2)).sum

/-! ### Character classes -/

/-- The double quote. -/
def dquote : Char := Char.ofNat 34

/-- The single quote. -/
def squote : Char := Char.ofNat 39

/-- Line terminators: LF, CR, U+2028, U+2029. -/
def isLineTerminator (c : Char) : Bool :=
  c.toNat = 10 || c.toNat = 13 || c.toNat = 0x2028 || c.toNat = 0x2029

/-- The class `.` (no `s` flag): anything but a line terminator. -/
def dot (c : Char) : Bool := !isLineTerminator c

/-- The class `\d`. -/
def isDigit (c : Char) : Bool := decide (48 ≤ c.toNat) && decide (c.toNat ≤ 57)

/-- The class `\w`: `[A-Za-z0-9_]`. -/
def isWord (c : Char) : Bool :=
  (decide (65 ≤ c.toNat) && decide (c.toNat ≤ 90)) ||
  (decide (97 ≤ c.toNat) && decide (c.toNat ≤ 122)) || isDigit c || c.toNat = 95

/-- The class `[A-Z]`. -/
def isUpper (c : Char) : Bool := decide (65 ≤ c.toNat) && decide (c.toNat ≤ 90)

/-- The class `\s`: white space and line terminators. -/
def isSpace (c : Char) : Bool :=
  c.toNat = 9 || c.toNat = 10 || c.toNat = 11 || c.toNat = 12 || c.toNat = 13 ||
  c.toNat = 32 || c.toNat = 0xA0 || c.toNat = 0x1680 ||
  (decide (0x2000 ≤ c.toNat) && decide (c.toNat ≤ 0x200A)) ||
  c.toNat = 0x2028 || c.toNat = 0x2029 || c.toNat = 0x202F || c.toNat = 0x205F ||
  c.toNat = 0x3000 || c.toNat = 0xFEFF

/-- The class `\S`. -/
def notSpace (c : Char) : Bool := !isSpace c

/-- A class of one character, `x`. -/
def isCh (d : Char) (c : Char) : Bool := decide (c = d)

/-- The class `[^x]`. -/
def notCh (d : Char) (c : Char) : Bool := !decide (c = d)

/-- A class listing its members, `[xyz]`. -/
def oneOf (l : Str) (c : Char) : Bool := l.contains c

/-! ### Abbreviations for regular expression syntax -/

/-- A literal given as a string. -/
def Re.str (s : String) : Re := .lit s.toList

/-- Concatenation of a list of expressions. -/
def Re.cat : List Re → Re
  | [] => .lit []
  | [r] => r
  | r :: rs => .seq r (Re.cat rs)

/-- The quantifier `p*`. -/
def Re.star (p : Char → Bool) : Re := .rep true 0 none p

/-- The quantifier `p+`. -/
def Re.plus (p : Char → Bool) : Re := .rep true 1 none p

/-- The quantifier `p?`. -/
def Re.opt (p : Char → Bool) : Re := .rep true 0 (some 1) p

/-- The quantifier `p*?`. -/
def Re.lazyStar (p : Char → Bool) : Re := .rep false 0 none p

/-- The quantifier `p+?`. -/
def Re.lazyPlus (p : Char → Bool) : Re := .rep false 1 none p

end Js

namespace preprocessor

open Js

/-! ### Data model -/

/-- One part of the template archive: `name`, `parent` (the embedded document
it belongs to, empty for the main document) and its text `data`. -/
structure File where
  name : Str
  parent : Str
  data : Str
  deriving DecidableEq

/-- An entry of `_tableRefs`, recorded for a `:tableGuide` marker. -/
structure TableRef where
  name : Str
  path : Str
  length : Nat
  deriving DecidableEq

/-- What a function that mutates the template leaves behind: the files as
they are when it returns or throws, and the message of the error thrown (if
any). -/
structure Outcome where
  files : List File
  error : Option Str
  deriving DecidableEq

/-! ### `readSharedString` -/

/-- The expression `new RegExp('<si>(.+?)</si>','g')`. -/
def reSharedStringTag : Re :=
  Re.cat [.str "<si>", .grp 1 (.lazyPlus dot), .str "</si>"]

/-- The function `readSharedString`: `none` stands for a `null` or `undefined`
argument. The `exec` loop pushes capture 1 of each successive match. -/
def readSharedString (sharedStringXml : Option Str) : List Str :=
  match sharedStringXml with
  | none => []
  | some xml =>
      (reSharedStringTag.segs xml 0).filterMap
        (fun g => match g with
          | .hit _ caps => some (cap caps 1)
          | .chr _ => none)

/-! ### `convertToInlineString` -/

/-- The expression `/(<(\w)[^>]*>)(<f>.*<\/f>.*?)(<\/\2>)/g`. -/
def reFunctionCell : Re :=
  Re.cat [
    .grp 1 (Re.cat [.str "<", .grp 2 (.set isWord), .star (notCh '>'), .str ">"]),
    .grp 3 (Re.cat [.str "<f>", .star dot, .str "</f>", .lazyStar dot]),
    .grp 4 (Re.cat [.str "</", .bref 2, .str ">"])]

/-- The expression `/<v>(.+?)<\/v>/`. -/
def reCachedValue : Re :=
  Re.cat [.str "<v>", .grp 1 (.lazyPlus dot), .str "</v>"]

/-- The expression `/(<(\w)[^>]*t="s"[^>]*>)(.*?)(<\/\2>)/g`. -/
def reSharedCell : Re :=
  Re.cat [
    .grp 1 (Re.cat [.str "<", .grp 2 (.set isWord), .star (notCh '>'), .str "t=\"s\"",
      .star (notCh '>'), .str ">"]),
    .grp 3 (.lazyStar dot),
    .grp 4 (Re.cat [.str "</", .bref 2, .str ">"])]

/-- The expression `/<v>(\d+?)<\/v>/`. -/
def reIndexValue : Re :=
  Re.cat [.str "<v>", .grp 1 (.lazyPlus isDigit), .str "</v>"]

/-- The expression `/{[d|c][.].*:formatN\(.*\)}/`. -/
def reFormatN : Re :=
  Re.cat [.str "\x7b", .set (oneOf "d|c".toList), .set (oneOf ".".toList), .star dot,
    .str ":formatN(", .star dot, .str ")\x7d"]

/-- The expression `/{[d|c][.].*:formatDExcel\(.*\)}/`. -/
def reFormatDExcel : Re :=
  Re.cat [.str "\x7b", .set (oneOf "d|c".toList), .set (oneOf ".".toList), .star dot,
    .str ":formatDExcel(", .star dot, .str ")\x7d"]

/-- The expression `/:formatN\(.*\)/`. -/
def reFormatNCall : Re :=
  Re.cat [.str ":formatN(", .star dot, .str ")"]

/-- The expression `/<\/?t>/`. -/
def reTextTag : Re :=
  Re.cat [.str "<", .opt (isCh '/'), .str "t>"]

/-- The replacer of the first pass of `convertToInlineString` (cells holding a
formula): the first `<v>...</v>` of the content is dropped. -/
def functionCellReplacer (m : Str) (caps : Caps) : Str :=
  let openTag := cap caps 1
  let content := cap caps 3
  let closeTag := cap caps 4
  match reCachedValue.search content with
  | some _ => openTag ++ reCachedValue.replaceFirst content (fun _ _ => []) ++ closeTag
  | none => m

/-- The replacer of the second pass of `convertToInlineString` (cells of type
`t="s"`). An index past the end of `sharedStrings` reads `undefined`, which
`exec` and `+` turn into the text `undefined`. -/
def sharedCellReplacer (sharedStrings : List Str) (m : Str) (caps : Caps) : Str :=
  let openTag := cap caps 1
  let content := cap caps 3
  let closeTag := cap caps 4
  match reIndexValue.search content with
  | some tab =>
      let sharedStringIndex := toNumber (cap tab.caps 1)
      let selectedSharedString := (sharedStrings.get? sharedStringIndex).getD "undefined".toList
      match reFormatN.search selectedSharedString with
      | some contentAsNumber =>
          replaceFirstStr "t=\"s\"".toList "t=\"n\"".toList openTag ++ "<v>".toList ++
            reFormatNCall.replaceFirst contentAsNumber.whole (fun _ _ => []) ++
            "</v>".toList ++ closeTag
      | none =>
          match reFormatDExcel.search selectedSharedString with
          | some contentAsDate =>
              replaceFirstStr "t=\"s\"".toList [] openTag ++ "<v>".toList ++
                reTextTag.replaceFirst contentAsDate.whole (fun _ _ => []) ++
                "</v>".toList ++ closeTag
          | none =>
              replaceFirstStr "t=\"s\"".toList "t=\"inlineStr\"".toList openTag ++
                "<is>".toList ++ selectedSharedString ++ "</is>".toList ++ closeTag
  | none => m

/-- The function `convertToInlineString`, on a string argument (a non-string
argument is returned as it is). -/
def convertToInlineString (xml : Str) (sharedStrings : List Str) : Str :=
  let functionXml := reFunctionCell.replaceAll xml functionCellReplacer
  reSharedCell.replaceAll functionXml (sharedCellReplacer sharedStrings)

/-! ### `removeRowCounterInWorksheet` -/

/-- The expression `/<(?:c|row)[^>]*\s(r="\S+")[^>]*>/g`. -/
def reRowCounter : Re :=
  Re.cat [.str "<", .alt (.str "c") (.str "row"), .star (notCh '>'), .set isSpace,
    .grp 1 (Re.cat [.str "r=\"", .plus notSpace, .str "\""]), .star (notCh '>'), .str ">"]

/-- The expression `/<(?:c|row)[^>]*(spans="\S+")[^>]*>/g`. -/
def reSpans : Re :=
  Re.cat [.str "<", .alt (.str "c") (.str "row"), .star (notCh '>'),
    .grp 1 (Re.cat [.str "spans=\"", .plus notSpace, .str "\""]), .star (notCh '>'), .str ">"]

/-- The replacer of both passes: `m.replace(rowValue, '')`. -/
def counterReplacer (m : Str) (caps : Caps) : Str :=
  replaceFirstStr (cap caps 1) [] m

/-- The function `removeRowCounterInWorksheet`, on a string argument. -/
def removeRowCounterInWorksheet (xml : Str) : Str :=
  reSpans.replaceAll (reRowCounter.replaceAll xml counterReplacer) counterReplacer

/-! ### `adjustTableHeights` -/

/-- The expression `/\/tables\/.*\.xml/`. -/
def reTablePart : Re :=
  Re.cat [.str "/tables/", .star dot, .str ".xml"]

/-- The expression `/sheet.+\.xml$/`. -/
def reSheetPart : Re :=
  Re.cat [.str "sheet", .plus dot, .str ".xml", .eos]

/-- The expression `/\{[dc]\.(.+?):tableGuide\('?(.+?)'?\)\}/g`. -/
def reTableGuide : Re :=
  Re.cat [.str "\x7b", .set (oneOf "dc".toList), .str ".", .grp 1 (.lazyPlus dot),
    .str ":tableGuide(", .opt (isCh squote), .grp 2 (.lazyPlus dot), .opt (isCh squote),
    .str ")\x7d"]

/-- The expression `/name=['"](.+?)['"]/`. -/
def reTableName : Re :=
  Re.cat [.str "name=", .set (oneOf [squote, dquote]), .grp 1 (.lazyPlus dot),
    .set (oneOf [squote, dquote])]

/-- The expression `/(ref=['"][A-Z]{1,3})(\d+)(:[A-Z]{1,3})(\d+)(['"])/g`. -/
def reTableRange : Re :=
  Re.cat [
    .grp 1 (Re.cat [.str "ref=", .set (oneOf [squote, dquote]), .rep true 1 (some 3) isUpper]),
    .grp 2 (.plus isDigit),
    .grp 3 (Re.cat [.str ":", .rep true 1 (some 3) isUpper]),
    .grp 4 (.plus isDigit),
    .grp 5 (.set (oneOf [squote, dquote]))]

/-- The message of the error thrown for a marker whose path is not an array. -/
def tableGuideError : Str := ":tableGuide should receive an array".toList

/-- The function-valued properties that a plain object inherits from
`Object.prototype`, each with the `length` (number of declared parameters) of
the function. -/
def objectPrototypeFunctions : List (Str × Nat) :=
  [("constructor".toList, 1), ("__defineGetter__".toList, 2), ("__defineSetter__".toList, 2),
   ("hasOwnProperty".toList, 1), ("__lookupGetter__".toList, 1),
   ("__lookupSetter__".toList, 1), ("isPrototypeOf".toList, 1),
   ("propertyIsEnumerable".toList, 1), ("toString".toList, 0), ("valueOf".toList, 0),
   ("toLocaleString".toList, 0)]

/-- `_tableRefs[name]` followed by `.length`, for the plain object `_tableRefs`
whose assignments `refs` lists, the last one first: `none` when
`_tableRefs[name]` is not truthy (the table is then left as it is),
`some (some n)` when it is truthy with the number `n` as `length`, and
`some none` when it is truthy with no `length` (`undefined`).

An assignment to the key `__proto__` does not create a property: it makes the
assigned entry the prototype of `_tableRefs`, which `_tableRefs.__proto__`
reads back and whose properties `name`, `path` and `length` are then
inherited. Without such an assignment the prototype is `Object.prototype`. -/
def lookupRef (refs : List TableRef) (name : Str) : Option (Option Nat) :=
  match refs.find? (fun r => r.name = name) with
  | some r => some (some r.length)
  | none =>
      if name = "__proto__".toList then some none
      else
        let inherited := (objectPrototypeFunctions.lookup name).map some
        match refs.find? (fun r => r.name = "__proto__".toList) with
        | none => inherited
        | some r =>
            if name = "name".toList then some (some (utf16Length r.name))
            else if name = "path".toList then
              if r.path = [] then none else some (some (utf16Length r.path))
            else if name = "length".toList then
              if r.length = 0 then none else some none
            else inherited

/-- The replacer calls of the marker pass on one sheet, in match order. `get`
stands for `traverse.get(template.data, ·)` followed by the `instanceof Array`
test: `get keys = some n` when the value at `keys` is an array of length `n`
(below 2^32, as every array length is), `none` otherwise. Each marker is
replaced by the empty string and recorded; the first one that is not an array
throws. -/
def guideReplace (get : List Str → Option Nat) :
    List Seg → List TableRef → Option (Str × List TableRef)
  | [], refs => some ([], refs)
  | .chr c :: gs, refs => (guideReplace get gs refs).map (fun r => (c :: r.1, r.2))
  | .hit _ caps :: gs, refs =>
      match get (split '.' (cap caps 1)) with
      | none => none
      | some n => guideReplace get gs (⟨cap caps 2, cap caps 1, n⟩ :: refs)

/-- Whether a file goes to `_sheets`. -/
def isSheet (parentFilter : Str) (f : File) : Bool :=
  decide (f.parent = parentFilter) && reSheetPart.test f.name

/-- Whether a file goes to `_tables`. -/
def isTable (parentFilter : Str) (f : File) : Bool :=
  decide (f.parent = parentFilter) && reTablePart.test f.name

/-- The loop "Process table refs": the sheets are rewritten in file order. The
result holds the files as the loop leaves them and the table refs, or `none`
in their place when a replacer threw (the assignment to that sheet's data
then never happens). -/
def processTableRefs (get : List Str → Option Nat) (parentFilter : Str) :
    List File → List TableRef → List File × Option (List TableRef)
  | [], refs => ([], some refs)
  | f :: fs, refs =>
      if isSheet parentFilter f then
        match guideReplace get (reTableGuide.segs f.data 0) refs with
        | none => (f :: fs, none)
        | some r =>
            let rest := processTableRefs get parentFilter fs r.2
            ({ f with data := r.1 } :: rest.1, rest.2)
      else
        let rest := processTableRefs get parentFilter fs refs
        (f :: rest.1, rest.2)

/-- The replacer of the range pass: the end row becomes `start + length`,
`start` the Number value of the start row and `length` the property read from
the table ref (`none`: `undefined`, the sum is then `NaN`). -/
def rangeReplacer (length : Option Nat) (_m : Str) (caps : Caps) : Str :=
  let beg := cap caps 1
  let startIdx := cap caps 2
  let mid := cap caps 3
  let «end» := cap caps 5
  let start := toDouble (toNumber startIdx)
  let sum := match length with
    | some n => start.add n
    | none => Num.nan
  beg ++ startIdx ++ mid ++ sum.toStr ++ «end»

/-- The body of the loop "Process tables" for one file. -/
def processTable (parentFilter : Str) (refs : List TableRef) (f : File) : File :=
  if isTable parentFilter f then
    match reTableName.search f.data with
    | none => f
    | some name =>
        match lookupRef refs (cap name.caps 1) with
        | none => f
        | some length => { f with data := reTableRange.replaceAll f.data (rangeReplacer length) }
  else f

/-- The function `adjustTableHeights`. The template's `data` tree enters
through `get` (see `guideReplace`). -/
def adjustTableHeights (get : List Str → Option Nat) (files : List File)
    (parentFilter : Str) : Outcome :=
  match processTableRefs get parentFilter files [] with
  | (files1, none) => ⟨files1, some tableGuideError⟩
  | (files1, some refs) => ⟨files1.map (processTable parentFilter refs), none⟩

/-! ### `removeOneFile` -/

/-- `path.basename(p)` (POSIX): the last portion of the path, trailing slashes
ignored. -/
def basename (p : Str) : Str :=
  ((p.reverse.dropWhile (fun c => c = '/')).takeWhile (fun c => c ≠ '/')).reverse

/-- The scan of `path.dirname`: from the last character down to index 1, the
index of the first slash met after a character that is not a slash. -/
def dirnameEnd : Str → Nat → Bool → Option Nat
  | [], _, _ => none
  | c :: t, i, matchedSlash =>
      if i = 0 then none
      else if c = '/' then (if matchedSlash then dirnameEnd t (i - 1) true else some i)
      else dirnameEnd t (i - 1) false

/-- `path.dirname(p)` (POSIX). -/
def dirname (p : Str) : Str :=
  if p = [] then ".".toList
  else
    match dirnameEnd p.reverse (p.length - 1) true with
    | none => if p.head? = some '/' then "/".toList else ".".toList
    | some e => if p.head? = some '/' && e = 1 then "//".toList else p.take e

/-- Modelled from the spec: `helper.regexEscape` (lib/helper.js is not among
the sources) escapes the file name so that the expression built from it
matches that name literally. The expression
`new RegExp('<Relationship [^>]*Target="' + helper.regexEscape(_basename) + '"[^>]*/>')`. -/
def reRelationship (base : Str) : Re :=
  Re.cat [.str "<Relationship ", .star (notCh '>'), .str "Target=\"", .lit base, .str "\"",
    .star (notCh '>'), .str "/>"]

/-- The function `removeOneFile`; the index may be the sentinel `-1`. -/
def removeOneFile (files : List File) (indexOfFileToRemove : Int) (parentFilter : Str) :
    List File :=
  if indexOfFileToRemove < 0 ∨ indexOfFileToRemove ≥ files.length then files
  else
    match files.get? indexOfFileToRemove.toNat with
    | none => files
    | some fileToRemove =>
        let dir := dirname fileToRemove.name
        let base := basename fileToRemove.name
        (files.eraseIdx indexOfFileToRemove.toNat).map (fun f =>
          if f.parent = parentFilter ∧ dir ++ "/_rels/workbook.xml.rels".toList = f.name then
            { f with data := (reRelationship base).replaceFirst f.data (fun _ _ => []) }
          else f)

/-! ### `convertSharedStringToInlineString` -/

/-- The expression `/sharedStrings\.xml$/`. -/
def reSharedStringsPart : Re := Re.cat [.str "sharedStrings.xml", .eos]

/-- The expression `/\.xml$/`. -/
def reXmlPart : Re := Re.cat [.str ".xml", .eos]

/-- `name.indexOf('sheet') !== -1`. -/
def containsSheet (name : Str) : Bool := (Re.str "sheet").test name

/-- The first loop of `convertSharedStringToInlineString`: the index and the
strings of the last shared-string part of the scope. -/
def findSharedStrings (parentFilter : Str) : List File → Nat → Int × List Str → Int × List Str
  | [], _, acc => acc
  | f :: fs, i, acc =>
      if f.parent = parentFilter ∧ reSharedStringsPart.test f.name = true then
        findSharedStrings parentFilter fs (i + 1) (Int.ofNat i, readSharedString (some f.data))
      else findSharedStrings parentFilter fs (i + 1) acc

/-- Whether the first loop pushes a file to `_filesToConvert`. -/
def isFileToConvert (parentFilter : Str) (f : File) : Bool :=
  decide (f.parent = parentFilter) && !reSharedStringsPart.test f.name &&
    reXmlPart.test f.name && containsSheet f.name

/-- The function `convertSharedStringToInlineString`. -/
def convertSharedStringToInlineString (files : List File) (parentFilter : Str) : List File :=
  let found := findSharedStrings parentFilter files 0 (-1, [])
  (removeOneFile files found.1 parentFilter).map (fun f =>
    if isFileToConvert parentFilter f then
      { f with data := removeRowCounterInWorksheet (convertToInlineString f.data found.2) }
    else f)

/-! ### `convertNumberMarkersIntoNumericFormat` -/

/-- The expression
`/<table:table-cell[^<]*>\s*<text:p>[^<]*formatN[^<]*<\/text:p>\s*<\/table:table-cell>/g`. -/
def reNumberCell : Re :=
  Re.cat [.str "<table:table-cell", .star (notCh '<'), .str ">", .star isSpace,
    .str "<text:p>", .star (notCh '<'), .str "formatN", .star (notCh '<'), .str "</text:p>",
    .star isSpace, .str "</table:table-cell>"]

/-- The expression `/(\{[^{]+?\})/g`. -/
def reMarker : Re :=
  .grp 1 (Re.cat [.str "\x7b", .lazyPlus (notCh (Char.ofNat 123)), .str "\x7d"])

/-- The expression `/office:value-type="string"/`. -/
def reOfficeValueType : Re := .str "office:value-type=\"string\""

/-- The expression `/calcext:value-type="string"/`. -/
def reCalcextValueType : Re := .str "calcext:value-type=\"string\""

/-- The replacement text of `replace` with a string as second argument, for an
expression without capture groups: `$$`, `$&`, the text before the match
(dollar, backtick) and the text after it (dollar, quote) are expanded. -/
def substitute (whole before after : Str) : Str → Str
  | [] => []
  | [c] => [c]
  | c :: d :: t =>
      if c = '$' then
        if d = '$' then '$' :: substitute whole before after t
        else if d = '&' then whole ++ substitute whole before after t
        else if d = Char.ofNat 96 then before ++ substitute whole before after t
        else if d = squote then after ++ substitute whole before after t
        else c :: substitute whole before after (d :: t)
      else c :: substitute whole before after (d :: t)

/-- `s.replace(re, rep)` without the `g` flag, `rep` a replacement string. -/
def replaceFirstWith (re : Re) (s rep : Str) : Str :=
  match re.search s with
  | none => s
  | some y => y.before ++ substitute y.whole y.before y.after rep ++ y.after

/-- `xml.match(/(\{[^{]+?\})/g)`: the texts of all matches (`null`, here the
empty list, when there is none). -/
def matchMarkers (xml : Str) : List Str :=
  (reMarker.segs xml 0).filterMap
    (fun g => match g with
      | .hit m _ => some m
      | .chr _ => none)

/-- The replacer of `convertNumberMarkersIntoNumericFormat`. With no marker in
the cell `_markers` is `null` and reading `_markers.length` throws a
`TypeError`: the result is then `none`. -/
def numberCellReplacer (xml : Str) : Option Str :=
  match matchMarkers xml with
  | [] => none
  | [m] =>
      let marker := reFormatNCall.replaceFirst m (fun _ _ => [])
      let xml1 := reFormatNCall.replaceFirst xml (fun _ _ => [])
      let xml2 := replaceFirstWith reOfficeValueType xml1
        ("office:value-type=\"float\" office:value=\"".toList ++ marker ++ [dquote])
      some (replaceFirstWith reCalcextValueType xml2 "calcext:value-type=\"float\"".toList)
  | _ :: _ :: _ => some xml

/-- The replacer calls of a `g` replace whose replacer may throw. -/
def renderAll (f : Str → Option Str) : List Seg → Option Str
  | [] => some []
  | .chr c :: gs => (renderAll f gs).map (fun r => c :: r)
  | .hit m _ :: gs =>
      match f m with
      | none => none
      | some r => (renderAll f gs).map (fun t => r ++ t)

/-- The message of the `TypeError` of `numberCellReplacer`. -/
def nullLengthError : Str := "TypeError: Cannot read properties of null (reading \x27length\x27)".toList

/-- The assignment to the data of the file at index `i`. -/
def setData (files : List File) (i : Nat) (data : Str) : List File :=
  match files.get? i with
  | none => files
  | some f => files.set i { f with data := data }

/-- The function `convertNumberMarkersIntoNumericFormat`: the first file named
`content.xml`, whatever its parent. -/
def convertNumberMarkersIntoNumericFormat (files : List File) : Outcome :=
  match files.findIdx? (fun x => x.name = "content.xml".toList) with
  | none => ⟨files, none⟩
  | some i =>
      match files.get? i with
      | none => ⟨files, none⟩
      | some f =>
          match renderAll numberCellReplacer (reNumberCell.segs f.data 0) with
          | none => ⟨files, some nullLengthError⟩
          | some d => ⟨setData files i d, none⟩

/-! ### `removeSoftPageBreak` -/

/-- The expression `/content\.xml$/`. -/
def reContentPart : Re := Re.cat [.str "content.xml", .eos]

/-- The three replaces of `removeSoftPageBreak`, in their order. -/
def stripSoftPageBreaks (data : Str) : Str :=
  let d1 := (Re.str "text:use-soft-page-breaks=\"true\"").replaceAll data (fun _ _ => [])
  let d2 := (Re.str "<text:soft-page-break/>").replaceAll d1 (fun _ _ => [])
  (Re.str "<text:soft-page-break></text:soft-page-break>").replaceAll d2 (fun _ _ => [])

/-- The function `removeSoftPageBreak`: the first file whose name ends in
`content.xml` is rewritten and the loop returns. -/
def removeSoftPageBreak : List File → List File
  | [] => []
  | f :: fs =>
      if reContentPart.test f.name then { f with data := stripSoftPageBreaks f.data } :: fs
      else f :: removeSoftPageBreak fs

/-! ### `execute` -/

/-- The template: `files` is `none` when the property is `undefined`. The
`data` tree is not part of the record, it enters through `get`. -/
structure Template where
  filename : Str
  extension : Str
  embeddings : List Str
  files : Option (List File)
  deriving DecidableEq

/-- How `execute` ends: the callback is called with an error (`none` for
`null`) and the template, or an exception leaves the function, the template
being as the last assignment left it. -/
inductive Result where
  | callback (err : Option Str) (template : Option Template)
  | thrown (message : Str) (template : Template)
  deriving DecidableEq

/-- ASCII lower case of a character (no other character has an ASCII letter
as its lower case but U+212A, whose lower case `k` is in none of the type
names). -/
def lowerChar (c : Char) : Char :=
  if 65 ≤ c.toNat ∧ c.toNat ≤ 90 then Char.ofNat (c.toNat + 32) else c

/-- `path.extname(p)` (POSIX): from the last dot of the base name, empty when
there is no dot, when the dot starts the base name or when it is `..`. -/
def extname (p : Str) : Str :=
  let b := basename p
  let ext := (b.reverse.takeWhile (fun c => c ≠ '.')).reverse
  if ext.length = b.length then []
  else if ext.length + 1 = b.length then []
  else if b = "..".toList then []
  else '.' :: ext

/-- `path.extname(name).toLowerCase().slice(1)`. -/
def embeddedFileType (name : Str) : Str := ((extname name).map lowerChar).drop 1

/-- The `switch` of `execute` for one scope. -/
def route (get : List Str → Option Nat) (fileType parentFilter : Str) (files : List File) :
    Outcome :=
  if fileType = "xlsx".toList then
    adjustTableHeights get (convertSharedStringToInlineString files parentFilter) parentFilter
  else if fileType = "ods".toList then convertNumberMarkersIntoNumericFormat files
  else if fileType = "odt".toList then ⟨removeSoftPageBreak files, none⟩
  else ⟨files, none⟩

/-- The `for` loop of `execute` over the scopes still to process, each with
its parent filter and file type. -/
def runScopes (get : List Str → Option Nat) : List (Str × Str) → List File → Outcome
  | [], files => ⟨files, none⟩
  | sc :: rest, files =>
      match route get sc.2 sc.1 files with
      | ⟨files1, some e⟩ => ⟨files1, some e⟩
      | ⟨files1, none⟩ => runScopes get rest files1

/-- The scopes of a template: the main document (filter empty, type the
template's `extension`), then each embedding. -/
def scopes (t : Template) : List (Str × Str) :=
  ([], t.extension) :: t.embeddings.map (fun e => (e, embeddedFileType e))

/-- The function `execute`; `none` is the `null` template. -/
def execute (get : List Str → Option Nat) (template : Option Template) : Result :=
  match template with
  | none => .callback none none
  | some t =>
      match t.files with
      | none => .callback none (some t)
      | some files =>
          match runScopes get (scopes t) files with
          | ⟨files1, some e⟩ => .thrown e { t with files := some files1 }
          | ⟨files1, none⟩ => .callback none (some { t with files := some files1 })

end preprocessor

namespace Js

/-- The cuts of `u ++ v` that fall strictly inside `u`, shortest first (the
first candidates of a quantifier whose class holds every character of `u`). -/
def cuts : Str → Str → List (Str × Str)
  | [], _ => []
  | c :: t, v => ([], c :: t ++ v) :: (cuts t v).map (fun x => (c :: x.1, x.2))

/-- The first way for `r` to match at the start of `s` that the continuation
`k` accepts: the backtracking search in continuation-passing form. -/
def Re.first (r : Re) (s : Str) (c : Caps) (k : Str × Str × Caps → Option (Str × Str × Caps)) :
    Option (Str × Str × Caps) :=
  (r.run s c).findSome? k

end Js

namespace preprocessor

open Js

/-- The resolver of the examples: `d.items` is an array of three elements,
nothing else is an array. -/
def itemsOfLength3 (keys : List Str) : Option Nat :=
  if keys = ["items".toList] then some 3 else none

/-- The data paths of the `:tableGuide` markers that the marker pass finds in
a sheet, in match order. -/
def markerPaths (data : Str) : List Str :=
  (reTableGuide.segs data 0).filterMap
    (fun g => match g with
      | .hit _ caps => some (cap caps 1)
      | .chr _ => none)

end preprocessor

namespace preprocessor

open Js

/-- The text of a string pool made of the entries `fs`: each one between
`<si>` and `</si>`, one after the other. -/
def poolOf (fs : List Str) : Str :=
  fs.flatMap (fun f => "<si>".toList ++ f ++ "</si>".toList)

/-- A fragment that the reader gives back as it is: not empty, free of line
terminators, and not holding the closing tag of an entry. -/
def WellBehaved (f : Str) : Prop :=
  f ≠ [] ∧ (∀ c ∈ f, isLineTerminator c = false) ∧ ¬ "</si>".toList <:+: f

end preprocessor

namespace preprocessor

open Js

/-- A sheet of the scope with its `:tableGuide` markers erased, any other
file as it is: what the marker pass leaves of a file it got through. -/
def eraseMarkers (parentFilter : Str) (g : File) : File :=
  if isSheet parentFilter g then
    { g with data := reTableGuide.replaceAll g.data (fun _ _ => []) }
  else g

end preprocessor

namespace preprocessor

open Js

/-- `Deleted pat s out`: `out` is `s` with the occurrences of the text `pat`
deleted from left to right, each search resuming right after the occurrence
deleted (text that a deletion joins is not searched again). -/
inductive Deleted (pat : Str) : Str → Str → Prop where
  | done : Deleted pat [] []
  | hit (r out : Str) : Deleted pat r out → Deleted pat (pat ++ r) out
  | miss (c : Char) (t out : Str) : ¬ pat <+: c :: t → Deleted pat t out →
      Deleted pat (c :: t) (c :: out)

end preprocessor

namespace preprocessor

open Js

/-- A quote character, single or double: the class `['"]`. -/
def isQuote (q : Char) : Bool := oneOf [squote, dquote] q

/-- A run of one to three capital letters: what `[A-Z]{1,3}` takes as the
column of a cell reference. -/
def isColumn (c : Str) : Bool := decide (1 ≤ c.length) && decide (c.length ≤ 3) && c.all isUpper

/-- A run of decimal digits, not empty: what `\d+` takes as a row number. -/
def isRow (r : Str) : Bool := !r.isEmpty && r.all isDigit

/-- The attribute `ref=` of a table part: quote, start column and row, colon,
end column and row, quote. -/
def rangeAttr (q1 : Char) (c1 r1 c2 r2 : Str) (q2 : Char) : Str :=
  "ref=".toList ++ (q1 :: (c1 ++ (r1 ++ (':' :: (c2 ++ (r2 ++ [q2]))))))

end preprocessor

namespace preprocessor

open Js

/-- A table name as a marker and a `name=` attribute can carry it: not empty,
free of line terminators, of quotes and of the closing parenthesis. -/
def isTableName (T : Str) : Bool :=
  !T.isEmpty && T.all (fun c => dot c && !isQuote c && !decide (c = ')'))

/-- The text of a table part up to its `ref=` attribute: `p0`, the attribute
`name=` declaring `T` between quotes `q`, then `p1`. -/
def tableHead (p0 : Str) (q : Char) (T p1 : Str) : Str :=
  p0 ++ ("name=".toList ++ (q :: (T ++ q :: p1)))

/-- The largest integer below which every integer is a JavaScript number. -/
def maxSafe : Nat := 2 ^ 53

end preprocessor

namespace preprocessor

open Js

/-- The opening brace of a marker. -/
def lbrace : Char := Char.ofNat 123

/-- A data path as a marker carries it: not empty, free of line terminators
and of the colon that starts the formatter. -/
def isDataPath (P : Str) : Bool :=
  !P.isEmpty && P.all (fun c => dot c && !decide (c = ':'))

/-- The marker binding the table `T` to the array at path `P`, written with
quotes around the table name. -/
def guideMarker (P T : Str) : Str :=
  "\x7bd.".toList ++ (P ++ (":tableGuide(".toList ++ (squote :: (T ++ squote :: ")\x7d".toList))))

end preprocessor

namespace preprocessor

open Js

/-- A cell of shared-string type: open tag with the attributes `A` before
`t="s"`, and the index `idx` as its value. -/
def sharedCell (A idx : Str) : Str :=
  "<c ".toList ++ (A ++ (" t=\"s\"><v>".toList ++ (idx ++ "</v></c>".toList)))

end preprocessor

namespace preprocessor

open Js

/-- The closing brace of a marker. -/
def rbrace : Char := Char.ofNat 125

/-- The marker `{d.<P>:<name>(<ARGS>)}`: data path, formatter name and
formatter arguments. -/
def formatterMarker (P name ARGS : Str) : Str :=
  "\x7bd.".toList ++ (P ++ ((':' :: (name ++ "(".toList)) ++ (ARGS ++ ")\x7d".toList)))

/-- The expression `/{[d|c][.].*:<name>\(.*\)}/`, of which `reFormatN` and
`reFormatDExcel` are the two instances. -/
def reFormatter (name : Str) : Re :=
  Re.cat [.str "\x7b", .set (oneOf "d|c".toList), .set (oneOf ".".toList), .star dot,
    .lit (':' :: (name ++ "(".toList)), .star dot, .str ")\x7d"]

/-- The text of a path or of formatter arguments inside a marker: free of line
terminators, of colons and of `<`. -/
def isMarkerText (s : Str) : Bool :=
  s.all (fun c => dot c && !decide (c = ':') && !decide (c = '<'))

/-- A formatter name: letters and digits. -/
def isFormatterName (s : Str) : Bool := s.all (fun c => isWord c)

end preprocessor

namespace preprocessor

open Js

end preprocessor

namespace preprocessor

open Js

end preprocessor

namespace preprocessor

open Js

/-- The open tags of a string-typed table cell of an ods document. -/
def odsCellOpen : Str :=
  "<table:table-cell office:value-type=\"string\" calcext:value-type=\"string\"><text:p>".toList

/-- The open tags of the same cell once typed as a float of value `v`. -/
def odsFloatCellOpen (v : Str) : Str :=
  "<table:table-cell office:value-type=\"float\" office:value=\"".toList ++ (v ++
    "\" calcext:value-type=\"float\"><text:p>".toList)

/-- The close tags of a table cell. -/
def odsCellClose : Str := "</text:p></table:table-cell>".toList

/-- A string-typed table cell of text `text`. -/
def odsCell (text : Str) : Str := odsCellOpen ++ (text ++ odsCellClose)

/-- The text of a path or of formatter arguments inside a marker of an ods
cell: free of line terminators and of the characters `:`, `<`, braces, `$`,
double quote and parentheses. -/
def isOdsText (s : Str) : Bool :=
  s.all (fun c => dot c && !(":<\x7b\x7d$\"()".toList.contains c))

end preprocessor

namespace preprocessor

open Js

/-- The end of the cell expression, from the text after `formatN` on. -/
def reNumberCellTail : Re :=
  Re.cat [.star (notCh '<'), .str "</text:p>", .star isSpace, .str "</table:table-cell>"]

end preprocessor

namespace preprocessor

open Js

/-- A range attribute `ref=` of a table part: the quotes around the value,
the start column and row, the end column and row. -/
structure Range where
  q1 : Char
  c1 : Str
  r1 : Str
  c2 : Str
  r2 : Str
  q2 : Char
  deriving DecidableEq

/-- The text of a range attribute. -/
def Range.text (r : Range) : Str := rangeAttr r.q1 r.c1 r.r1 r.c2 r.r2 r.q2

/-- A range attribute as the range expression takes it: quotes, columns of
one to three capital letters, rows of decimal digits. -/
def Range.wellFormed (r : Range) : Bool :=
  isQuote r.q1 && isQuote r.q2 && isColumn r.c1 && isColumn r.c2 && isRow r.r1 && isRow r.r2

/-- The range with the start row plus `L` as its end row. -/
def Range.withLength (L : Nat) (r : Range) : Range :=
  { r with r2 := numToStr (toNumber r.r1 + L) }

/-- The text of a table part after its head: range attributes, each followed
by a text. -/
def rangesText : List (Range × Str) → Str
  | [] => []
  | p :: ps => p.1.text ++ (p.2 ++ rangesText ps)

/-- The ranges of a table part, each with the start row plus `L` as its end
row; the texts after them as they are. -/
def withLength (L : Nat) (ps : List (Range × Str)) : List (Range × Str) :=
  ps.map (fun p => (p.1.withLength L, p.2))

/-- What a table part of a workbook looks like: the table range and the range
of its filter. -/
def tableRanges (tableRange filterRange : Range) : List (Range × Str) :=
  [(tableRange, "><autoFilter ".toList), (filterRange, "/></table>".toList)]

end preprocessor

/-! ## Lemmas on the matcher -/

namespace Js

theorem dropLit_append (l r : Str) : dropLit l (l ++ r) = some r := by
  induction l with
  | nil => rfl
  | cons a l ih => simp [dropLit, ih]

theorem dropLit_eq_some {l s r : Str} : dropLit l s = some r ↔ s = l ++ r := by
  induction l generalizing s with
  | nil => simp [dropLit, eq_comm]
  | cons a l ih =>
    cases s with
    | nil => simp [dropLit]
    | cons b s =>
      by_cases h : a = b
      · subst h; simp [dropLit, ih]
      · simp [dropLit, h, Ne.symm h]

theorem dropLit_eq_none {l s : Str} : dropLit l s = none ↔ ∀ r, s ≠ l ++ r := by
  rw [← Option.not_isSome_iff_eq_none, Option.isSome_iff_exists]
  simp [dropLit_eq_some]

end Js

namespace Js

theorem mem_cuts {u v : Str} {x : Str × Str} (h : x ∈ cuts u v) :
    ∃ a b, u = a ++ b ∧ b ≠ [] ∧ x = (a, b ++ v) := by
  induction u generalizing x with
  | nil => simp [cuts] at h
  | cons c t ih =>
    simp only [cuts, List.mem_cons, List.mem_map] at h
    rcases h with h | ⟨y, hy, rfl⟩
    · exact ⟨[], c :: t, by simp, by simp, by simpa using h⟩
    · obtain ⟨a, b, hab, hb, rfl⟩ := ih hy
      exact ⟨c :: a, b, by simp [hab], hb, rfl⟩

theorem splits_append (p : Char → Bool) (u v : Str) (hu : ∀ c ∈ u, p c = true) :
    splits p (u ++ v) = cuts u v ++ (splits p v).map (fun x => (u ++ x.1, x.2)) := by
  induction u with
  | nil => simp [cuts]
  | cons c t ih =>
    have hc : p c = true := hu c (by simp)
    have ht : ∀ d ∈ t, p d = true := fun d hd => hu d (by simp [hd])
    simp [splits, cuts, hc, ih ht, List.map_map, Function.comp_def]

theorem mem_splits {p : Char → Bool} {s : Str} {x : Str × Str} (h : x ∈ splits p s) :
    s = x.1 ++ x.2 ∧ ∀ c ∈ x.1, p c = true := by
  induction s generalizing x with
  | nil => simp [splits] at h; subst h; simp
  | cons c t ih =>
    simp only [splits, List.mem_cons] at h
    rcases h with rfl | h
    · simp
    · by_cases hc : p c = true
      · simp only [hc, if_true, List.mem_map] at h
        obtain ⟨y, hy, rfl⟩ := h
        obtain ⟨h1, h2⟩ := ih hy
        refine ⟨by simp [← h1], ?_⟩
        intro d hd
        simp only [List.mem_cons] at hd
        rcases hd with rfl | hd
        · exact hc
        · exact h2 d hd
      · simp [hc] at h

theorem splits_head (p : Char → Bool) (s : Str) :
    splits p s = ([], s) :: (splits p s).tail := by
  cases s <;> simp [splits]

/-! ### The matcher in continuation-passing form -/

theorem matchAt_eq_first (re : Re) (s : Str) : re.matchAt s = re.first s [] some := by
  unfold Re.matchAt Re.first
  induction re.run s [] <;> simp

theorem findSome?_single {α β : Type} (k : α → Option β) (x : α) :
    [x].findSome? k = k x := by
  simp only [List.findSome?_cons, List.findSome?_nil]
  split <;> simp_all

theorem first_lit (l s : Str) (c : Caps) (k) :
    (Re.lit l).first s c k = match dropLit l s with
      | some r => k (l, r, c)
      | none => none := by
  unfold Re.first
  simp only [Re.run]
  cases dropLit l s <;> simp [List.findSome?_cons]
  split <;> simp_all

theorem first_str (l : String) (s : Str) (c : Caps) (k) :
    (Re.str l).first s c k = match dropLit l.toList s with
      | some r => k (l.toList, r, c)
      | none => none := first_lit _ _ _ _

theorem first_set (p : Char → Bool) (s : Str) (c : Caps) (k) :
    (Re.set p).first s c k = match s with
      | [] => none
      | x :: t => if p x then k ([x], t, c) else none := by
  unfold Re.first
  simp only [Re.run]
  cases s with
  | nil => simp
  | cons x t =>
    by_cases h : p x = true <;> simp [h, List.findSome?_cons]
    split <;> simp_all

theorem findSome?_flatMap {α β γ : Type} (l : List α) (f : α → List β) (k : β → Option γ) :
    (l.flatMap f).findSome? k = l.findSome? (fun a => (f a).findSome? k) := by
  induction l with
  | nil => rfl
  | cons a l ih =>
    simp only [List.flatMap_cons, List.findSome?_append, ih, List.findSome?_cons]
    cases h : (f a).findSome? k <;> simp

theorem first_seq (a b : Re) (s : Str) (c : Caps) (k) :
    (Re.seq a b).first s c k =
      a.first s c (fun x => b.first x.2.1 x.2.2 (fun y => k (x.1 ++ y.1, y.2.1, y.2.2))) := by
  unfold Re.first
  simp only [Re.run, findSome?_flatMap, List.findSome?_map, Function.comp_def]

theorem first_alt (a b : Re) (s : Str) (c : Caps) (k) :
    (Re.alt a b).first s c k = (a.first s c k).or (b.first s c k) := by
  unfold Re.first
  simp only [Re.run, List.findSome?_append]

theorem first_grp (i : Nat) (r : Re) (s : Str) (c : Caps) (k) :
    (Re.grp i r).first s c k = r.first s c (fun x => k (x.1, x.2.1, (i, x.1) :: x.2.2)) := by
  unfold Re.first
  simp only [Re.run, List.findSome?_map, Function.comp_def]

theorem first_bref (i : Nat) (s : Str) (c : Caps) (k) :
    (Re.bref i).first s c k = match c.lookup i with
      | none => k ([], s, c)
      | some l => match dropLit l s with
          | some r => k (l, r, c)
          | none => none := by
  unfold Re.first
  simp only [Re.run]
  cases c.lookup i with
  | none => simp only [findSome?_single]
  | some l =>
    cases hd : dropLit l s with
    | none => simp [hd]
    | some r => simp only [hd, findSome?_single]

theorem first_eos (s : Str) (c : Caps) (k) :
    Re.eos.first s c k = match s with
      | [] => k ([], [], c)
      | _ :: _ => none := by
  unfold Re.first
  simp only [Re.run]
  cases s <;> simp [List.findSome?_cons]
  split <;> simp_all

/-- A quantifier fails when the continuation rejects every cut. -/
theorem first_rep_none (g : Bool) (lo : Nat) (hi : Option Nat) (p : Char → Bool) (s : Str)
    (c : Caps) (k)
    (h : ∀ a b, s = a ++ b → (∀ d ∈ a, p d = true) → k (a, b, c) = none) :
    (Re.rep g lo hi p).first s c k = none := by
  unfold Re.first
  rw [List.findSome?_eq_none_iff]
  intro x hx
  have hx2 : x ∈ ((splits p s).filter (fun x => inBounds lo hi x.1.length)).map
      (fun x => (x.1, x.2, c)) := by
    simp only [Re.run] at hx
    cases g <;> simpa using hx
  simp only [List.mem_map, List.mem_filter] at hx2
  obtain ⟨y, ⟨hy, -⟩, rfl⟩ := hx2
  obtain ⟨h1, h2⟩ := mem_splits hy
  exact h _ _ h1 h2

/-- A lazy quantifier stops at the first cut the continuation accepts. -/
theorem first_lazy_some (lo : Nat) (p : Char → Bool) (u v : Str) (c : Caps) (k) (y)
    (hu : ∀ d ∈ u, p d = true) (hlo : lo ≤ u.length)
    (hfail : ∀ a b, u = a ++ b → b ≠ [] → lo ≤ a.length → k (a, b ++ v, c) = none)
    (hk : k (u, v, c) = some y) :
    (Re.rep false lo none p).first (u ++ v) c k = some y := by
  unfold Re.first
  simp only [Re.run, Bool.false_eq_true, if_false]
  rw [splits_append p u v hu, splits_head p v]
  simp only [List.map_cons, List.filter_append, List.map_append, List.findSome?_append,
    List.append_nil]
  have h1 : (List.map (fun x => (x.1, x.2, c))
      (List.filter (fun x => inBounds lo none x.1.length) (cuts u v))).findSome? k = none := by
    rw [List.findSome?_eq_none_iff]
    intro x hx
    simp only [List.mem_map, List.mem_filter] at hx
    obtain ⟨z, ⟨hz, hb⟩, rfl⟩ := hx
    obtain ⟨a, b, hab, hbne, rfl⟩ := mem_cuts hz
    apply hfail a b hab hbne
    simpa [inBounds] using hb
  rw [h1]
  have h2 : inBounds lo none u.length = true := by simp [inBounds, hlo]
  simp [List.filter_cons, h2, List.findSome?_cons, hk]

/-- A greedy quantifier gives back characters until the continuation accepts. -/
theorem first_greedy_some (lo : Nat) (p : Char → Bool) (u v : Str) (c : Caps) (k) (y)
    (hu : ∀ d ∈ u, p d = true) (hlo : lo ≤ u.length)
    (hfail : ∀ x ∈ (splits p v).tail, k (u ++ x.1, x.2, c) = none)
    (hk : k (u, v, c) = some y) :
    (Re.rep true lo none p).first (u ++ v) c k = some y := by
  unfold Re.first
  simp only [Re.run, if_true]
  rw [splits_append p u v hu, splits_head p v]
  simp only [List.map_cons, List.filter_append, List.map_append, List.reverse_append,
    List.findSome?_append, List.append_nil]
  have h2 : inBounds lo none u.length = true := by simp [inBounds, hlo]
  simp only [List.filter_cons, h2, if_true, List.map_cons, List.reverse_cons,
    List.findSome?_append]
  have h1 : (List.map (fun x => (x.1, x.2, c))
      (List.filter (fun x => inBounds lo none x.1.length)
        (List.map (fun x => (u ++ x.1, x.2)) (splits p v).tail))).reverse.findSome? k = none := by
    rw [List.findSome?_eq_none_iff]
    intro x hx
    simp only [List.mem_reverse, List.mem_map, List.mem_filter] at hx
    obtain ⟨z, ⟨⟨w, hw, rfl⟩, -⟩, rfl⟩ := hx
    exact hfail w hw
  rw [h1]
  simp [List.findSome?_cons, hk]

end Js

namespace Js

/-! ### Scanning -/

theorem search_hit (re : Re) (s : Str) (x : Str × Str × Caps) (h : re.matchAt s = some x) :
    re.search s = some ⟨[], x.1, x.2.2, x.2.1⟩ := by
  cases s with
  | nil => simp [Re.search, h]
  | cons c t => simp [Re.search, h]

theorem search_skip (re : Re) (u v : Str)
    (h : ∀ a b, u = a ++ b → b ≠ [] → re.matchAt (b ++ v) = none) :
    re.search (u ++ v) = (re.search v).map (fun y => { y with before := u ++ y.before }) := by
  induction u with
  | nil => cases hs : re.search v <;> simp [hs]
  | cons c t ih =>
    have h1 : re.matchAt (c :: (t ++ v)) = none := h [] (c :: t) rfl (by simp)
    have h2 : ∀ a b, t = a ++ b → b ≠ [] → re.matchAt (b ++ v) = none :=
      fun a b hab hb => h (c :: a) b (by simp [hab]) hb
    rw [List.cons_append, Re.search, h1, ih h2]
    cases hs : re.search v <;> simp [hs]

theorem search_none (re : Re) (s : Str)
    (h : ∀ a b, s = a ++ b → re.matchAt b = none) : re.search s = none := by
  induction s with
  | nil => simp [Re.search, h [] [] rfl]
  | cons c t ih =>
    have h1 : re.matchAt (c :: t) = none := h [] (c :: t) rfl
    have h2 : ∀ a b, t = a ++ b → re.matchAt b = none :=
      fun a b hab => h (c :: a) b (by simp [hab])
    simp [Re.search, h1, ih h2]

theorem segs_skip (re : Re) (m rest : Str) : re.segs (m ++ rest) m.length = re.segs rest 0 := by
  induction m with
  | nil => rfl
  | cons c m ih => simpa [Re.segs] using ih

theorem segs_hit (re : Re) (c : Char) (m rest r : Str) (caps : Caps)
    (h : re.matchAt (c :: m ++ rest) = some (c :: m, r, caps)) :
    re.segs (c :: m ++ rest) 0 = Seg.hit (c :: m) caps :: re.segs rest 0 := by
  have h2 : re.segs (c :: (m ++ rest)) 0 = Seg.hit (c :: m) caps :: re.segs rest 0 := by
    rw [Re.segs, show c :: (m ++ rest) = c :: m ++ rest from rfl, h]
    simp [segs_skip]
  simpa using h2

theorem segs_miss (re : Re) (c : Char) (t : Str) (h : re.matchAt (c :: t) = none) :
    re.segs (c :: t) 0 = Seg.chr c :: re.segs t 0 := by
  rw [Re.segs, h]

theorem segs_skip_run (re : Re) (u v : Str)
    (h : ∀ a b, u = a ++ b → b ≠ [] → re.matchAt (b ++ v) = none) :
    re.segs (u ++ v) 0 = u.map Seg.chr ++ re.segs v 0 := by
  induction u with
  | nil => rfl
  | cons c t ih =>
    have h1 : re.matchAt (c :: (t ++ v)) = none := h [] (c :: t) rfl (by simp)
    have h2 : ∀ a b, t = a ++ b → b ≠ [] → re.matchAt (b ++ v) = none :=
      fun a b hab hb => h (c :: a) b (by simp [hab]) hb
    rw [List.cons_append, segs_miss re c (t ++ v) h1, ih h2]
    rfl

theorem segs_nil (re : Re) (h : re.matchAt [] = none) (k : Nat) : re.segs [] k = [] := by
  simp [Re.segs, h]

theorem segs_all_miss (re : Re) (s : Str)
    (h : ∀ a b, s = a ++ b → re.matchAt b = none) : re.segs s 0 = s.map Seg.chr := by
  have h1 := segs_skip_run re s [] (fun a b hab _ => by simpa using h a b hab)
  simpa [segs_nil re (h s [] (by simp))] using h1

theorem flatMap_render_chr (f : Str → Caps → Str) (u : Str) :
    (u.map Seg.chr).flatMap (Seg.render f) = u := by
  induction u with
  | nil => rfl
  | cons c t ih => simp [Seg.render, ih]

theorem replaceAll_all_miss (re : Re) (s : Str) (f : Str → Caps → Str)
    (h : ∀ a b, s = a ++ b → re.matchAt b = none) : re.replaceAll s f = s := by
  simp [Re.replaceAll, segs_all_miss re s h, flatMap_render_chr]

/-! ### Literals -/

/-- A literal that is a prefix of `b ++ (l ++ rest)` with `b` not empty either
lies inside `b` or overlaps itself. -/
theorem lit_overlap (l b rest r : Str) (hb : b ≠ []) (h : b ++ (l ++ rest) = l ++ r) :
    l <+: b ∨ ∃ k, k < l.length ∧ 0 < k ∧ l.drop k <+: l := by
  rcases List.append_eq_append_iff.mp h with ⟨a', h1, h2⟩ | ⟨c', h1, h2⟩
  · -- l = b ++ a'
    by_cases ha : a' = []
    · left; subst ha; simp at h1; exact ⟨[], by simp [h1]⟩
    · right
      refine ⟨b.length, ?_, ?_, ?_⟩
      · rw [h1]; simp; exact List.length_pos.mpr ha
      · exact List.length_pos.mpr hb
      · have hd : l.drop b.length = a' := by rw [h1]; simp
        rw [hd]
        have hp1 : a' <+: l ++ rest := ⟨r, h2.symm⟩
        have hp2 : l <+: l ++ rest := ⟨rest, rfl⟩
        exact List.prefix_of_prefix_length_le hp1 hp2 (by rw [h1]; simp)
  · left; exact ⟨c', h1.symm⟩

theorem dropLit_none_of_head {l : Str} {a c : Char} {t : Str} (h : a ≠ c) :
    dropLit (a :: l) (c :: t) = none := by
  simp [dropLit, h]

/-- When every cut the continuation accepts gives the same result, the search
gives that result as soon as one cut is accepted. -/
theorem findSome?_const {α β : Type} (l : List α) (k : α → Option β) (y : β)
    (hall : ∀ x ∈ l, k x = none ∨ k x = some y) (hex : ∃ x ∈ l, k x = some y) :
    l.findSome? k = some y := by
  induction l with
  | nil => simp at hex
  | cons a l ih =>
    rcases hall a (by simp) with h | h
    · have : l.findSome? k = some y := by
        apply ih (fun x hx => hall x (by simp [hx]))
        obtain ⟨x, hx, hk⟩ := hex
        simp only [List.mem_cons] at hx
        rcases hx with rfl | hx
        · rw [h] at hk; cases hk
        · exact ⟨x, hx, hk⟩
      simp [List.findSome?_cons, h, this]
    · simp [List.findSome?_cons, h]

end Js

namespace Js

/-- A lazy class run followed by a literal stops before the first place where
the literal stands, provided the literal does not occur earlier. -/
theorem dropLit_cut_none (l f a b rest : Str) (hab : f = a ++ b) (hb : b ≠ [])
    (hin : ¬ l <:+: f) (hborder : ∀ k, k < l.length → 0 < k → ¬ l.drop k <+: l) :
    dropLit l (b ++ (l ++ rest)) = none := by
  rw [dropLit_eq_none]
  intro r hr
  rcases lit_overlap l b rest r hb hr with h | ⟨k, h1, h2, h3⟩
  · apply hin
    obtain ⟨t, ht⟩ := h
    exact ⟨a, t, by rw [hab, ← ht]; simp⟩
  · exact hborder k h1 h2 h3

end Js

namespace preprocessor

open Js

theorem closeSi_noBorder :
    ∀ k, k < "</si>".toList.length → 0 < k → ¬ "</si>".toList.drop k <+: "</si>".toList := by
  decide

theorem sharedStringTag_matchAt (f rest : Str) (hne : f ≠ [])
    (hdot : ∀ c ∈ f, dot c = true) (hin : ¬ "</si>".toList <:+: f) :
    reSharedStringTag.matchAt ("<si>".toList ++ f ++ "</si>".toList ++ rest) =
      some ("<si>".toList ++ f ++ "</si>".toList, rest, [(1, f)]) := by
  rw [matchAt_eq_first]
  simp only [reSharedStringTag, Re.cat, Re.lazyPlus, first_seq, first_str, first_grp,
    List.append_assoc, dropLit_append]
  apply first_lazy_some 1 dot f ("</si>".toList ++ rest) [] _ _ hdot
  · exact List.length_pos.mpr hne
  · intro a b hab hb _
    simp only [dropLit_cut_none "</si>".toList f a b rest hab hb hin closeSi_noBorder]
  · simp only [dropLit_append]

end preprocessor

namespace Js

theorem segs_hit_append (re : Re) (m rest r : Str) (caps : Caps) (hm : m ≠ [])
    (h : re.matchAt (m ++ rest) = some (m, r, caps)) :
    re.segs (m ++ rest) 0 = Seg.hit m caps :: re.segs rest 0 := by
  cases m with
  | nil => exact absurd rfl hm
  | cons c m => exact segs_hit re c m rest r caps h

end Js

namespace preprocessor

open Js

theorem readSharedString_poolOf (fs : List Str) (h : ∀ f ∈ fs, WellBehaved f) :
    readSharedString (some (poolOf fs)) = fs := by
  induction fs with
  | nil => decide
  | cons f fs ih =>
    obtain ⟨hne, hlt, hin⟩ := h f (by simp)
    have hdot : ∀ c ∈ f, dot c = true := fun c hc => by simp [dot, hlt c hc]
    have ih2 := ih (fun g hg => h g (by simp [hg]))
    have hm := sharedStringTag_matchAt f (poolOf fs) hne hdot hin
    have hs := segs_hit_append reSharedStringTag ("<si>".toList ++ f ++ "</si>".toList)
      (poolOf fs) (poolOf fs) [(1, f)] (by simp) hm
    simp only [readSharedString] at ih2 ⊢
    have hp : poolOf (f :: fs) = "<si>".toList ++ f ++ "</si>".toList ++ poolOf fs := by
      simp [poolOf]
    rw [hp, hs]
    simp only [List.filterMap_cons, ih2]
    simp [cap]

theorem readSharedString_entry_free (xml : Str) (h : ¬ "<si>".toList <:+: xml) :
    readSharedString (some xml) = [] := by
  have hmiss : ∀ a b, xml = a ++ b → reSharedStringTag.matchAt b = none := by
    intro a b hab
    rw [matchAt_eq_first]
    simp only [reSharedStringTag, Re.cat, first_seq, first_str]
    have hd : dropLit "<si>".toList b = none := by
      rw [dropLit_eq_none]
      intro r hr
      exact h ⟨a, r, by rw [hab, hr]; simp⟩
    rw [hd]
  simp [readSharedString, segs_all_miss _ _ hmiss]

end preprocessor

namespace preprocessor

open Js

theorem guideReplace_none_iff (get : List Str → Option Nat) (gs : List Seg)
    (refs : List TableRef) :
    guideReplace get gs refs = none ↔
      ∃ p ∈ gs.filterMap (fun g => match g with
          | .hit _ caps => some (cap caps 1)
          | .chr _ => none), get (split '.' p) = none := by
  induction gs generalizing refs with
  | nil => simp [guideReplace]
  | cons g gs ih =>
    cases g with
    | chr c => simp [guideReplace, ih]
    | hit m caps =>
      cases hg : get (split '.' (cap caps 1)) with
      | none => simp [guideReplace, hg]
      | some n =>
        simp only [guideReplace, hg, ih, List.filterMap_cons, List.mem_cons]
        constructor
        · rintro ⟨p, hp, h⟩; exact ⟨p, Or.inr hp, h⟩
        · rintro ⟨p, hp | hp, h⟩
          · subst hp; rw [hg] at h; cases h
          · exact ⟨p, hp, h⟩

theorem guideReplace_text (get : List Str → Option Nat) (gs : List Seg)
    (refs : List TableRef) (r : Str × List TableRef) (h : guideReplace get gs refs = some r) :
    r.1 = gs.flatMap (Seg.render (fun _ _ => [])) := by
  induction gs generalizing refs r with
  | nil => simp [guideReplace] at h; subst h; rfl
  | cons g gs ih =>
    cases g with
    | chr c =>
      simp only [guideReplace, Option.map_eq_some'] at h
      obtain ⟨q, hq, rfl⟩ := h
      simp [Seg.render, ih refs q hq]
    | hit m caps =>
      cases hg : get (split '.' (cap caps 1)) with
      | none => simp [guideReplace, hg] at h
      | some n =>
        simp only [guideReplace, hg] at h
        simp [Seg.render, ih _ r h]

theorem processTableRefs_none_iff (get : List Str → Option Nat) (pf : Str) (files : List File)
    (refs : List TableRef) :
    (processTableRefs get pf files refs).2 = none ↔
      ∃ f ∈ files, isSheet pf f = true ∧ ∃ p ∈ markerPaths f.data, get (split '.' p) = none := by
  induction files generalizing refs with
  | nil => simp [processTableRefs]
  | cons f fs ih =>
    by_cases hs : isSheet pf f = true
    · cases hg : guideReplace get (reTableGuide.segs f.data 0) refs with
      | none =>
        have := (guideReplace_none_iff get _ refs).mp hg
        simp only [processTableRefs, hs, if_true, hg, true_iff]
        exact ⟨f, by simp, hs, this⟩
      | some r =>
        have hn : ¬ ∃ p ∈ markerPaths f.data, get (split '.' p) = none := by
          intro hex
          have := (guideReplace_none_iff get _ refs).mpr hex
          rw [hg] at this; cases this
        simp only [processTableRefs, hs, if_true, hg, ih, List.mem_cons]
        constructor
        · rintro ⟨g, hg1, hg2⟩; exact ⟨g, Or.inr hg1, hg2⟩
        · rintro ⟨g, rfl | hg1, hg2⟩
          · exact absurd hg2.2 hn
          · exact ⟨g, hg1, hg2⟩
    · simp only [processTableRefs, hs, Bool.false_eq_true, if_false, ih, List.mem_cons]
      constructor
      · rintro ⟨g, hg1, hg2⟩; exact ⟨g, Or.inr hg1, hg2⟩
      · rintro ⟨g, rfl | hg1, hg2⟩
        · exact absurd hg2.1 hs
        · exact ⟨g, hg1, hg2⟩

theorem adjustTableHeights_error_iff (get : List Str → Option Nat) (files : List File)
    (pf : Str) :
    (adjustTableHeights get files pf).error ≠ none ↔
      (processTableRefs get pf files []).2 = none := by
  unfold adjustTableHeights
  rcases hp : processTableRefs get pf files [] with ⟨files1, _ | refs⟩ <;> simp

end preprocessor

namespace preprocessor

open Js

theorem processTableRefs_fail (get : List Str → Option Nat) (pf : Str) (files : List File)
    (refs : List TableRef) (h : (processTableRefs get pf files refs).2 = none) :
    ∃ pre f post, files = pre ++ f :: post ∧ isSheet pf f = true ∧
      (∃ p ∈ markerPaths f.data, get (split '.' p) = none) ∧
      (∀ g ∈ pre, isSheet pf g = true → ∀ p ∈ markerPaths g.data, get (split '.' p) ≠ none) ∧
      (processTableRefs get pf files refs).1 = pre.map (eraseMarkers pf) ++ f :: post := by
  induction files generalizing refs with
  | nil => simp [processTableRefs] at h
  | cons f fs ih =>
    by_cases hs : isSheet pf f = true
    · cases hg : guideReplace get (reTableGuide.segs f.data 0) refs with
      | none =>
        refine ⟨[], f, fs, rfl, hs, (guideReplace_none_iff get _ refs).mp hg, by simp, ?_⟩
        simp [processTableRefs, hs, hg]
      | some r =>
        simp only [processTableRefs, hs, if_true, hg] at h
        obtain ⟨pre, f1, post, h1, h2, h3, h4, h5⟩ := ih r.2 h
        refine ⟨f :: pre, f1, post, by simp [h1], h2, h3, ?_, ?_⟩
        · intro g hg1 hg2 p hp hnone
          simp only [List.mem_cons] at hg1
          rcases hg1 with rfl | hg1
          · have := (guideReplace_none_iff get _ refs).mpr ⟨p, hp, hnone⟩
            rw [hg] at this; cases this
          · exact h4 g hg1 hg2 p hp hnone
        · have ht := guideReplace_text get _ refs r hg
          simp only [processTableRefs, hs, if_true, hg, h5, List.map_cons, List.cons_append]
          simp [eraseMarkers, hs, Re.replaceAll, ht]
    · simp only [processTableRefs, hs, Bool.false_eq_true, if_false] at h
      obtain ⟨pre, f1, post, h1, h2, h3, h4, h5⟩ := ih refs h
      refine ⟨f :: pre, f1, post, by simp [h1], h2, h3, ?_, ?_⟩
      · intro g hg1 hg2 p hp hnone
        simp only [List.mem_cons] at hg1
        rcases hg1 with rfl | hg1
        · exact absurd hg2 hs
        · exact h4 g hg1 hg2 p hp hnone
      · simp only [processTableRefs, hs, Bool.false_eq_true, if_false, h5, List.map_cons,
          List.cons_append]
        simp [eraseMarkers, hs]

theorem adjustTableHeights_files_of_fail (get : List Str → Option Nat) (files : List File)
    (pf : Str) (h : (processTableRefs get pf files []).2 = none) :
    (adjustTableHeights get files pf).files = (processTableRefs get pf files []).1 := by
  unfold adjustTableHeights
  rcases hp : processTableRefs get pf files [] with ⟨files1, _ | refs⟩
  · rfl
  · rw [hp] at h; cases h

end preprocessor

namespace preprocessor

open Js

theorem route_other (get : List Str → Option Nat) (fileType pf : Str) (files : List File)
    (h1 : fileType ≠ "xlsx".toList) (h2 : fileType ≠ "ods".toList)
    (h3 : fileType ≠ "odt".toList) : route get fileType pf files = ⟨files, none⟩ := by
  unfold route
  rw [if_neg h1, if_neg h2, if_neg h3]

theorem runScopes_other (get : List Str → Option Nat) (scs : List (Str × Str))
    (files : List File)
    (h : ∀ sc ∈ scs, sc.2 ≠ "xlsx".toList ∧ sc.2 ≠ "ods".toList ∧ sc.2 ≠ "odt".toList) :
    runScopes get scs files = ⟨files, none⟩ := by
  induction scs with
  | nil => rfl
  | cons sc rest ih =>
    obtain ⟨h1, h2, h3⟩ := h sc (by simp)
    simp only [runScopes, route_other get sc.2 sc.1 files h1 h2 h3]
    exact ih (fun x hx => h x (by simp [hx]))

end preprocessor

namespace preprocessor

open Js

theorem lit_matchAt (pat s : Str) :
    (Re.lit pat).matchAt s = (dropLit pat s).map (fun r => (pat, r, [])) := by
  rw [matchAt_eq_first, first_lit]
  cases dropLit pat s <;> rfl

theorem replaceAll_lit_deleted (pat : Str) (hp : pat ≠ []) (n : Nat) :
    ∀ s : Str, s.length ≤ n → Deleted pat s ((Re.lit pat).replaceAll s (fun _ _ => [])) := by
  induction n with
  | zero =>
    intro s hs
    have : s = [] := List.length_eq_zero.mp (Nat.le_zero.mp hs)
    subst this
    have h0 : (Re.lit pat).matchAt [] = none := by
      rw [lit_matchAt]
      cases pat with
      | nil => exact absurd rfl hp
      | cons a l => simp [dropLit]
    simp only [Re.replaceAll, segs_nil _ h0, List.flatMap_nil]
    exact Deleted.done
  | succ n ih =>
    intro s hs
    cases s with
    | nil => exact ih [] (Nat.zero_le _)
    | cons c t =>
      cases hd : dropLit pat (c :: t) with
      | none =>
        have hm : (Re.lit pat).matchAt (c :: t) = none := by rw [lit_matchAt, hd]; rfl
        have hpre : ¬ pat <+: c :: t := by
          rintro ⟨r, hr⟩
          rw [dropLit_eq_none] at hd
          exact hd r hr.symm
        have := ih t (by simpa using hs)
        simp only [Re.replaceAll, segs_miss _ c t hm, List.flatMap_cons, Seg.render] at this ⊢
        exact Deleted.miss c t _ hpre this
      | some r =>
        have hr : c :: t = pat ++ r := dropLit_eq_some.mp hd
        have hm : (Re.lit pat).matchAt (pat ++ r) = some (pat, r, []) := by
          rw [lit_matchAt, dropLit_append]; rfl
        have hlen : r.length ≤ n := by
          have h1 : (c :: t).length = pat.length + r.length := by rw [hr]; simp
          have h2 : 0 < pat.length := List.length_pos.mpr hp
          simp only [List.length_cons] at hs h1
          omega
        have := ih r hlen
        rw [hr]
        simp only [Re.replaceAll, segs_hit_append _ pat r r [] hp hm, List.flatMap_cons,
          Seg.render, List.nil_append] at this ⊢
        exact Deleted.hit r _ this

theorem replaceAll_str_deleted (pat : String) (hp : pat.toList ≠ []) (s : Str) :
    Deleted pat.toList s ((Re.str pat).replaceAll s (fun _ _ => [])) :=
  replaceAll_lit_deleted pat.toList hp s.length s (Nat.le_refl _)

theorem contentPart_matchAt (s : Str) :
    (reContentPart.matchAt s).isSome = decide (s = "content.xml".toList) := by
  rw [matchAt_eq_first]
  simp only [reContentPart, Re.cat, first_seq, first_str, first_eos]
  cases hd : dropLit "content.xml".toList s with
  | none =>
    have : s ≠ "content.xml".toList := by
      intro h; rw [dropLit_eq_none] at hd; exact hd [] (by simp [h])
    simpa using this
  | some r =>
    have hs := dropLit_eq_some.mp hd
    cases r with
    | nil => simp [hs]
    | cons a r =>
      have : s ≠ "content.xml".toList := by
        intro h; rw [h] at hs; simpa using congrArg List.length hs
      simpa using this

theorem contentPart_test (name : Str) :
    reContentPart.test name = true ↔ "content.xml".toList <:+ name := by
  unfold Re.test
  induction name with
  | nil =>
    have h := contentPart_matchAt []
    simp only [Re.search, Option.isSome_map']
    rw [h]
    simp
  | cons c t ih =>
    have h := contentPart_matchAt (c :: t)
    cases hm : reContentPart.matchAt (c :: t) with
    | some x =>
      rw [hm] at h
      have he : c :: t = "content.xml".toList := by simpa using h.symm
      simp only [Re.search, hm, Option.isSome_some, true_iff]
      rw [he]
    | none =>
      rw [hm] at h
      have hne : c :: t ≠ "content.xml".toList := by simpa using h.symm
      simp only [Re.search, hm, Option.isSome_map']
      rw [ih, List.suffix_cons_iff]
      constructor
      · intro h1; exact Or.inr h1
      · rintro (h1 | h1)
        · exact absurd h1.symm hne
        · exact h1

end preprocessor

namespace Js

theorem splits_tail_nil (p : Char → Bool) : (splits p []).tail = [] := rfl

theorem splits_tail_of_not (p : Char → Bool) (d : Char) (w : Str) (h : p d = false) :
    (splits p (d :: w)).tail = [] := by
  simp [splits, h]

/-- A greedy quantifier with bounds gives back characters until the
continuation accepts. -/
theorem first_greedy_bounded (lo : Nat) (hi : Option Nat) (p : Char → Bool) (u v : Str)
    (c : Caps) (k) (y) (hu : ∀ d ∈ u, p d = true) (hb : inBounds lo hi u.length = true)
    (hfail : ∀ x ∈ (splits p v).tail, k (u ++ x.1, x.2, c) = none)
    (hk : k (u, v, c) = some y) :
    (Re.rep true lo hi p).first (u ++ v) c k = some y := by
  unfold Re.first
  simp only [Re.run, if_true]
  rw [splits_append p u v hu, splits_head p v]
  simp only [List.map_cons, List.filter_append, List.map_append, List.reverse_append,
    List.findSome?_append, List.append_nil]
  simp only [List.filter_cons, hb, if_true, List.map_cons, List.reverse_cons,
    List.findSome?_append]
  have h1 : (List.map (fun x => (x.1, x.2, c))
      (List.filter (fun x => inBounds lo hi x.1.length)
        (List.map (fun x => (u ++ x.1, x.2)) (splits p v).tail))).reverse.findSome? k = none := by
    rw [List.findSome?_eq_none_iff]
    intro x hx
    simp only [List.mem_reverse, List.mem_map, List.mem_filter] at hx
    obtain ⟨z, ⟨⟨w, hw, rfl⟩, -⟩, rfl⟩ := hx
    exact hfail w hw
  rw [h1]
  simp [List.findSome?_cons, hk]

/-- The same when the next character is not in the class: nothing is given
back. -/
theorem first_greedy_stop (lo : Nat) (hi : Option Nat) (p : Char → Bool) (u : Str) (d : Char)
    (w : Str) (c : Caps) (k) (y) (hu : ∀ e ∈ u, p e = true)
    (hb : inBounds lo hi u.length = true) (hd : p d = false)
    (hk : k (u, d :: w, c) = some y) :
    (Re.rep true lo hi p).first (u ++ d :: w) c k = some y :=
  first_greedy_bounded lo hi p u (d :: w) c k y hu hb
    (by rw [splits_tail_of_not p d w hd]; simp) hk

end Js

namespace preprocessor

open Js

theorem isUpper_of_isDigit {c : Char} (h : isDigit c = true) : isUpper c = false := by
  simp only [isDigit, isUpper, Bool.and_eq_true, decide_eq_true_eq] at *
  simp only [Bool.and_eq_false_iff, decide_eq_false_iff_not]
  omega

theorem tableRange_matchAt (q1 q2 : Char) (c1 r1 c2 r2 rest : Str)
    (hq1 : q1 = squote ∨ q1 = dquote) (hq2 : q2 = squote ∨ q2 = dquote)
    (hc1 : ∀ c ∈ c1, isUpper c = true) (hc1l : 1 ≤ c1.length ∧ c1.length ≤ 3)
    (hc2 : ∀ c ∈ c2, isUpper c = true) (hc2l : 1 ≤ c2.length ∧ c2.length ≤ 3)
    (hr1 : ∀ c ∈ r1, isDigit c = true) (hr1l : r1 ≠ [])
    (hr2 : ∀ c ∈ r2, isDigit c = true) (hr2l : r2 ≠ []) :
    reTableRange.matchAt
        ("ref=".toList ++ (q1 :: (c1 ++ (r1 ++ (':' :: (c2 ++ (r2 ++ (q2 :: rest)))))))) =
      some ("ref=".toList ++ (q1 :: (c1 ++ (r1 ++ (':' :: (c2 ++ (r2 ++ [q2])))))), rest,
        [(5, [q2]), (4, r2), (3, ':' :: c2), (2, r1), (1, "ref=".toList ++ (q1 :: c1))]) := by
  have hQ1 : oneOf [squote, dquote] q1 = true := by
    rcases hq1 with rfl | rfl <;> decide
  have hQ2 : oneOf [squote, dquote] q2 = true := by
    rcases hq2 with rfl | rfl <;> decide
  have hq2d : isDigit q2 = false := by
    rcases hq2 with rfl | rfl <;> decide
  obtain ⟨d1, t1, rfl⟩ := List.exists_cons_of_ne_nil hr1l
  obtain ⟨d2, t2, rfl⟩ := List.exists_cons_of_ne_nil hr2l
  have hd1 : isUpper d1 = false := isUpper_of_isDigit (hr1 d1 (by simp))
  have hd2 : isUpper d2 = false := isUpper_of_isDigit (hr2 d2 (by simp))
  rw [matchAt_eq_first]
  simp only [reTableRange, Re.cat, Re.plus, first_seq, first_grp, first_str, first_set,
    dropLit_append, hQ1, if_true]
  simp only [List.cons_append]
  apply first_greedy_stop 1 (some 3) isUpper c1 d1 _ _ _ _ hc1
    (by simp [inBounds, hc1l.1, hc1l.2]) hd1
  simp only []
  rw [show d1 :: (t1 ++ ':' :: (c2 ++ d2 :: (t2 ++ q2 :: rest))) =
    (d1 :: t1) ++ ':' :: (c2 ++ d2 :: (t2 ++ q2 :: rest)) from rfl]
  apply first_greedy_stop 1 none isDigit (d1 :: t1) ':' _ _ _ _ hr1 (by simp [inBounds])
    (by decide)
  simp only [dropLit, if_true]
  apply first_greedy_stop 1 (some 3) isUpper c2 d2 _ _ _ _ hc2
    (by simp [inBounds, hc2l.1, hc2l.2]) hd2
  simp only []
  rw [show d2 :: (t2 ++ q2 :: rest) = (d2 :: t2) ++ q2 :: rest from rfl]
  apply first_greedy_stop 1 none isDigit (d2 :: t2) q2 _ _ _ _ hr2 (by simp [inBounds]) hq2d
  simp [hQ2]

end preprocessor

namespace preprocessor

open Js

theorem refLit_noBorder :
    ∀ k, k < "ref=".toList.length → 0 < k → ¬ "ref=".toList.drop k <+: "ref=".toList := by
  decide

theorem tableRange_miss (s : Str) (h : dropLit "ref=".toList s = none) :
    reTableRange.matchAt s = none := by
  rw [matchAt_eq_first]
  simp only [reTableRange, Re.cat, first_seq, first_grp, first_str, h]

theorem isQuote_cases {q : Char} (h : isQuote q = true) : q = squote ∨ q = dquote := by
  simpa [isQuote, oneOf] using h

theorem isColumn_spec {c : Str} (h : isColumn c = true) :
    (∀ x ∈ c, isUpper x = true) ∧ 1 ≤ c.length ∧ c.length ≤ 3 := by
  simp only [isColumn, Bool.and_eq_true, decide_eq_true_eq, List.all_eq_true] at h
  exact ⟨h.2, h.1.1, h.1.2⟩

theorem isRow_spec {r : Str} (h : isRow r = true) : (∀ x ∈ r, isDigit x = true) ∧ r ≠ [] := by
  simp only [isRow, Bool.and_eq_true, Bool.not_eq_true', List.isEmpty_eq_false,
    List.all_eq_true] at h
  exact ⟨h.2, h.1⟩

/-- Below 2^53 the sum printed by the range replacer is the exact sum. -/
theorem safe_sum_toStr (a n : Nat) (h : a + n < maxSafe) :
    ((toDouble a).add n).toStr = numToStr (a + n) := by
  have h1 : a + n < 2 ^ 53 := h
  have h2 : a < 2 ^ 53 := by omega
  have e1 : toDouble a = .int a := by simp only [toDouble, if_pos h2]
  have e2 : toDouble (a + n) = .int (a + n) := by simp only [toDouble, if_pos h1]
  rw [e1]
  show (toDouble (a + n)).toStr = _
  rw [e2]
  show (if a + n < 2 ^ 53 then numToStr (a + n) else _) = _
  rw [if_pos h1]

/-- The scan of the range pass at a range attribute that the text `pre`, free
of `ref=`, precedes. -/
theorem tableRange_segs (pre : Str) (r : Range) (rest : Str) (hr : r.wellFormed = true)
    (hpre : ¬ "ref=".toList <:+: pre) :
    reTableRange.segs (pre ++ (r.text ++ rest)) 0 =
      pre.map Seg.chr ++ Seg.hit r.text
        [(5, [r.q2]), (4, r.r2), (3, ':' :: r.c2), (2, r.r1), (1, "ref=".toList ++ (r.q1 :: r.c1))]
        :: reTableRange.segs rest 0 := by
  simp only [Range.wellFormed, Bool.and_eq_true] at hr
  obtain ⟨⟨⟨⟨⟨hq1, hq2⟩, hc1⟩, hc2⟩, hr1⟩, hr2⟩ := hr
  obtain ⟨hc1a, hc1l⟩ := isColumn_spec hc1
  obtain ⟨hc2a, hc2l⟩ := isColumn_spec hc2
  obtain ⟨hr1a, hr1l⟩ := isRow_spec hr1
  obtain ⟨hr2a, hr2l⟩ := isRow_spec hr2
  have hm := tableRange_matchAt r.q1 r.q2 r.c1 r.r1 r.c2 r.r2 rest (isQuote_cases hq1)
    (isQuote_cases hq2) hc1a hc1l hc2a hc2l hr1a hr1l hr2a hr2l
  have e1 : "ref=".toList ++ (r.q1 :: (r.c1 ++ (r.r1 ++ (':' :: (r.c2 ++ (r.r2 ++
      (r.q2 :: rest))))))) = r.text ++ rest := by simp [Range.text, rangeAttr]
  have e2 : "ref=".toList ++ (r.q1 :: (r.c1 ++ (r.r1 ++ (':' :: (r.c2 ++ (r.r2 ++
      [r.q2])))))) = r.text := by simp [Range.text, rangeAttr]
  rw [e1, e2] at hm
  have hs := segs_hit_append reTableRange r.text rest rest _
    (by simp [Range.text, rangeAttr]) hm
  have hskip : ∀ a b, pre = a ++ b → b ≠ [] →
      reTableRange.matchAt (b ++ (r.text ++ rest)) = none := by
    intro a b hab hb
    apply tableRange_miss
    have := dropLit_cut_none "ref=".toList pre a b
      (r.q1 :: (r.c1 ++ (r.r1 ++ (':' :: (r.c2 ++ (r.r2 ++ (r.q2 :: rest))))))) hab hb hpre
      refLit_noBorder
    rw [e1] at this
    exact this
  rw [segs_skip_run _ pre _ hskip, hs]

/-- The range pass on a table part: every range attribute gets the start row
plus the length as its end row. -/
theorem tableRange_replaceAll (len : Nat) (ps : List (Range × Str)) :
    ∀ pre : Str, ¬ "ref=".toList <:+: pre →
    (∀ p ∈ ps, p.1.wellFormed = true ∧ ¬ "ref=".toList <:+: p.2 ∧
      toNumber p.1.r1 + len < maxSafe) →
    reTableRange.replaceAll (pre ++ rangesText ps) (rangeReplacer (some len)) =
      pre ++ rangesText (withLength len ps) := by
  induction ps with
  | nil =>
    intro pre hpre _
    have hend : ∀ a b, pre = a ++ b → reTableRange.matchAt b = none := by
      intro a b hab
      apply tableRange_miss
      rw [dropLit_eq_none]
      intro r hr
      exact hpre ⟨a, r, by rw [hab, hr]; simp⟩
    simp only [rangesText, withLength, List.map_nil, List.append_nil]
    exact replaceAll_all_miss _ _ _ hend
  | cons p ps ih =>
    intro pre hpre hps
    obtain ⟨hw, hsep, hsafe⟩ := hps p (by simp)
    have ih2 := ih p.2 hsep (fun x hx => hps x (by simp [hx]))
    simp only [Re.replaceAll] at ih2 ⊢
    simp only [rangesText, withLength, List.map_cons]
    rw [tableRange_segs pre p.1 _ hw hpre]
    simp only [List.flatMap_append, List.flatMap_cons, flatMap_render_chr, ih2]
    simp only [Seg.render, rangeReplacer, cap, List.lookup, withLength]
    have hs := safe_sum_toStr (toNumber p.1.r1) len hsafe
    simp [Range.text, Range.withLength, rangeAttr, hs]

end preprocessor

namespace preprocessor

open Js

theorem nameLit_noBorder :
    ∀ k, k < "name=".toList.length → 0 < k → ¬ "name=".toList.drop k <+: "name=".toList := by
  decide

theorem tableName_miss (s : Str) (h : dropLit "name=".toList s = none) :
    reTableName.matchAt s = none := by
  rw [matchAt_eq_first]
  simp only [reTableName, Re.cat, first_seq, first_str, h]

theorem tableName_matchAt (q1 q2 : Char) (T rest : Str) (hq1 : isQuote q1 = true)
    (hq2 : isQuote q2 = true) (hT : T ≠ [])
    (hTc : ∀ c ∈ T, dot c = true ∧ isQuote c = false) :
    reTableName.matchAt ("name=".toList ++ (q1 :: (T ++ q2 :: rest))) =
      some ("name=".toList ++ (q1 :: (T ++ [q2])), rest, [(1, T)]) := by
  rw [matchAt_eq_first]
  simp only [reTableName, Re.cat, Re.lazyPlus, first_seq, first_grp, first_str, first_set,
    dropLit_append]
  have h1 : oneOf [squote, dquote] q1 = true := hq1
  have h2 : oneOf [squote, dquote] q2 = true := hq2
  simp only [h1, if_true]
  apply first_lazy_some 1 dot T (q2 :: rest) _ _ _ (fun c hc => (hTc c hc).1)
    (List.length_pos.mpr hT)
  · intro a b hab hb _
    obtain ⟨x, b', rfl⟩ := List.exists_cons_of_ne_nil hb
    have hx : oneOf [squote, dquote] x = false := (hTc x (by simp [hab])).2
    simp [hx]
  · simp [h2]

/-- The `match` on a table part whose first `name=` attribute declares `T`. -/
theorem tableName_search (p0 : Str) (q1 q2 : Char) (T rest : Str) (hq1 : isQuote q1 = true)
    (hq2 : isQuote q2 = true) (hT : T ≠ [])
    (hTc : ∀ c ∈ T, dot c = true ∧ isQuote c = false) (hp0 : ¬ "name=".toList <:+: p0) :
    ∃ nm, reTableName.search (p0 ++ ("name=".toList ++ (q1 :: (T ++ q2 :: rest)))) = some nm ∧
      cap nm.caps 1 = T := by
  have hskip : ∀ a b, p0 = a ++ b → b ≠ [] →
      reTableName.matchAt (b ++ ("name=".toList ++ (q1 :: (T ++ q2 :: rest)))) = none :=
    fun a b hab hb => tableName_miss _
      (dropLit_cut_none "name=".toList p0 a b _ hab hb hp0 nameLit_noBorder)
  rw [search_skip _ p0 _ hskip,
    search_hit _ _ _ (tableName_matchAt q1 q2 T rest hq1 hq2 hT hTc)]
  exact ⟨_, rfl, by simp [cap, List.lookup]⟩

end preprocessor

namespace preprocessor

open Js

theorem isTableName_spec {T : Str} (h : isTableName T = true) :
    T ≠ [] ∧ ∀ c ∈ T, dot c = true ∧ isQuote c = false ∧ c ≠ ')' := by
  simp only [isTableName, Bool.and_eq_true, Bool.not_eq_true', List.isEmpty_eq_false,
    List.all_eq_true, decide_eq_false_iff_not] at h
  exact ⟨h.1, fun c hc => ⟨(h.2 c hc).1.1, (h.2 c hc).1.2, (h.2 c hc).2⟩⟩

/-- The body of the table loop on a table part that declares `T` and holds
range attributes, when the length `L` is read for `T`. -/
theorem processTable_matched (pf : Str) (refs : List TableRef) (f : File) (L : Nat)
    (p0 : Str) (q : Char) (T p1 : Str) (ps : List (Range × Str))
    (hf : isTable pf f = true)
    (hd : f.data = tableHead p0 q T p1 ++ rangesText ps)
    (hq : isQuote q = true) (hT : isTableName T = true)
    (hp0 : ¬ "name=".toList <:+: p0)
    (hpre : ¬ "ref=".toList <:+: tableHead p0 q T p1)
    (hps : ∀ p ∈ ps, p.1.wellFormed = true ∧ ¬ "ref=".toList <:+: p.2 ∧
      toNumber p.1.r1 + L < maxSafe)
    (href : lookupRef refs T = some (some L)) :
    processTable pf refs f =
      { f with data := tableHead p0 q T p1 ++ rangesText (withLength L ps) } := by
  obtain ⟨hT1, hT2⟩ := isTableName_spec hT
  obtain ⟨nm, hnm, hcap⟩ := tableName_search p0 q q T (p1 ++ rangesText ps) hq hq hT1
    (fun c hc => ⟨(hT2 c hc).1, (hT2 c hc).2.1⟩) hp0
  have e : f.data = p0 ++ ("name=".toList ++ (q :: (T ++ q :: (p1 ++ rangesText ps)))) := by
    rw [hd]; simp [tableHead]
  have hR := tableRange_replaceAll L ps (tableHead p0 q T p1) hpre hps
  unfold processTable
  rw [if_pos hf, e, hnm]
  simp only [hcap, href]
  rw [← e, hd, hR]

/-- The body of the table loop on a file that is not a table part of the
scope. -/
theorem processTable_other (pf : Str) (refs : List TableRef) (f : File)
    (hf : isTable pf f = false) : processTable pf refs f = f := by
  simp [processTable, hf]

end preprocessor

namespace Js

/-- A quantifier in front of a character that is not in its class takes
nothing. -/
theorem first_rep_stop0 (g : Bool) (lo : Nat) (hi : Option Nat) (p : Char → Bool) (d : Char)
    (w : Str) (c : Caps) (k) (hd : p d = false) :
    (Re.rep g lo hi p).first (d :: w) c k =
      if inBounds lo hi 0 = true then k ([], d :: w, c) else none := by
  unfold Re.first
  simp only [Re.run, splits, hd, Bool.false_eq_true, if_false]
  by_cases hb : inBounds lo hi 0 = true
  · cases g <;> simp [List.filter_cons, hb, findSome?_single]
  · cases g <;> simp [List.filter_cons, hb]

end Js

namespace preprocessor

open Js

theorem isDataPath_spec {P : Str} (h : isDataPath P = true) :
    P ≠ [] ∧ ∀ c ∈ P, dot c = true ∧ c ≠ ':' := by
  simp only [isDataPath, Bool.and_eq_true, Bool.not_eq_true', List.isEmpty_eq_false,
    List.all_eq_true, decide_eq_false_iff_not] at h
  exact ⟨h.1, fun c hc => h.2 c hc⟩

theorem tableGuide_miss (x : Char) (t : Str) (h : x ≠ lbrace) :
    reTableGuide.matchAt (x :: t) = none := by
  rw [matchAt_eq_first]
  have hd : dropLit "\x7b".toList (x :: t) = none :=
    dropLit_none_of_head (fun e => h e.symm)
  simp only [reTableGuide, Re.cat, first_seq, first_str, hd]

theorem tableGuide_matchAt (P T rest : Str) (hP : isDataPath P = true)
    (hT : isTableName T = true) :
    reTableGuide.matchAt (guideMarker P T ++ rest) =
      some (guideMarker P T, rest, [(2, T), (1, P)]) := by
  obtain ⟨hP1, hP2⟩ := isDataPath_spec hP
  obtain ⟨hT1, hT2⟩ := isTableName_spec hT
  obtain ⟨x, T', rfl⟩ := List.exists_cons_of_ne_nil hT1
  have hxq : isCh squote x = false := by
    have := (hT2 x (by simp)).2.1
    simp only [isQuote, oneOf, List.contains_cons, List.contains_nil, Bool.or_false,
      Bool.or_eq_false_iff, beq_eq_false_iff_ne] at this
    simp [isCh, this.1]
  have e : guideMarker P (x :: T') ++ rest = "\x7b".toList ++ ('d' :: (".".toList ++ (P ++
      (":tableGuide(".toList ++ ([squote] ++ (x :: (T' ++ ([squote] ++
        (")\x7d".toList ++ rest))))))))) := by
    simp [guideMarker]
  have hdc : oneOf "dc".toList 'd' = true := by decide
  have hparen : isCh squote ')' = false := by decide
  rw [matchAt_eq_first, e]
  simp only [reTableGuide, Re.cat, Re.lazyPlus, Re.opt, first_seq, first_grp, first_str,
    first_set, dropLit_append, hdc, if_true]
  apply first_lazy_some 1 dot P _ _ _ _ (fun c hc => (hP2 c hc).1) (List.length_pos.mpr hP1)
  · intro a b hab hb _
    obtain ⟨y, b', rfl⟩ := List.exists_cons_of_ne_nil hb
    have hy : y ≠ ':' := (hP2 y (by simp [hab])).2
    simp [dropLit, Ne.symm hy]
  · simp only [dropLit_append]
    apply first_greedy_stop 0 (some 1) (isCh squote) [squote] x _ _ _ _ (by decide) (by decide)
      hxq
    simp only []
    rw [← List.cons_append]
    apply first_lazy_some 1 dot (x :: T') _ _ _ _ (fun c hc => (hT2 c hc).1) (by simp)
    · intro a b hab hb _
      obtain ⟨y, b', rfl⟩ := List.exists_cons_of_ne_nil hb
      have hy := hT2 y (by rw [hab]; simp)
      have hyq : isCh squote y = false := by
        have := hy.2.1
        simp only [isQuote, oneOf, List.contains_cons, List.contains_nil, Bool.or_false,
          Bool.or_eq_false_iff, beq_eq_false_iff_ne] at this
        simp [isCh, this.1]
      simp only [List.cons_append, first_rep_stop0 _ _ _ _ _ _ _ _ hyq]
      simp [inBounds, dropLit, Ne.symm hy.2.2]
    · simp only []
      rw [show ")\x7d".toList ++ rest = ')' :: (Char.ofNat 125 :: rest) from rfl]
      apply first_greedy_stop 0 (some 1) (isCh squote) [squote] ')' _ _ _ _ (by decide)
        (by decide) hparen
      simp [dropLit, guideMarker]

end preprocessor

namespace preprocessor

open Js

theorem guideReplace_chrs (get : List Str → Option Nat) (u : Str) (gs : List Seg)
    (refs : List TableRef) :
    guideReplace get (u.map Seg.chr ++ gs) refs =
      (guideReplace get gs refs).map (fun r => (u ++ r.1, r.2)) := by
  induction u with
  | nil => cases h : guideReplace get gs refs <;> simp [h]
  | cons c t ih =>
    rw [List.map_cons, List.cons_append, guideReplace, ih]
    cases h : guideReplace get gs refs <;> simp

theorem tableGuide_segs (s0 s1 P T : Str) (hs0 : lbrace ∉ s0) (hs1 : lbrace ∉ s1)
    (hP : isDataPath P = true) (hT : isTableName T = true) :
    reTableGuide.segs (s0 ++ guideMarker P T ++ s1) 0 =
      s0.map Seg.chr ++ Seg.hit (guideMarker P T) [(2, T), (1, P)] :: s1.map Seg.chr := by
  have hskip : ∀ a b, s0 = a ++ b → b ≠ [] →
      reTableGuide.matchAt (b ++ (guideMarker P T ++ s1)) = none := by
    intro a b hab hb
    obtain ⟨y, b', rfl⟩ := List.exists_cons_of_ne_nil hb
    exact tableGuide_miss y _ (fun e => hs0 (by rw [hab, ← e]; simp))
  have hend : ∀ a b, s1 = a ++ b → reTableGuide.matchAt b = none := by
    intro a b hab
    cases b with
    | nil => decide
    | cons y b' => exact tableGuide_miss y _ (fun e => hs1 (by rw [hab, ← e]; simp))
  rw [List.append_assoc, segs_skip_run _ s0 _ hskip,
    segs_hit_append _ (guideMarker P T) s1 s1 _ (by simp [guideMarker])
      (tableGuide_matchAt P T s1 hP hT),
    segs_all_miss _ s1 hend]

/-- The marker pass on a sheet holding one marker. -/
theorem guideReplace_one_marker (get : List Str → Option Nat) (s0 s1 P T : Str) (L : Nat)
    (refs : List TableRef) (hs0 : lbrace ∉ s0) (hs1 : lbrace ∉ s1)
    (hP : isDataPath P = true) (hT : isTableName T = true)
    (hget : get (split '.' P) = some L) :
    guideReplace get (reTableGuide.segs (s0 ++ guideMarker P T ++ s1) 0) refs =
      some (s0 ++ s1, ⟨T, P, L⟩ :: refs) := by
  rw [tableGuide_segs s0 s1 P T hs0 hs1 hP hT, guideReplace_chrs]
  have h1 : guideReplace get (s1.map Seg.chr) (⟨T, P, L⟩ :: refs) =
      some (s1, ⟨T, P, L⟩ :: refs) := by
    have := guideReplace_chrs get s1 [] (⟨T, P, L⟩ :: refs)
    simpa [guideReplace] using this
  simp [guideReplace, cap, List.lookup, hget, h1]

end preprocessor

namespace Js

theorem split_first {x : Char} {w rest a v : Str} (hw : x ∉ w)
    (h : w ++ x :: rest = a ++ x :: v) :
    (a = w ∧ v = rest) ∨ ∃ a', a = w ++ x :: a' ∧ rest = a' ++ x :: v := by
  induction w generalizing a with
  | nil =>
    cases a with
    | nil => left; simp at h; exact ⟨rfl, h.symm⟩
    | cons y a' =>
      right
      simp only [List.nil_append, List.cons_append, List.cons.injEq] at h
      exact ⟨a', by simp [h.1], h.2⟩
  | cons c w' ih =>
    cases a with
    | nil =>
      simp only [List.cons_append, List.nil_append, List.cons.injEq] at h
      exact absurd (by simp [h.1]) hw
    | cons y a'' =>
      simp only [List.cons_append, List.cons.injEq] at h
      have hw' : x ∉ w' := fun hx => hw (by simp [hx])
      rcases ih hw' h.2 with ⟨e1, e2⟩ | ⟨a', e1, e2⟩
      · left; exact ⟨by simp [h.1, e1], e2⟩
      · right; exact ⟨a', by simp [h.1, e1], e2⟩

theorem not_mem_of_isDigit {x : Char} {r : Str} (hr : ∀ c ∈ r, isDigit c = true)
    (hx : isDigit x = false) : x ∉ r := by
  intro h
  rw [hr x h] at hx
  cases hx

end Js

namespace preprocessor

open Js

/-- The formula pass finds nothing where no `>` is followed by `<f>`. -/
theorem functionCell_miss (b : Str)
    (h : ∀ u v, b = u ++ '>' :: v → dropLit "<f>".toList v = none) :
    reFunctionCell.matchAt b = none := by
  rw [matchAt_eq_first]
  simp only [reFunctionCell, Re.cat, Re.star, first_seq, first_grp, first_str, first_set]
  cases hd : dropLit "<".toList b with
  | none => rfl
  | some r =>
    have hb : b = "<".toList ++ r := dropLit_eq_some.mp hd
    cases r with
    | nil => rfl
    | cons x t =>
      simp only []
      split
      · apply first_rep_none
        intro a' b' hab _
        cases hd2 : dropLit ">".toList b' with
        | none => rfl
        | some v =>
          have hb' : b' = ">".toList ++ v := dropLit_eq_some.mp hd2
          have := h ('<' :: x :: a') v (by rw [hb, hab, hb']; simp)
          simp only [this]
      · rfl

theorem sharedCell_no_formula (A idx : Str) (hA : '>' ∉ A) (hidx : isRow idx = true) :
    ∀ a v, sharedCell A idx = a ++ '>' :: v → dropLit "<f>".toList v = none := by
  obtain ⟨hd, hne⟩ := isRow_spec hidx
  obtain ⟨d, t, rfl⟩ := List.exists_cons_of_ne_nil hne
  have hdd : d ≠ '<' := by
    intro e
    have := hd d (by simp)
    rw [e] at this
    revert this
    decide
  intro a v h
  have e : sharedCell A (d :: t) = ("<c ".toList ++ A ++ " t=\"s\"".toList) ++ '>' ::
      ("<v".toList ++ '>' :: ((d :: t ++ "</v".toList) ++ '>' :: ("</c".toList ++ '>' :: []))) := by
    simp [sharedCell]
  rw [e] at h
  have h1 : '>' ∉ "<c ".toList ++ A ++ " t=\"s\"".toList := by
    simp only [List.mem_append, not_or]
    exact ⟨⟨by decide, hA⟩, by decide⟩
  have h3 : '>' ∉ d :: t ++ "</v".toList := by
    simp only [List.mem_append, not_or]
    exact ⟨not_mem_of_isDigit hd (by decide), by decide⟩
  rcases split_first h1 h with ⟨-, rfl⟩ | ⟨a1, -, h⟩
  · simp [dropLit]
  rcases split_first (by decide) h with ⟨-, rfl⟩ | ⟨a2, -, h⟩
  · simp [dropLit, Ne.symm hdd]
  rcases split_first h3 h with ⟨-, rfl⟩ | ⟨a3, -, h⟩
  · simp [dropLit]
  rcases split_first (by decide) h with ⟨-, rfl⟩ | ⟨a4, -, h⟩
  · simp [dropLit]
  · simp at h

theorem sharedCell_formula_pass (A idx : Str) (hA : '>' ∉ A) (hidx : isRow idx = true) :
    reFunctionCell.replaceAll (sharedCell A idx) functionCellReplacer = sharedCell A idx := by
  apply replaceAll_all_miss
  intro a b hab
  apply functionCell_miss
  intro u v hb
  exact sharedCell_no_formula A idx hA hidx (a ++ u) v (by rw [hab, hb]; simp)

end preprocessor

namespace Js

theorem dot_of_isDigit {c : Char} (h : isDigit c = true) : dot c = true := by
  simp only [isDigit, Bool.and_eq_true, decide_eq_true_eq] at h
  simp only [dot, isLineTerminator, Bool.not_eq_true', Bool.or_eq_false_iff,
    decide_eq_false_iff_not]
  omega

end Js

namespace preprocessor

open Js

theorem closeC_noBorder :
    ∀ k, k < "</c>".toList.length → 0 < k → ¬ "</c>".toList.drop k <+: "</c>".toList := by
  decide

theorem sharedCell_matchAt (A idx : Str) (hA : '>' ∉ A) (hidx : isRow idx = true) :
    reSharedCell.matchAt (sharedCell A idx) =
      some (sharedCell A idx, [],
        [(4, "</c>".toList), (3, "<v>".toList ++ idx ++ "</v>".toList),
         (1, "<c ".toList ++ A ++ " t=\"s\">".toList), (2, "c".toList)]) := by
  obtain ⟨hd, hne⟩ := isRow_spec hidx
  have e : sharedCell A idx = "<".toList ++ ('c' :: ((' ' :: (A ++ [' '])) ++
      ("t=\"s\"".toList ++ ('>' :: (("<v>".toList ++ idx ++ "</v>".toList) ++
        "</c>".toList))))) := by
    simp [sharedCell]
  have hu : ∀ d ∈ ' ' :: (A ++ [' ']), notCh '>' d = true := by
    intro d hd'
    simp only [List.mem_cons, List.mem_append, List.mem_singleton, List.not_mem_nil,
      or_false] at hd'
    have : d ≠ '>' := by
      rcases hd' with rfl | hd' | rfl
      · decide
      · exact fun e => hA (e ▸ hd')
      · decide
    simp [notCh, this]
  have hdotv : ∀ d ∈ "<v>".toList ++ idx ++ "</v>".toList, dot d = true := by
    intro d hd'
    simp only [List.mem_append] at hd'
    rcases hd' with (hd' | hd') | hd'
    · revert d; decide
    · exact dot_of_isDigit (hd d hd')
    · revert d; decide
  have hnoc : ¬ "</c>".toList <:+: "<v>".toList ++ idx ++ "</v>".toList := by
    intro hin
    have hc : 'c' ∈ "<v>".toList ++ idx ++ "</v>".toList := hin.mem (by decide)
    simp only [List.mem_append] at hc
    rcases hc with (hc | hc) | hc
    · revert hc; decide
    · have := hd 'c' hc; revert this; decide
    · revert hc; decide
  have hw : isWord 'c' = true := by decide
  have hgt : notCh '>' '>' = false := by decide
  rw [e, matchAt_eq_first]
  simp only [reSharedCell, Re.cat, Re.star, Re.lazyStar, first_seq, first_grp, first_str,
    first_set, first_bref, dropLit_append, hw, if_true]
  apply first_greedy_bounded 0 none (notCh '>') (' ' :: (A ++ [' '])) _ _ _ _ hu
    (by simp [inBounds])
  · intro x hx
    have hx' : x ∈ [("t".toList, "=\"s\"".toList ++ ('>' :: (("<v>".toList ++ idx ++
          "</v>".toList) ++ "</c>".toList))),
        ("t=".toList, "\"s\"".toList ++ ('>' :: (("<v>".toList ++ idx ++
          "</v>".toList) ++ "</c>".toList))),
        ("t=\"".toList, "s\"".toList ++ ('>' :: (("<v>".toList ++ idx ++
          "</v>".toList) ++ "</c>".toList))),
        ("t=\"s".toList, "\"".toList ++ ('>' :: (("<v>".toList ++ idx ++
          "</v>".toList) ++ "</c>".toList))),
        ("t=\"s\"".toList, ('>' :: (("<v>".toList ++ idx ++
          "</v>".toList) ++ "</c>".toList)))] := by
      simpa [splits, notCh] using hx
    simp only [List.mem_cons, List.mem_singleton, List.not_mem_nil, or_false] at hx'
    rcases hx' with rfl | rfl | rfl | rfl | rfl <;> simp [dropLit]
  · simp only [dropLit_append, first_rep_stop0 _ _ _ _ _ _ _ _ hgt]
    simp only [inBounds, Nat.le_refl, decide_True, Bool.and_self, if_true, dropLit]
    apply first_lazy_some 0 dot ("<v>".toList ++ idx ++ "</v>".toList) _ _ _ _ hdotv
      (Nat.zero_le _)
    · intro a b hab hb _
      have := dropLit_cut_none "</c>".toList _ a b [] hab hb hnoc closeC_noBorder
      simp only [List.append_nil] at this
      have h2 : dropLit "</".toList (b ++ "</c>".toList) = none ∨
          ∃ r, dropLit "</".toList (b ++ "</c>".toList) = some r ∧
            (dropLit "c".toList r = none ∨
              ∃ r2, dropLit "c".toList r = some r2 ∧ dropLit ">".toList r2 = none) := by
        cases h3 : dropLit "</".toList (b ++ "</c>".toList) with
        | none => left; rfl
        | some r =>
          right
          refine ⟨r, rfl, ?_⟩
          cases h4 : dropLit "c".toList r with
          | none => left; rfl
          | some r2 =>
            right
            refine ⟨r2, rfl, ?_⟩
            cases h5 : dropLit ">".toList r2 with
            | none => rfl
            | some r3 =>
              exfalso
              rw [dropLit_eq_none] at this
              apply this r3
              rw [dropLit_eq_some.mp h3, dropLit_eq_some.mp h4, dropLit_eq_some.mp h5]
              rfl
      rcases h2 with h2 | ⟨r, h2, h3 | ⟨r2, h3, h4⟩⟩
      · simp only [h2]
      · have h3' : dropLit ['c'] r = none := h3
        simp only [h2]
        simp [List.lookup, h3']
      · have h3' : dropLit ['c'] r = some r2 := h3
        have h4' : dropLit ['>'] r2 = none := h4
        simp only [h2]
        simp [List.lookup, h3', h4']
    · simp [dropLit, List.lookup, sharedCell]

end preprocessor

namespace preprocessor

open Js

theorem sharedCell_pass (A idx : Str) (ss : List Str) (hA : '>' ∉ A)
    (hidx : isRow idx = true) :
    convertToInlineString (sharedCell A idx) ss =
      sharedCellReplacer ss (sharedCell A idx)
        [(4, "</c>".toList), (3, "<v>".toList ++ idx ++ "</v>".toList),
         (1, "<c ".toList ++ A ++ " t=\"s\">".toList), (2, "c".toList)] := by
  have hm := sharedCell_matchAt A idx hA hidx
  have hs := segs_hit_append reSharedCell (sharedCell A idx) [] [] _ (by simp [sharedCell])
    (by rw [List.append_nil]; exact hm)
  have h0 : reSharedCell.matchAt [] = none := by decide
  rw [List.append_nil] at hs
  have e : convertToInlineString (sharedCell A idx) ss =
      reSharedCell.replaceAll
        (reFunctionCell.replaceAll (sharedCell A idx) functionCellReplacer)
        (sharedCellReplacer ss) := rfl
  rw [e, sharedCell_formula_pass A idx hA hidx, Re.replaceAll, hs, segs_nil _ h0]
  simp [Seg.render]

end preprocessor

namespace preprocessor

open Js

end preprocessor

namespace Js

theorem mem_splits_tail {p : Char → Bool} {s : Str} {x : Str × Str}
    (h : x ∈ (splits p s).tail) : x.1 ≠ [] ∧ s = x.1 ++ x.2 := by
  cases s with
  | nil => simp [splits] at h
  | cons c t =>
    simp only [splits, List.tail_cons] at h
    by_cases hc : p c = true
    · simp only [hc, if_true, List.mem_map] at h
      obtain ⟨y, hy, rfl⟩ := h
      exact ⟨by simp, by simp [(mem_splits hy).1.symm]⟩
    · simp [hc] at h

theorem dropLit_cons_none_of_not_mem (x : Char) (l s : Str) (h : x ∉ s) :
    dropLit (x :: l) s = none := by
  cases s with
  | nil => rfl
  | cons y t =>
    apply dropLit_none_of_head
    intro e
    exact h (by simp [e])

end Js

namespace preprocessor

open Js

theorem isMarkerText_spec {s : Str} (h : isMarkerText s = true) :
    ∀ c ∈ s, dot c = true ∧ c ≠ ':' ∧ c ≠ '<' := by
  simp only [isMarkerText, List.all_eq_true, Bool.and_eq_true, Bool.not_eq_true',
    decide_eq_false_iff_not] at h
  exact fun c hc => ⟨(h c hc).1.1, (h c hc).1.2, (h c hc).2⟩

theorem isFormatterName_spec {s : Str} (h : isFormatterName s = true) :
    ∀ c ∈ s, dot c = true ∧ c ≠ ':' ∧ c ≠ '<' := by
  simp only [isFormatterName, List.all_eq_true] at h
  intro c hc
  have hw := h c hc
  simp only [isWord, isDigit, Bool.or_eq_true, Bool.and_eq_true, decide_eq_true_eq] at hw
  refine ⟨?_, ?_, ?_⟩
  · simp only [dot, isLineTerminator, Bool.not_eq_true', Bool.or_eq_false_iff,
      decide_eq_false_iff_not]
    omega
  · rintro rfl; revert hw; decide
  · rintro rfl; revert hw; decide

/-- The tail of a marker after the data path: colon, formatter name, opening
parenthesis, arguments, closing parenthesis and brace. Its characters after
the colon hold no colon. -/
theorem formatter_tail_no_colon (name ARGS : Str) (hn : isFormatterName name = true)
    (hA : isMarkerText ARGS = true) :
    ':' ∉ name ++ "(".toList ++ (ARGS ++ ")\x7d".toList) := by
  intro h
  simp only [List.mem_append] at h
  rcases h with (h | h) | h | h
  · exact (isFormatterName_spec hn _ h).2.1 rfl
  · revert h; decide
  · exact (isMarkerText_spec hA _ h).2.1 rfl
  · revert h; decide

theorem formatter_matchAt (P name ARGS : Str) (hP : isMarkerText P = true)
    (hn : isFormatterName name = true) (hA : isMarkerText ARGS = true) :
    (reFormatter name).matchAt (formatterMarker P name ARGS) =
      some (formatterMarker P name ARGS, [], []) := by
  have hPs := isMarkerText_spec hP
  have hAs := isMarkerText_spec hA
  have hnc := formatter_tail_no_colon name ARGS hn hA
  have h1 : oneOf "d|c".toList 'd' = true := by decide
  have h2 : oneOf ".".toList '.' = true := by decide
  have e : formatterMarker P name ARGS = "\x7b".toList ++ ('d' :: ('.' :: (P ++
      ((':' :: (name ++ "(".toList)) ++ (ARGS ++ ")\x7d".toList))))) := by
    simp [formatterMarker]
  rw [matchAt_eq_first, e]
  simp only [reFormatter, Re.cat, Re.star, first_seq, first_str, first_lit, first_set,
    dropLit_append, h1, h2, if_true]
  apply first_greedy_bounded 0 none dot P _ _ _ _ (fun c hc => (hPs c hc).1)
    (by simp [inBounds])
  · intro x hx
    obtain ⟨hx1, hx2⟩ := mem_splits_tail hx
    obtain ⟨y, t, hy⟩ := List.exists_cons_of_ne_nil hx1
    have hsuf : ':' ∉ x.2 := by
      intro hm
      apply hnc
      rw [hy] at hx2
      simp only [List.cons_append, List.cons.injEq] at hx2
      have : name ++ "(".toList ++ (ARGS ++ ")\x7d".toList) = t ++ x.2 := by
        simpa using hx2.2
      rw [this]
      simp [hm]
    simp only [dropLit_cons_none_of_not_mem ':' _ x.2 hsuf]
  · simp only [dropLit_append]
    apply first_greedy_bounded 0 none dot ARGS _ _ _ _ (fun c hc => (hAs c hc).1)
      (by simp [inBounds])
    · intro x hx
      have hx' : x ∈ [([')'], [rbrace]), ([')', rbrace], [])] := by
        have hd1 : dot ')' = true := by decide
        have hd2 : dot rbrace = true := by decide
        have e2 : ")\x7d".toList = [')', rbrace] := rfl
        rw [e2] at hx
        simpa [splits, hd1, hd2] using hx
      simp only [List.mem_cons, List.mem_singleton, List.not_mem_nil, or_false] at hx'
      rcases hx' with rfl | rfl <;> simp [dropLit, rbrace]
    · simp [dropLit, formatterMarker]

end preprocessor

namespace preprocessor

open Js

theorem formatter_search (P name ARGS : Str) (hP : isMarkerText P = true)
    (hn : isFormatterName name = true) (hA : isMarkerText ARGS = true) :
    (reFormatter name).search (formatterMarker P name ARGS) =
      some ⟨[], formatterMarker P name ARGS, [], []⟩ :=
  search_hit _ _ _ (formatter_matchAt P name ARGS hP hn hA)

/-- The `formatN` pattern finds nothing in a text where `:formatN(` does not
stand. -/
theorem formatN_search_none (s : Str)
    (h : ∀ a b, s = a ++ b → dropLit ":formatN(".toList b = none) :
    reFormatN.search s = none := by
  apply search_none
  intro a b hab
  rw [matchAt_eq_first]
  simp only [reFormatN, Re.cat, Re.star, first_seq, first_str, first_set]
  cases hd : dropLit "\x7b".toList b with
  | none => rfl
  | some r =>
    have hb := dropLit_eq_some.mp hd
    cases r with
    | nil => rfl
    | cons x t =>
      simp only []
      split
      · cases t with
        | nil => rfl
        | cons x2 t2 =>
          simp only []
          split
          · apply first_rep_none
            intro a' b' hab' _
            have := h (a ++ "\x7b".toList ++ [x, x2] ++ a') b'
              (by rw [hab, hb, hab']; simp)
            simp only [this]
          · rfl
      · rfl

theorem formatDExcel_marker_no_formatN (P ARGS : Str) (hP : isMarkerText P = true)
    (hA : isMarkerText ARGS = true) :
    reFormatN.search (formatterMarker P "formatDExcel".toList ARGS) = none := by
  have hPs := isMarkerText_spec hP
  have hnc := formatter_tail_no_colon "formatDExcel".toList ARGS (by decide) hA
  apply formatN_search_none
  intro a b hab
  cases b with
  | nil => rfl
  | cons y b' =>
    by_cases hy : y = ':'
    · subst hy
      have e : formatterMarker P "formatDExcel".toList ARGS =
          ("\x7bd.".toList ++ P) ++ ':' ::
            ("formatDExcel".toList ++ "(".toList ++ (ARGS ++ ")\x7d".toList)) := by
        simp [formatterMarker]
      have hu : ':' ∉ "\x7bd.".toList ++ P := by
        intro hm
        simp only [List.mem_append] at hm
        rcases hm with hm | hm
        · revert hm; decide
        · exact (hPs _ hm).2.1 rfl
      rw [e] at hab
      rcases split_first hu hab with ⟨-, rfl⟩ | ⟨a', -, h2⟩
      · simp [dropLit]
      · exfalso
        apply hnc
        rw [h2]
        simp
    · exact dropLit_none_of_head (Ne.symm hy)

end preprocessor

namespace Js

theorem mem_splits_of {p : Char → Bool} (a b : Str) (ha : ∀ d ∈ a, p d = true) :
    (a, b) ∈ splits p (a ++ b) := by
  induction a with
  | nil => rw [List.nil_append, splits_head]; simp
  | cons c t ih =>
    have hc : p c = true := ha c (by simp)
    have ht := ih (fun d hd => ha d (by simp [hd]))
    simp only [List.cons_append, splits, hc, if_true, List.mem_cons, List.mem_map]
    right
    exact ⟨(t, b), ht, rfl⟩

/-- When every cut that the continuation accepts gives the same result, a
quantifier followed by that continuation gives this result as soon as one cut
within its bounds is accepted. -/
theorem first_rep_const (g : Bool) (lo : Nat) (hi : Option Nat) (p : Char → Bool) (s : Str)
    (c : Caps) (k) (y)
    (hall : ∀ a b, s = a ++ b → (∀ d ∈ a, p d = true) →
      k (a, b, c) = none ∨ k (a, b, c) = some y)
    (hex : ∃ a b, s = a ++ b ∧ (∀ d ∈ a, p d = true) ∧ inBounds lo hi a.length = true ∧
      k (a, b, c) = some y) :
    (Re.rep g lo hi p).first s c k = some y := by
  unfold Re.first
  apply findSome?_const
  · intro x hx
    have hx2 : x ∈ ((splits p s).filter (fun x => inBounds lo hi x.1.length)).map
        (fun x => (x.1, x.2, c)) := by
      simp only [Re.run] at hx
      cases g <;> simpa using hx
    simp only [List.mem_map, List.mem_filter] at hx2
    obtain ⟨z, ⟨hz, -⟩, rfl⟩ := hx2
    obtain ⟨h1, h2⟩ := mem_splits hz
    exact hall _ _ h1 h2
  · obtain ⟨a, b, hab, ha, hb, hk⟩ := hex
    refine ⟨(a, b, c), ?_, hk⟩
    have hm : (a, b, c) ∈ ((splits p s).filter (fun x => inBounds lo hi x.1.length)).map
        (fun x => (x.1, x.2, c)) := by
      simp only [List.mem_map, List.mem_filter]
      exact ⟨(a, b), ⟨by rw [hab]; exact mem_splits_of a b ha, hb⟩, rfl⟩
    simp only [Re.run]
    cases g <;> simpa using hm

/-- A prefix free of `x` ends before the first `x`. -/
theorem prefix_free_split {x : Char} {w rest u r : Str} (hw : x ∉ w) (hu : x ∉ u)
    (h : w ++ x :: rest = u ++ r) : ∃ r0, r = r0 ++ x :: rest ∧ w = u ++ r0 := by
  induction u generalizing w with
  | nil => exact ⟨w, by simpa using h.symm, by simp⟩
  | cons c u ih =>
    cases w with
    | nil =>
      simp only [List.nil_append, List.cons_append, List.cons.injEq] at h
      exact absurd (by simp [h.1]) hu
    | cons d w =>
      simp only [List.cons_append, List.cons.injEq] at h
      obtain ⟨r0, e1, e2⟩ := ih (fun hx => hw (by simp [hx])) (fun hx => hu (by simp [hx])) h.2
      exact ⟨r0, e1, by simp [h.1, e2]⟩

end Js

namespace preprocessor

open Js

theorem notCh_of_not_mem {x : Char} {s : Str} (h : x ∉ s) : ∀ d ∈ s, notCh x d = true := by
  intro d hd
  have : d ≠ x := fun e => h (e ▸ hd)
  simp [notCh, this]

theorem not_mem_of_notCh {x : Char} {s : Str} (h : ∀ d ∈ s, notCh x d = true) : x ∉ s := by
  intro hx
  have := h x hx
  simp [notCh] at this

end preprocessor

namespace preprocessor

open Js

end preprocessor

namespace preprocessor

open Js

end preprocessor

namespace preprocessor

open Js

theorem numberCell_miss (s : Str) (h : dropLit "<table:table-cell".toList s = none) :
    reNumberCell.matchAt s = none := by
  rw [matchAt_eq_first]
  simp only [reNumberCell, Re.cat, first_seq, first_str, h]

theorem odsCellClose_eq (post : Str) : odsCellClose ++ post =
    '<' :: ("/text:p>".toList ++ ("</table:table-cell>".toList ++ post)) := by
  simp [odsCellClose]

/-- After `formatN` the expression takes the rest of the text and the close
tags of the cell. -/
theorem numberCellTail_first (r0 post : Str) (c : Caps) (K) (hr0 : '<' ∉ r0) :
    reNumberCellTail.first (r0 ++ (odsCellClose ++ post)) c K =
      K (r0 ++ odsCellClose, post, c) := by
  have hlt : notCh '<' '<' = false := by decide
  have hsp : isSpace '<' = false := by decide
  have hK : ∀ z, K (r0 ++ ("</text:p>".toList ++ ([] ++ "</table:table-cell>".toList)), post, c)
      = z → K (r0 ++ odsCellClose, post, c) = z := by
    intro z hz
    rw [← hz]
    simp [odsCellClose]
  simp only [reNumberCellTail, Re.cat, Re.star, first_seq, first_str]
  rw [odsCellClose_eq]
  cases hv : K (r0 ++ odsCellClose, post, c) with
  | none =>
    apply first_rep_none
    intro a2 b2 hab2 ha2
    cases hd : dropLit "</text:p>".toList b2 with
    | none => rfl
    | some r2 =>
      have hb2 := dropLit_eq_some.mp hd
      have h3 : r0 ++ '<' :: ("/text:p>".toList ++ ("</table:table-cell>".toList ++ post)) =
          a2 ++ '<' :: ("/text:p>".toList ++ r2) := by
        rw [hab2, hb2]; simp
      rcases split_first hr0 h3 with ⟨e3, e4⟩ | ⟨a', e3, -⟩
      · have e5 : r2 = "</table:table-cell>".toList ++ post := by
          simpa using e4
        subst e3
        rw [e5]
        have e7 : "</table:table-cell>".toList ++ post =
            '<' :: ("/table:table-cell>".toList ++ post) := by simp
        show (Re.rep true 0 none isSpace).first ("</table:table-cell>".toList ++ post) c _ = none
        rw [e7, first_rep_stop0 _ _ _ _ _ _ _ _ hsp, ← e7]
        simp only [inBounds, dropLit_append]
        simpa [odsCellClose] using hv
      · exfalso
        exact not_mem_of_notCh ha2 (by rw [e3]; simp)
  | some y =>
    apply first_greedy_stop 0 none (notCh '<') r0 '<' _ _ _ _ (notCh_of_not_mem hr0)
      (by simp [inBounds]) hlt
    have e6 : '<' :: ("/text:p>".toList ++ ("</table:table-cell>".toList ++ post)) =
        "</text:p>".toList ++ ("</table:table-cell>".toList ++ post) := by simp
    simp only [e6, dropLit_append]
    have e7 : "</table:table-cell>".toList ++ post =
        '<' :: ("/table:table-cell>".toList ++ post) := by simp
    rw [e7, first_rep_stop0 _ _ _ _ _ _ _ _ hsp, ← e7]
    simp only [inBounds, dropLit_append]
    simpa [odsCellClose] using hv

end preprocessor

namespace preprocessor

open Js

theorem reNumberCell_eq : reNumberCell =
    Re.cat [.str "<table:table-cell", .star (notCh '<'), .str ">", .star isSpace,
      .str "<text:p>", .star (notCh '<'), .str "formatN", reNumberCellTail] := rfl

theorem numberCell_cut (text post a r : Str) (c : Caps) (K) (htext : '<' ∉ text)
    (ha : '<' ∉ a) (h : text ++ (odsCellClose ++ post) = a ++ ("formatN".toList ++ r)) :
    ∃ r0, text = a ++ ("formatN".toList ++ r0) ∧
      reNumberCellTail.first r c K = K (r0 ++ odsCellClose, post, c) := by
  have hu : '<' ∉ a ++ "formatN".toList := by
    simp only [List.mem_append, not_or]
    exact ⟨ha, by decide⟩
  have h2 : text ++ '<' :: ("/text:p>".toList ++ ("</table:table-cell>".toList ++ post)) =
      (a ++ "formatN".toList) ++ r := by
    rw [← odsCellClose_eq, h]; simp
  obtain ⟨r0, e1, e2⟩ := prefix_free_split htext hu h2
  have hr0 : '<' ∉ r0 := fun hm => htext (by rw [e2]; simp [hm])
  refine ⟨r0, by rw [e2]; simp, ?_⟩
  rw [e1, ← odsCellClose_eq, numberCellTail_first r0 post c K hr0]

theorem numberCell_matchAt (attrs text post : Str) (hattrs : '<' ∉ attrs)
    (htext : '<' ∉ text) (hf : "formatN".toList <:+: text) :
    reNumberCell.matchAt ("<table:table-cell".toList ++ (attrs ++ ("><text:p>".toList ++
        (text ++ (odsCellClose ++ post))))) =
      some ("<table:table-cell".toList ++ (attrs ++ ("><text:p>".toList ++
        (text ++ odsCellClose))), post, []) := by
  have hsp : isSpace '<' = false := by decide
  rw [matchAt_eq_first, reNumberCell_eq]
  simp only [Re.cat, Re.star, first_seq, first_str, dropLit_append]
  have e1 : attrs ++ ("><text:p>".toList ++ (text ++ (odsCellClose ++ post))) =
      attrs ++ ('>' :: ('<' :: ("text:p>".toList ++ (text ++ (odsCellClose ++ post))))) := by
    simp
  rw [e1]
  apply first_greedy_bounded 0 none (notCh '<') attrs _ _ _ _ (notCh_of_not_mem hattrs)
    (by simp [inBounds])
  · intro x hx
    have : x = (['>'], '<' :: ("text:p>".toList ++ (text ++ (odsCellClose ++ post)))) := by
      simpa [splits, notCh] using hx
    subst this
    simp [dropLit]
  · simp only [dropLit, if_true]
    rw [first_rep_stop0 _ _ _ _ _ _ _ _ hsp]
    simp only [inBounds, Nat.zero_le, decide_True, Bool.true_and, if_true]
    have e2 : '<' :: ("text:p>".toList ++ (text ++ (odsCellClose ++ post))) =
        "<text:p>".toList ++ (text ++ (odsCellClose ++ post)) := by simp
    rw [e2]
    simp only [dropLit_append]
    apply first_rep_const
    · intro a b hab ha
      cases hd : dropLit "formatN".toList b with
      | none => left; rfl
      | some r =>
        right
        have hb := dropLit_eq_some.mp hd
        rw [hb] at hab
        obtain ⟨r0, e3, e4⟩ := numberCell_cut text post a r [] (fun y => some
          ("<table:table-cell".toList ++ (attrs ++ (">".toList ++ ([] ++ ("<text:p>".toList ++
            (a ++ ("formatN".toList ++ y.1)))))), y.2.1, y.2.2)) htext (not_mem_of_notCh ha) hab
        show reNumberCellTail.first r [] _ = _
        rw [e4, e3]
        simp
    · obtain ⟨a, r, e5⟩ := hf
      have e6 : text = a ++ ("formatN".toList ++ r) := by rw [← e5]; simp
      have ha : '<' ∉ a := fun hm => htext (by rw [e6]; simp [hm])
      have hab : text ++ (odsCellClose ++ post) =
          a ++ ("formatN".toList ++ (r ++ (odsCellClose ++ post))) := by rw [e6]; simp
      obtain ⟨r0, e3, e4⟩ := numberCell_cut text post a (r ++ (odsCellClose ++ post)) []
        (fun y => some
          ("<table:table-cell".toList ++ (attrs ++ (">".toList ++ ([] ++ ("<text:p>".toList ++
            (a ++ ("formatN".toList ++ y.1)))))), y.2.1, y.2.2)) htext ha hab
      refine ⟨a, _, hab, notCh_of_not_mem ha, by simp [inBounds], ?_⟩
      simp only [dropLit_append]
      rw [e4, e3]
      simp

end preprocessor

namespace preprocessor

open Js

theorem renderAll_chrs (f : Str → Option Str) (u : Str) :
    renderAll f (u.map Seg.chr) = some u := by
  induction u with
  | nil => rfl
  | cons c t ih => simp [renderAll, ih]

theorem renderAll_chrs_append (f : Str → Option Str) (u : Str) (gs : List Seg) :
    renderAll f (u.map Seg.chr ++ gs) = (renderAll f gs).map (fun r => u ++ r) := by
  induction u with
  | nil => simp
  | cons c t ih =>
    have e : renderAll f ((c :: t).map Seg.chr ++ gs) =
        (renderAll f (t.map Seg.chr ++ gs)).map (fun r => c :: r) := rfl
    rw [e, ih]
    cases renderAll f gs <;> simp

theorem renderAll_one (f : Str → Option Str) (pre m post : Str) (caps : Caps) :
    renderAll f (pre.map Seg.chr ++ Seg.hit m caps :: post.map Seg.chr) =
      (f m).map (fun r => pre ++ (r ++ post)) := by
  rw [renderAll_chrs_append]
  simp only [renderAll, renderAll_chrs]
  cases f m <;> simp

theorem tableCellLit_noBorder : ∀ k, k < "<table:table-cell".toList.length → 0 < k →
    ¬ "<table:table-cell".toList.drop k <+: "<table:table-cell".toList := by
  decide

theorem odsCell_eq (text post : Str) : odsCell text ++ post =
    "<table:table-cell".toList ++
      (" office:value-type=\"string\" calcext:value-type=\"string\"".toList ++
        ("><text:p>".toList ++ (text ++ (odsCellClose ++ post)))) := by
  simp [odsCell, odsCellOpen]

theorem odsCell_matchAt (text post : Str) (htext : '<' ∉ text)
    (hf : "formatN".toList <:+: text) :
    reNumberCell.matchAt (odsCell text ++ post) = some (odsCell text, post, []) := by
  rw [odsCell_eq, numberCell_matchAt _ text post (by decide) htext hf]
  have := odsCell_eq text []
  simp only [List.append_nil] at this
  rw [this]

/-- The scan of a part that holds one string-typed cell with `formatN` in its
text: the replacer is called once, with the cell. -/
theorem numberCell_scan (pre text post : Str) (htext : '<' ∉ text)
    (hf : "formatN".toList <:+: text) (hpre : ¬ "<table:table-cell".toList <:+: pre)
    (hpost : ¬ "<table:table-cell".toList <:+: post) :
    renderAll numberCellReplacer (reNumberCell.segs (pre ++ (odsCell text ++ post)) 0) =
      (numberCellReplacer (odsCell text)).map (fun r => pre ++ (r ++ post)) := by
  have hskip : ∀ a b, pre = a ++ b → b ≠ [] →
      reNumberCell.matchAt (b ++ (odsCell text ++ post)) = none := by
    intro a b hab hb
    apply numberCell_miss
    rw [odsCell_eq]
    exact dropLit_cut_none _ pre a b _ hab hb hpre tableCellLit_noBorder
  have hend : ∀ a b, post = a ++ b → reNumberCell.matchAt b = none := by
    intro a b hab
    apply numberCell_miss
    rw [dropLit_eq_none]
    intro r hr
    exact hpost ⟨a, r, by rw [hab, hr]; simp⟩
  have hne : odsCell text ≠ [] := by simp [odsCell, odsCellOpen]
  rw [segs_skip_run _ pre _ hskip,
    segs_hit_append _ _ post post [] hne (odsCell_matchAt text post htext hf),
    segs_all_miss _ post hend, renderAll_one]

end preprocessor

namespace preprocessor

open Js

theorem marker_miss (c : Char) (t : Str) (h : c ≠ lbrace) : reMarker.matchAt (c :: t) = none := by
  rw [matchAt_eq_first]
  simp only [reMarker, Re.cat, first_grp, first_seq, first_str]
  have : dropLit "\x7b".toList (c :: t) = none := dropLit_none_of_head (Ne.symm h)
  simp only [this]

theorem marker_matchAt (body rest : Str) (hne : body ≠ []) (h1 : lbrace ∉ body)
    (h2 : rbrace ∉ body) :
    reMarker.matchAt (lbrace :: (body ++ rbrace :: rest)) =
      some (lbrace :: (body ++ [rbrace]), rest, [(1, lbrace :: (body ++ [rbrace]))]) := by
  rw [matchAt_eq_first]
  simp only [reMarker, Re.cat, Re.lazyPlus, first_grp, first_seq, first_str]
  have e : dropLit "\x7b".toList (lbrace :: (body ++ rbrace :: rest)) =
      some (body ++ rbrace :: rest) := by simp [dropLit, lbrace]
  simp only [e]
  apply first_lazy_some 1 (notCh (Char.ofNat 123)) body (rbrace :: rest) _ _ _
    (notCh_of_not_mem h1) (List.length_pos.mpr hne)
  · intro a b hab hb _
    obtain ⟨y, b', rfl⟩ := List.exists_cons_of_ne_nil hb
    have hy : y ≠ rbrace := by
      rintro rfl
      exact h2 (by rw [hab]; simp)
    have : dropLit "\x7d".toList (y :: b' ++ rbrace :: rest) = none :=
      dropLit_none_of_head (Ne.symm hy)
    simp only [this]
  · simp [dropLit, rbrace, lbrace]

theorem marker_skip (u v : Str) (hu : lbrace ∉ u) :
    reMarker.segs (u ++ v) 0 = u.map Seg.chr ++ reMarker.segs v 0 := by
  apply segs_skip_run
  intro a b hab hb
  obtain ⟨y, b', rfl⟩ := List.exists_cons_of_ne_nil hb
  apply marker_miss
  rintro rfl
  exact hu (by rw [hab]; simp)

theorem marker_end (v : Str) (hv : lbrace ∉ v) : reMarker.segs v 0 = v.map Seg.chr := by
  have := marker_skip v [] hv
  simp only [List.append_nil] at this
  rw [this]
  have : reMarker.segs [] 0 = [] := segs_nil _ (by decide) 0
  simp [this]

theorem marker_hit (body rest : Str) (hne : body ≠ []) (h1 : lbrace ∉ body)
    (h2 : rbrace ∉ body) :
    reMarker.segs (lbrace :: (body ++ rbrace :: rest)) 0 =
      Seg.hit (lbrace :: (body ++ [rbrace])) [(1, lbrace :: (body ++ [rbrace]))] ::
        reMarker.segs rest 0 := by
  have := segs_hit_append reMarker (lbrace :: (body ++ [rbrace])) rest rest _ (by simp)
    (by simpa using marker_matchAt body rest hne h1 h2)
  simpa using this

theorem filterMap_chrs (u : Str) :
    (u.map Seg.chr).filterMap (fun g => match g with
      | .hit m _ => some m
      | .chr _ => none) = [] := by
  induction u with
  | nil => rfl
  | cons c t ih => simp

/-- A text with one marker: `match` finds it alone. -/
theorem matchMarkers_one (u body v : Str) (hu : lbrace ∉ u) (hv : lbrace ∉ v)
    (hne : body ≠ []) (h1 : lbrace ∉ body) (h2 : rbrace ∉ body) :
    matchMarkers (u ++ (lbrace :: (body ++ rbrace :: v))) = [lbrace :: (body ++ [rbrace])] := by
  simp only [matchMarkers]
  rw [marker_skip u _ hu, marker_hit body v hne h1 h2, marker_end v hv]
  simp only [List.filterMap_append, List.filterMap_cons, filterMap_chrs, List.nil_append]

/-- A text with two markers side by side: `match` finds both. -/
theorem matchMarkers_two (u b1 b2 v : Str) (hu : lbrace ∉ u) (hv : lbrace ∉ v)
    (hne1 : b1 ≠ []) (h11 : lbrace ∉ b1) (h12 : rbrace ∉ b1)
    (hne2 : b2 ≠ []) (h21 : lbrace ∉ b2) (h22 : rbrace ∉ b2) :
    matchMarkers (u ++ (lbrace :: (b1 ++ rbrace :: (lbrace :: (b2 ++ rbrace :: v))))) =
      [lbrace :: (b1 ++ [rbrace]), lbrace :: (b2 ++ [rbrace])] := by
  simp only [matchMarkers]
  rw [marker_skip u _ hu, marker_hit b1 _ hne1 h11 h12, marker_hit b2 v hne2 h21 h22,
    marker_end v hv]
  simp only [List.filterMap_append, List.filterMap_cons, filterMap_chrs, List.nil_append]

end preprocessor

namespace preprocessor

open Js

theorem formatNCallLit_noBorder : ∀ k, k < ":formatN(".toList.length → 0 < k →
    ¬ ":formatN(".toList.drop k <+: ":formatN(".toList := by
  decide

theorem formatNCall_miss (s : Str) (h : dropLit ":formatN(".toList s = none) :
    reFormatNCall.matchAt s = none := by
  rw [matchAt_eq_first]
  simp only [reFormatNCall, Re.cat, first_seq, first_str, h]

/-- The first `:formatN(...)` call of a text is dropped, up to the last
closing parenthesis of its line. -/
theorem formatNCall_strip_in (U ARGS V : Str) (hU : '(' ∉ U)
    (hA : ∀ c ∈ ARGS, dot c = true) (hV : ')' ∉ V) :
    reFormatNCall.replaceFirst (U ++ (":formatN(".toList ++ (ARGS ++ (')' :: V))))
      (fun _ _ => []) = U ++ V := by
  have hin : ¬ ":formatN(".toList <:+: U := by
    rintro ⟨a, b, e⟩
    exact hU (by rw [← e]; simp)
  have hskip : ∀ a b, U = a ++ b → b ≠ [] →
      reFormatNCall.matchAt (b ++ (":formatN(".toList ++ (ARGS ++ (')' :: V)))) = none :=
    fun a b hab hb => formatNCall_miss _
      (dropLit_cut_none _ U a b _ hab hb hin formatNCallLit_noBorder)
  have hm : reFormatNCall.matchAt (":formatN(".toList ++ (ARGS ++ (')' :: V))) =
      some (":formatN(".toList ++ (ARGS ++ [')']), V, []) := by
    rw [matchAt_eq_first]
    simp only [reFormatNCall, Re.cat, Re.star, first_seq, first_str, dropLit_append]
    apply first_greedy_bounded 0 none dot ARGS _ _ _ _ hA (by simp [inBounds])
    · intro x hx
      obtain ⟨hx1, hx2⟩ := mem_splits_tail hx
      obtain ⟨y, t, hy⟩ := List.exists_cons_of_ne_nil hx1
      have hnot : ')' ∉ x.2 := by
        intro hm
        apply hV
        rw [hy] at hx2
        simp only [List.cons_append, List.cons.injEq] at hx2
        rw [hx2.2]
        simp [hm]
      have : dropLit ")".toList x.2 = none := dropLit_cons_none_of_not_mem ')' [] x.2 hnot
      simp only [this]
    · simp [dropLit]
  simp only [Re.replaceFirst]
  rw [search_skip _ _ _ hskip, search_hit _ _ _ hm]
  simp

theorem substitute_id (whole before after rep : Str) (h : '$' ∉ rep) :
    substitute whole before after rep = rep := by
  induction rep with
  | nil => rfl
  | cons c t ih =>
    have hc : c ≠ '$' := fun e => h (by simp [e])
    have ht : '$' ∉ t := fun hm => h (by simp [hm])
    cases t with
    | nil => rfl
    | cons d t2 =>
      rw [substitute, if_neg hc, ih ht]

/-- A `replace` with a literal pattern and a replacement text free of `$`. -/
theorem replaceFirstWith_lit (L : String) (U V rep : Str)
    (hskip : ∀ a b, U = a ++ b → b ≠ [] → dropLit L.toList (b ++ (L.toList ++ V)) = none)
    (hrep : '$' ∉ rep) :
    replaceFirstWith (.str L) (U ++ (L.toList ++ V)) rep = U ++ (rep ++ V) := by
  have hs : ∀ a b, U = a ++ b → b ≠ [] →
      (Re.str L).matchAt (b ++ (L.toList ++ V)) = none := by
    intro a b hab hb
    rw [Re.str, lit_matchAt, hskip a b hab hb]
    rfl
  have hm : (Re.str L).matchAt (L.toList ++ V) = some (L.toList, V, []) := by
    rw [Re.str, lit_matchAt, dropLit_append]
    rfl
  simp only [replaceFirstWith]
  rw [search_skip _ _ _ hs, search_hit _ _ _ hm]
  simp [substitute_id _ _ _ _ hrep]

end preprocessor

namespace preprocessor

open Js

theorem isOdsText_spec {s : Str} (h : isOdsText s = true) :
    ∀ c ∈ s, dot c = true ∧ c ≠ ':' ∧ c ≠ '<' ∧ c ≠ lbrace ∧ c ≠ rbrace ∧ c ≠ '$' ∧
      c ≠ dquote ∧ c ≠ '(' ∧ c ≠ ')' := by
  intro c hc
  simp only [isOdsText, List.all_eq_true, Bool.and_eq_true, Bool.not_eq_true'] at h
  obtain ⟨h1, h2⟩ := h c hc
  refine ⟨h1, ?_, ?_, ?_, ?_, ?_, ?_, ?_, ?_⟩ <;>
  · rintro rfl
    revert h2
    decide

/-- The text between the braces of a `formatN` marker. -/
theorem formatterMarker_body (P ARGS : Str) :
    formatterMarker P "formatN".toList ARGS =
      lbrace :: (("d.".toList ++ (P ++ (":formatN(".toList ++ (ARGS ++ [')'])))) ++ [rbrace]) := by
  simp [formatterMarker, lbrace, rbrace]

theorem formatN_body_free (P ARGS : Str) (hP : isOdsText P = true) (hA : isOdsText ARGS = true) :
    lbrace ∉ "d.".toList ++ (P ++ (":formatN(".toList ++ (ARGS ++ [')']))) ∧
    rbrace ∉ "d.".toList ++ (P ++ (":formatN(".toList ++ (ARGS ++ [')']))) ∧
    '<' ∉ "d.".toList ++ (P ++ (":formatN(".toList ++ (ARGS ++ [')']))) := by
  have hPs := isOdsText_spec hP
  have hAs := isOdsText_spec hA
  refine ⟨?_, ?_, ?_⟩ <;>
  · intro h
    simp only [List.mem_append, List.mem_singleton] at h
    rcases h with h | h | h | h | h
    · revert h; decide
    · first
        | exact (hPs _ h).2.2.2.1 rfl
        | exact (hPs _ h).2.2.2.2.1 rfl
        | exact (hPs _ h).2.2.1 rfl
    · revert h; decide
    · first
        | exact (hAs _ h).2.2.2.1 rfl
        | exact (hAs _ h).2.2.2.2.1 rfl
        | exact (hAs _ h).2.2.1 rfl
    · revert h; decide

theorem odsCell_markers_one (P ARGS : Str) (hP : isOdsText P = true)
    (hA : isOdsText ARGS = true) :
    matchMarkers (odsCell (formatterMarker P "formatN".toList ARGS)) =
      [formatterMarker P "formatN".toList ARGS] := by
  obtain ⟨h1, h2, -⟩ := formatN_body_free P ARGS hP hA
  have := matchMarkers_one odsCellOpen _ odsCellClose (by decide) (by decide) (by simp) h1 h2
  rw [formatterMarker_body]
  simpa [odsCell] using this

theorem odsCell_markers_two (P1 A1 P2 A2 : Str) (hP1 : isOdsText P1 = true)
    (hA1 : isOdsText A1 = true) (hP2 : isOdsText P2 = true) (hA2 : isOdsText A2 = true) :
    matchMarkers (odsCell (formatterMarker P1 "formatN".toList A1 ++
        formatterMarker P2 "formatN".toList A2)) =
      [formatterMarker P1 "formatN".toList A1, formatterMarker P2 "formatN".toList A2] := by
  obtain ⟨h1, h2, -⟩ := formatN_body_free P1 A1 hP1 hA1
  obtain ⟨h3, h4, -⟩ := formatN_body_free P2 A2 hP2 hA2
  have := matchMarkers_two odsCellOpen _ _ odsCellClose (by decide) (by decide) (by simp) h1 h2
    (by simp) h3 h4
  rw [formatterMarker_body, formatterMarker_body]
  simpa [odsCell] using this

end preprocessor

namespace preprocessor

open Js

/-- A text with a character that the end `Q` of `C ++ Q` does not hold can
only stand in `C ++ Q` with that character inside `C`. -/
theorem infix_char_left {x : Char} {L1 L2 C Q : Str} (hQ : x ∉ Q)
    (h : (L1 ++ x :: L2) <:+: (C ++ Q)) : (L1 ++ [x]) <:+: C := by
  obtain ⟨s, t, e⟩ := h
  have e2 : (s ++ L1) ++ x :: (L2 ++ t) = C ++ Q := by rw [← e]; simp
  rcases List.append_eq_append_iff.mp e2 with ⟨a', h1, h2⟩ | ⟨c', h1, h2⟩
  · cases a' with
    | nil =>
      exfalso
      simp only [List.nil_append] at h2
      exact hQ (by rw [← h2]; simp)
    | cons y a2 =>
      simp only [List.cons_append, List.cons.injEq] at h2
      refine ⟨s, a2, ?_⟩
      rw [h1, h2.1]
      simp
  · exfalso
    exact hQ (by rw [h2]; simp)

end preprocessor

namespace preprocessor

open Js

/-- The marker pass on a text without an opening brace: nothing is found. -/
theorem guideReplace_quiet (get : List Str → Option Nat) (data : Str) (refs : List TableRef)
    (h : lbrace ∉ data) :
    guideReplace get (reTableGuide.segs data 0) refs = some (data, refs) := by
  have hend : ∀ a b, data = a ++ b → reTableGuide.matchAt b = none := by
    intro a b hab
    cases b with
    | nil => decide
    | cons y b' => exact tableGuide_miss y _ (fun e => h (by rw [hab, ← e]; simp))
  rw [segs_all_miss _ data hend]
  have := guideReplace_chrs get data [] refs
  simpa [guideReplace] using this

/-- The loop over the sheets on files of which no sheet of the scope holds an
opening brace: nothing changes. -/
theorem processTableRefs_quiet (get : List Str → Option Nat) (pf : Str) (fs : List File)
    (refs : List TableRef) (h : ∀ f ∈ fs, isSheet pf f = true → lbrace ∉ f.data) :
    processTableRefs get pf fs refs = (fs, some refs) := by
  induction fs with
  | nil => rfl
  | cons f fs ih =>
    have ih2 := ih (fun g hg => h g (by simp [hg]))
    by_cases hs : isSheet pf f = true
    · simp only [processTableRefs, hs, if_true,
        guideReplace_quiet get f.data refs (h f (by simp) hs), ih2]
    · simp only [processTableRefs, hs, Bool.false_eq_true, if_false, ih2]

theorem processTableRefs_append_quiet (get : List Str → Option Nat) (pf : Str)
    (pre rest : List File) (refs : List TableRef)
    (h : ∀ f ∈ pre, isSheet pf f = true → lbrace ∉ f.data) :
    processTableRefs get pf (pre ++ rest) refs =
      (pre ++ (processTableRefs get pf rest refs).1, (processTableRefs get pf rest refs).2) := by
  induction pre with
  | nil => rfl
  | cons f fs ih =>
    have ih2 := ih (fun g hg => h g (by simp [hg]))
    rw [List.cons_append, processTableRefs]
    by_cases hs : isSheet pf f = true
    · simp only [hs, if_true, guideReplace_quiet get f.data refs (h f (by simp) hs)]
      rw [ih2]
      rfl
    · simp only [hs, Bool.false_eq_true, if_false]
      rw [ih2]
      rfl

/-- The loop over the sheets when one sheet of the scope holds one marker and
no other holds an opening brace. -/
theorem processTableRefs_one (get : List Str → Option Nat) (pf : Str)
    (pre post : List File) (sheet : File) (s0 s1 P T : Str) (L : Nat)
    (hpre : ∀ f ∈ pre, isSheet pf f = true → lbrace ∉ f.data)
    (hpost : ∀ f ∈ post, isSheet pf f = true → lbrace ∉ f.data)
    (hsheet : isSheet pf sheet = true) (hdata : sheet.data = s0 ++ guideMarker P T ++ s1)
    (hs0 : lbrace ∉ s0) (hs1 : lbrace ∉ s1) (hP : isDataPath P = true)
    (hT : isTableName T = true) (hget : get (split '.' P) = some L) :
    processTableRefs get pf (pre ++ sheet :: post) [] =
      (pre ++ { sheet with data := s0 ++ s1 } :: post, some [⟨T, P, L⟩]) := by
  rw [processTableRefs_append_quiet get pf pre _ [] hpre]
  simp only [processTableRefs, hsheet, if_true, hdata,
    guideReplace_one_marker get s0 s1 P T L [] hs0 hs1 hP hT hget,
    processTableRefs_quiet get pf post _ hpost]

/-- The files that are not sheets of the scope get through the loop over the
sheets as they are, at their place. -/
theorem processTableRefs_get? (get : List Str → Option Nat) (pf : Str) (files : List File) :
    ∀ (refs : List TableRef) (j : Nat) (t : File), files.get? j = some t →
      isSheet pf t = false → (processTableRefs get pf files refs).1.get? j = some t := by
  induction files with
  | nil => intro refs j t h; simp at h
  | cons f fs ih =>
    intro refs j t h ht
    cases j with
    | zero =>
      simp only [List.get?_cons_zero, Option.some.injEq] at h
      subst h
      simp [processTableRefs, ht]
    | succ j =>
      have h2 : fs.get? j = some t := by simpa using h
      by_cases hs : isSheet pf f = true
      · cases hg : guideReplace get (reTableGuide.segs f.data 0) refs with
        | none =>
          simp only [processTableRefs, hs, if_true, hg]
          exact h
        | some r =>
          have := ih r.2 j t h2 ht
          simp only [processTableRefs, hs, if_true, hg]
          simpa using this
      · have := ih refs j t h2 ht
        simp only [processTableRefs, hs, Bool.false_eq_true, if_false]
        simpa using this

end preprocessor

namespace preprocessor

open Js

theorem get?_middle {α : Type} (pre post : List α) (a b : α) (j : Nat) (hj : j ≠ pre.length) :
    (pre ++ a :: post).get? j = (pre ++ b :: post).get? j := by
  induction pre generalizing j with
  | nil =>
    cases j with
    | zero => exact absurd rfl hj
    | succ j => rfl
  | cons c pre ih =>
    cases j with
    | zero => rfl
    | succ j =>
      have := ih j (fun e => hj (by simp [e]))
      simpa using this

theorem get?_at_middle {α : Type} (pre post : List α) (a : α) :
    (pre ++ a :: post).get? pre.length = some a := by
  induction pre with
  | nil => rfl
  | cons c pre ih => simpa using ih

/-- The result of `adjustTableHeights` when one sheet of the scope holds one
marker and no other holds an opening brace. -/
theorem adjustTableHeights_one (get : List Str → Option Nat) (pf : Str)
    (pre post : List File) (sheet : File) (s0 s1 P T : Str) (L : Nat)
    (hpre : ∀ f ∈ pre, isSheet pf f = true → lbrace ∉ f.data)
    (hpost : ∀ f ∈ post, isSheet pf f = true → lbrace ∉ f.data)
    (hsheet : isSheet pf sheet = true) (hdata : sheet.data = s0 ++ guideMarker P T ++ s1)
    (hs0 : lbrace ∉ s0) (hs1 : lbrace ∉ s1) (hP : isDataPath P = true)
    (hT : isTableName T = true) (hget : get (split '.' P) = some L) :
    adjustTableHeights get (pre ++ sheet :: post) pf =
      ⟨(pre ++ { sheet with data := s0 ++ s1 } :: post).map (processTable pf [⟨T, P, L⟩]),
        none⟩ := by
  simp only [adjustTableHeights, processTableRefs_one get pf pre post sheet s0 s1 P T L hpre
    hpost hsheet hdata hs0 hs1 hP hT hget]

/-- The result of `adjustTableHeights` when the loop over the sheets has
recorded `refs`. -/
theorem adjustTableHeights_of_refs (get : List Str → Option Nat) (files : List File)
    (pf : Str) (refs : List TableRef) (h : (processTableRefs get pf files []).2 = some refs) :
    adjustTableHeights get files pf =
      ⟨(processTableRefs get pf files []).1.map (processTable pf refs), none⟩ := by
  unfold adjustTableHeights
  rcases hp : processTableRefs get pf files [] with ⟨files1, _ | refs1⟩
  · rw [hp] at h; cases h
  · rw [hp] at h
    simp only [Option.some.injEq] at h
    subst h
    rfl

theorem lookupRef_head (T P : Str) (L : Nat) (refs : List TableRef) :
    lookupRef (⟨T, P, L⟩ :: refs) T = some (some L) := by
  simp [lookupRef]

end preprocessor

namespace preprocessor

open Js

theorem officeValueType_noBorder :
    ∀ k, k < "office:value-type=\"string\"".toList.length → 0 < k →
      ¬ "office:value-type=\"string\"".toList.drop k <+: "office:value-type=\"string\"".toList := by
  decide

theorem calcextValueType_noBorder :
    ∀ k, k < "calcext:value-type=\"string\"".toList.length → 0 < k →
      ¬ "calcext:value-type=\"string\"".toList.drop k <+:
        "calcext:value-type=\"string\"".toList := by
  decide

/-- The bare marker `{d.P}`. -/
theorem bareMarker_free (P : Str) (hP : isOdsText P = true) :
    '$' ∉ "\x7bd.".toList ++ (P ++ "\x7d".toList) ∧ ':' ∉ P ++ "\x7d\" ".toList ∧
      '(' ∉ "\x7bd.".toList ++ P := by
  have hPs := isOdsText_spec hP
  refine ⟨?_, ?_, ?_⟩
  · intro h
    simp only [List.mem_append] at h
    rcases h with h | h | h
    · revert h; decide
    · exact (hPs _ h).2.2.2.2.2.1 rfl
    · revert h; decide
  · intro h
    simp only [List.mem_append] at h
    rcases h with h | h
    · exact (hPs _ h).2.1 rfl
    · revert h; decide
  · intro h
    simp only [List.mem_append] at h
    rcases h with h | h
    · revert h; decide
    · exact (hPs _ h).2.2.2.2.2.2.2.1 rfl

/-- The replacer on a string-typed cell whose text is one `formatN` marker. -/
theorem numberCellReplacer_one (P ARGS : Str) (hP : isOdsText P = true)
    (hA : isOdsText ARGS = true) :
    numberCellReplacer (odsCell (formatterMarker P "formatN".toList ARGS)) =
      some (odsFloatCellOpen ("\x7bd.".toList ++ (P ++ "\x7d".toList)) ++
        (("\x7bd.".toList ++ (P ++ "\x7d".toList)) ++ odsCellClose)) := by
  have hPs := isOdsText_spec hP
  have hAs := isOdsText_spec hA
  obtain ⟨hd, hc, hp⟩ := bareMarker_free P hP
  have hAdot : ∀ c ∈ ARGS, dot c = true := fun c hc => (hAs c hc).1
  -- the marker without its formatter
  have e1 : formatterMarker P "formatN".toList ARGS =
      ("\x7bd.".toList ++ P) ++ (":formatN(".toList ++ (ARGS ++ (')' :: "\x7d".toList))) := by
    simp [formatterMarker]
  have h1 : reFormatNCall.replaceFirst (formatterMarker P "formatN".toList ARGS)
      (fun _ _ => []) = "\x7bd.".toList ++ (P ++ "\x7d".toList) := by
    rw [e1, formatNCall_strip_in _ ARGS _ hp hAdot (by decide)]
    simp
  -- the cell without the formatter
  have e2 : odsCell (formatterMarker P "formatN".toList ARGS) =
      (odsCellOpen ++ ("\x7bd.".toList ++ P)) ++
        (":formatN(".toList ++ (ARGS ++ (')' :: ("\x7d".toList ++ odsCellClose)))) := by
    simp [odsCell, formatterMarker]
  have hU : '(' ∉ odsCellOpen ++ ("\x7bd.".toList ++ P) := by
    intro h
    rw [List.mem_append] at h
    rcases h with h | h
    · revert h; decide
    · exact hp h
  have h2 : reFormatNCall.replaceFirst (odsCell (formatterMarker P "formatN".toList ARGS))
      (fun _ _ => []) =
      "<table:table-cell ".toList ++ ("office:value-type=\"string\"".toList ++
        (" calcext:value-type=\"string\"><text:p>\x7bd.".toList ++
          (P ++ ("\x7d".toList ++ odsCellClose)))) := by
    rw [e2, formatNCall_strip_in _ ARGS _ hU hAdot (by decide)]
    simp [odsCellOpen]
  -- the office value type
  have hrep : '$' ∉ "office:value-type=\"float\" office:value=\"".toList ++
      ("\x7bd.".toList ++ (P ++ "\x7d".toList)) ++ [dquote] := by
    intro h
    simp only [List.mem_append, List.mem_singleton] at h
    rcases h with (h | h) | h
    · revert h; decide
    · exact hd (by simpa using h)
    · revert h; decide
  have h3 := replaceFirstWith_lit "office:value-type=\"string\"" "<table:table-cell ".toList
    (" calcext:value-type=\"string\"><text:p>\x7bd.".toList ++
      (P ++ ("\x7d".toList ++ odsCellClose)))
    ("office:value-type=\"float\" office:value=\"".toList ++
      ("\x7bd.".toList ++ (P ++ "\x7d".toList)) ++ [dquote])
    (fun a b hab hb => dropLit_cut_none _ _ a b _ hab hb (by decide) officeValueType_noBorder)
    hrep
  -- the calcext value type
  have hin : ¬ "calcext:value-type=\"string\"".toList <:+:
      "<table:table-cell office:value-type=\"float\" office:value=\"\x7bd.".toList ++
        (P ++ "\x7d\" ".toList) := by
    intro h
    have e : "calcext:value-type=\"string\"".toList =
        "calcext".toList ++ ':' :: "value-type=\"string\"".toList := by decide
    rw [e] at h
    have := infix_char_left hc h
    revert this
    decide
  have h4 := replaceFirstWith_lit "calcext:value-type=\"string\""
    ("<table:table-cell office:value-type=\"float\" office:value=\"\x7bd.".toList ++
        (P ++ "\x7d\" ".toList))
    ("><text:p>\x7bd.".toList ++ (P ++ ("\x7d".toList ++ odsCellClose)))
    "calcext:value-type=\"float\"".toList
    (fun a b hab hb => dropLit_cut_none _ _ a b _ hab hb hin calcextValueType_noBorder)
    (by decide)
  have e3 : "<table:table-cell ".toList ++
      (("office:value-type=\"float\" office:value=\"".toList ++
        ("\x7bd.".toList ++ (P ++ "\x7d".toList)) ++ [dquote]) ++
        (" calcext:value-type=\"string\"><text:p>\x7bd.".toList ++
          (P ++ ("\x7d".toList ++ odsCellClose)))) =
      ("<table:table-cell office:value-type=\"float\" office:value=\"\x7bd.".toList ++
        (P ++ "\x7d\" ".toList)) ++ ("calcext:value-type=\"string\"".toList ++
          ("><text:p>\x7bd.".toList ++ (P ++ ("\x7d".toList ++ odsCellClose)))) := by
    simp [dquote]
  unfold numberCellReplacer
  rw [odsCell_markers_one P ARGS hP hA]
  simp only [h1, h2]
  rw [reOfficeValueType, h3, e3, reCalcextValueType, h4]
  simp [odsFloatCellOpen]

/-- The replacer on a cell whose text is two `formatN` markers: the cell is
returned as it is. -/
theorem numberCellReplacer_two (P1 A1 P2 A2 : Str) (hP1 : isOdsText P1 = true)
    (hA1 : isOdsText A1 = true) (hP2 : isOdsText P2 = true) (hA2 : isOdsText A2 = true) :
    numberCellReplacer (odsCell (formatterMarker P1 "formatN".toList A1 ++
        formatterMarker P2 "formatN".toList A2)) =
      some (odsCell (formatterMarker P1 "formatN".toList A1 ++
        formatterMarker P2 "formatN".toList A2)) := by
  unfold numberCellReplacer
  rw [odsCell_markers_two P1 A1 P2 A2 hP1 hA1 hP2 hA2]

end preprocessor

namespace preprocessor

open Js

end preprocessor

namespace preprocessor

open Js

/-- The formula pass leaves a text without `<f>` as it is. -/
theorem formulaFree_pass (s : Str) (h : ¬ "<f>".toList <:+: s) :
    reFunctionCell.replaceAll s functionCellReplacer = s := by
  apply replaceAll_all_miss
  intro a b hab
  apply functionCell_miss
  intro u v hb
  rw [dropLit_eq_none]
  intro r hr
  exact h ⟨a ++ u ++ ">".toList, r, by rw [hab, hb, hr]; simp⟩

/-- The shared-string pass finds no match in a text free of `t="s"`. -/
theorem sharedCell_none (s : Str) (h : ¬ "t=\"s\"".toList <:+: s) :
    ∀ a b, s = a ++ b → reSharedCell.matchAt b = none := by
  intro a b hab
  rw [matchAt_eq_first]
  simp only [reSharedCell, Re.cat, Re.star, first_seq, first_grp, first_str, first_set]
  cases hd : dropLit "<".toList b with
  | none => rfl
  | some r =>
    have hb1 : b = "<".toList ++ r := dropLit_eq_some.mp hd
    cases r with
    | nil => rfl
    | cons x t =>
      simp only []
      split
      · apply first_rep_none
        intro a' b' hab' _
        cases hd2 : dropLit "t=\"s\"".toList b' with
        | none => rfl
        | some v =>
          exfalso
          have hb' : b' = "t=\"s\"".toList ++ v := dropLit_eq_some.mp hd2
          apply h
          refine ⟨a ++ ('<' :: x :: a'), v, ?_⟩
          rw [hab, hb1]
          simp only [String.toList, List.cons_append, List.nil_append, List.append_assoc]
          rw [hab', hb']
          simp
      · rfl

end preprocessor

namespace preprocessor

open Js

/-- A sheet text free of `<f>` and of `t="s"` is returned as it is. -/
theorem convertToInlineString_inert (s : Str) (ss : List Str) (hF : ¬ "<f>".toList <:+: s)
    (hS : ¬ "t=\"s\"".toList <:+: s) : convertToInlineString s ss = s := by
  have e : convertToInlineString s ss =
      reSharedCell.replaceAll (reFunctionCell.replaceAll s functionCellReplacer)
        (sharedCellReplacer ss) := rfl
  rw [e, formulaFree_pass _ hF]
  exact replaceAll_all_miss _ _ _ (sharedCell_none s hS)

end preprocessor

namespace preprocessor

open Js

end preprocessor

namespace preprocessor

open Js

end preprocessor

/-! ## Evaluations of the source functions -/

namespace preprocessor

open Js

set_option maxRecDepth 1000000 in
/-- C1, counterexample: with `d.items` an array of length 3, the table `T1`
declared `ref="A2:C5"` keeps `ref="A2:C5"` (start row 2 plus 3); the end row
does not grow to 8. -/
theorem C1_counterexample :
    (adjustTableHeights itemsOfLength3
      [⟨"xl/worksheets/sheet1.xml".toList, [], "<c>\x7bd.items:tableGuide(\x27T1\x27)\x7d</c>".toList⟩,
       ⟨"xl/tables/table1.xml".toList, [], "<table name=\"T1\" ref=\"A2:C5\">".toList⟩] []) =
      ⟨[⟨"xl/worksheets/sheet1.xml".toList, [], "<c></c>".toList⟩,
        ⟨"xl/tables/table1.xml".toList, [], "<table name=\"T1\" ref=\"A2:C5\">".toList⟩], none⟩ ∧
    "<table name=\"T1\" ref=\"A2:C5\">".toList ≠ "<table name=\"T1\" ref=\"A2:C8\">".toList := by
  decide

set_option maxRecDepth 1000000 in
/-- C2, failing input: the sheet holds one `:tableGuide` marker, on `d.items`,
which is an array; a plain marker `{d.title}` stands before it on the line.
The lazy path of the marker expression starts at the first `{d.`, the path
read is `title}</c><c>{d.items`, and `adjustTableHeights` throws. -/
theorem C2_marker_after_plain_marker_throws :
    adjustTableHeights itemsOfLength3
      [⟨"xl/worksheets/sheet1.xml".toList, [],
        "<c>\x7bd.title\x7d</c><c>\x7bd.items:tableGuide(\x27T1\x27)\x7d</c>".toList⟩,
       ⟨"xl/tables/table1.xml".toList, [], "<table name=\"T1\" ref=\"A2:C9\">".toList⟩] [] =
      ⟨[⟨"xl/worksheets/sheet1.xml".toList, [],
        "<c>\x7bd.title\x7d</c><c>\x7bd.items:tableGuide(\x27T1\x27)\x7d</c>".toList⟩,
       ⟨"xl/tables/table1.xml".toList, [], "<table name=\"T1\" ref=\"A2:C9\">".toList⟩],
       some tableGuideError⟩ ∧
    markerPaths "<c>\x7bd.title\x7d</c><c>\x7bd.items:tableGuide(\x27T1\x27)\x7d</c>".toList =
      ["title\x7d</c><c>\x7bd.items".toList] ∧
    itemsOfLength3 (split '.' "items".toList) = some 3 := by
  decide

set_option maxRecDepth 1000000 in
/-- C6, failing input: a `t="s"` cell whose index is past the end of the
shared strings is rewritten into an inline string holding the text
`undefined`; it is not returned unchanged. -/
theorem C6_out_of_range_index_rewritten :
    convertToInlineString "<c r=\"A1\" t=\"s\"><v>1</v></c>".toList ["<t>Hello</t>".toList] =
      "<c r=\"A1\" t=\"inlineStr\"><is>undefined</is></c>".toList := by
  decide

set_option maxRecDepth 1000000 in
/-- C7, failing input: of two formula cells on one line only the first loses
its cached `<v>`; the second keeps `<v>2</v>`. -/
theorem C7_second_formula_cell_keeps_value :
    convertToInlineString "<c><f>A1</f><v>1</v></c><c><f>B1</f><v>2</v></c>".toList [] =
      "<c><f>A1</f></c><c><f>B1</f><v>2</v></c>".toList := by
  decide

set_option maxRecDepth 1000000 in
/-- C8, failing input: a plain numeric cell lying between two formula cells of
one line loses its `<v>5</v>`. -/
theorem C8_numeric_cell_between_formulas_altered :
    convertToInlineString "<c><f>A1</f></c><c><v>5</v></c><c><f>B1</f></c>".toList [] =
      "<c><f>A1</f></c><c></c><c><f>B1</f></c>".toList := by
  decide

set_option maxRecDepth 1000000 in
/-- C9, failing input: of a pool of two entries whose first one holds a line
feed only the second entry is returned; and a pool whose first entry is empty
gives one fragment running over both entries. -/
theorem C9_multiline_entry_skipped :
    readSharedString (some "<si>a\nb</si><si>c</si>".toList) = ["c".toList] ∧
    readSharedString (some "<si></si><si>a</si>".toList) = ["</si><si>a".toList] := by
  decide

set_option maxRecDepth 1000000 in
/-- C10, failing input: when `r="B1"` ends the open tag and the formula holds
a double quote, the text up to that quote is deleted with the attribute. -/
theorem C10_formula_text_deleted :
    removeRowCounterInWorksheet "<c r=\"B1\"><f>IF(A1=\"x\",1,0)</f></c>".toList =
      "<c ,1,0)</f></c>".toList := by
  decide

end preprocessor

namespace preprocessor

open Js

set_option maxRecDepth 1000000 in
/-- C13, counterexample: when a part whose name ends in `content.xml` comes
before `content.xml` in the file list, `content.xml` keeps its soft page
break. -/
theorem C13_counterexample :
    removeSoftPageBreak
      [⟨"Object 1/content.xml".toList, [], "<a/>".toList⟩,
       ⟨"content.xml".toList, [], "<p><text:soft-page-break/></p>".toList⟩] =
      [⟨"Object 1/content.xml".toList, [], "<a/>".toList⟩,
       ⟨"content.xml".toList, [], "<p><text:soft-page-break/></p>".toList⟩] := by
  decide

set_option maxRecDepth 1000000 in
/-- C14, failing input: the scope of the embedded `table.ods` rewrites the
`content.xml` of the main document (parent empty), and leaves its own
`content.xml` as it is. -/
theorem C14_embedded_ods_rewrites_main_document :
    route itemsOfLength3 "ods".toList "table.ods".toList
      [⟨"content.xml".toList, [],
          "<table:table-cell office:value-type=\"string\"><text:p>\x7bd.a:formatN(2)\x7d</text:p></table:table-cell>".toList⟩,
       ⟨"content.xml".toList, "table.ods".toList,
          "<table:table-cell office:value-type=\"string\"><text:p>\x7bd.b:formatN(2)\x7d</text:p></table:table-cell>".toList⟩] =
      ⟨[⟨"content.xml".toList, [],
          "<table:table-cell office:value-type=\"float\" office:value=\"\x7bd.a\x7d\"><text:p>\x7bd.a\x7d</text:p></table:table-cell>".toList⟩,
       ⟨"content.xml".toList, "table.ods".toList,
          "<table:table-cell office:value-type=\"string\"><text:p>\x7bd.b:formatN(2)\x7d</text:p></table:table-cell>".toList⟩],
       none⟩ := by
  decide

set_option maxRecDepth 1000000 in
/-- C15, failing input: an ods cell whose text holds the word `formatN` and no
marker makes `execute` throw a `TypeError`; the callback is not called. -/
theorem C15_ods_cell_without_marker_throws :
    execute itemsOfLength3
      (some ⟨"report.ods".toList, "ods".toList, [],
        some [⟨"content.xml".toList, [],
          "<table:table-cell><text:p>formatN</text:p></table:table-cell>".toList⟩]⟩) =
      .thrown nullLengthError
        ⟨"report.ods".toList, "ods".toList, [],
          some [⟨"content.xml".toList, [],
            "<table:table-cell><text:p>formatN</text:p></table:table-cell>".toList⟩]⟩ := by
  decide

set_option maxRecDepth 1000000 in
/-- C17, failing input: on two formula cells of one line the second run
changes the output of the first (it drops the `<v>2</v>` the first run
kept). -/
theorem C17_second_run_changes_output :
    convertToInlineString "<c><f>A1</f><v>1</v></c><c><f>B1</f><v>2</v></c>".toList [] =
      "<c><f>A1</f></c><c><f>B1</f><v>2</v></c>".toList ∧
    convertToInlineString
        (convertToInlineString "<c><f>A1</f><v>1</v></c><c><f>B1</f><v>2</v></c>".toList []) [] =
      "<c><f>A1</f></c><c><f>B1</f></c>".toList := by
  decide

end preprocessor

/-! ## The claims on `adjustTableHeights`, `readSharedString` and `execute` -/

namespace preprocessor

open Js

/-- C16: `execute` passes the template through when `files` is absent, and
when neither the extension of the main document nor the lower-case extension
of any embedding is `xlsx`, `ods` or `odt`: the callback gets a null error and
the same template. -/
theorem C16_execute_pass_through (get : List Str → Option Nat) (t : Template)
    (h : t.files = none ∨
      ((t.extension ≠ "xlsx".toList ∧ t.extension ≠ "ods".toList ∧
          t.extension ≠ "odt".toList) ∧
        ∀ e ∈ t.embeddings, embeddedFileType e ≠ "xlsx".toList ∧
          embeddedFileType e ≠ "ods".toList ∧ embeddedFileType e ≠ "odt".toList)) :
    execute get (some t) = .callback none (some t) ∧ execute get none = .callback none none := by
  refine ⟨?_, rfl⟩
  rcases h with h | ⟨h1, h2⟩
  · simp [execute, h]
  · cases hf : t.files with
    | none => simp [execute, hf]
    | some files =>
      have hs : ∀ sc ∈ scopes t,
          sc.2 ≠ "xlsx".toList ∧ sc.2 ≠ "ods".toList ∧ sc.2 ≠ "odt".toList := by
        intro sc hsc
        simp only [scopes, List.mem_cons, List.mem_map] at hsc
        rcases hsc with rfl | ⟨e, he, rfl⟩
        · exact h1
        · exact h2 e he
      simp only [execute, hf, runScopes_other get (scopes t) files hs]
      cases t
      simp_all

/-- C16, witness: a `docx` template with an embedded picture. -/
theorem C16_execute_pass_through_witness :
    execute itemsOfLength3
        (some ⟨"letter.docx".toList, "docx".toList, ["media/logo.PNG".toList],
          some [⟨"word/document.xml".toList, [], "<w:p/>".toList⟩]⟩) =
      .callback none
        (some ⟨"letter.docx".toList, "docx".toList, ["media/logo.PNG".toList],
          some [⟨"word/document.xml".toList, [], "<w:p/>".toList⟩]⟩) :=
  (C16_execute_pass_through itemsOfLength3
    ⟨"letter.docx".toList, "docx".toList, ["media/logo.PNG".toList],
      some [⟨"word/document.xml".toList, [], "<w:p/>".toList⟩]⟩
    (Or.inr (by decide))).1

/-- C18: when `adjustTableHeights` fails, the files are the input up to the
marker scans already done: the sheets before the offending one have their
markers erased, the offending sheet and everything after it are unchanged,
and no file that is not a sheet of the scope (no table part) is touched. -/
theorem C18_adjustTableHeights_failure_state (get : List Str → Option Nat) (files : List File)
    (parentFilter : Str) (h : (adjustTableHeights get files parentFilter).error ≠ none) :
    ∃ pre f post, files = pre ++ f :: post ∧ isSheet parentFilter f = true ∧
      (∃ p ∈ markerPaths f.data, get (split '.' p) = none) ∧
      (∀ g ∈ pre, isSheet parentFilter g = true →
        ∀ p ∈ markerPaths g.data, get (split '.' p) ≠ none) ∧
      (adjustTableHeights get files parentFilter).files =
        pre.map (eraseMarkers parentFilter) ++ f :: post ∧
      ∀ g ∈ pre, isSheet parentFilter g = false → eraseMarkers parentFilter g = g := by
  have h1 := (adjustTableHeights_error_iff get files parentFilter).mp h
  obtain ⟨pre, f, post, e1, e2, e3, e4, e5⟩ := processTableRefs_fail get parentFilter files [] h1
  refine ⟨pre, f, post, e1, e2, e3, e4, ?_, ?_⟩
  · rw [adjustTableHeights_files_of_fail get files parentFilter h1, e5]
  · intro g _ hg
    simp [eraseMarkers, hg]

set_option maxRecDepth 1000000 in
/-- C18, witness: the second sheet holds a marker on `d.total`, which is not
an array; the first sheet has lost its marker, the table part is as it was. -/
theorem C18_adjustTableHeights_failure_state_witness :
    (adjustTableHeights itemsOfLength3
        [⟨"xl/worksheets/sheet1.xml".toList, [], "<c>\x7bd.items:tableGuide(T1)\x7d</c>".toList⟩,
         ⟨"xl/worksheets/sheet2.xml".toList, [], "<c>\x7bd.total:tableGuide(T2)\x7d</c>".toList⟩,
         ⟨"xl/tables/table1.xml".toList, [], "<table name=\"T1\" ref=\"A2:C5\">".toList⟩]
        []).error ≠ none ∧
      ∃ pre f post,
        [⟨"xl/worksheets/sheet1.xml".toList, [], "<c>\x7bd.items:tableGuide(T1)\x7d</c>".toList⟩,
         ⟨"xl/worksheets/sheet2.xml".toList, [], "<c>\x7bd.total:tableGuide(T2)\x7d</c>".toList⟩,
         ⟨"xl/tables/table1.xml".toList, [], "<table name=\"T1\" ref=\"A2:C5\">".toList⟩] =
          pre ++ f :: post ∧
        (adjustTableHeights itemsOfLength3
          [⟨"xl/worksheets/sheet1.xml".toList, [], "<c>\x7bd.items:tableGuide(T1)\x7d</c>".toList⟩,
           ⟨"xl/worksheets/sheet2.xml".toList, [], "<c>\x7bd.total:tableGuide(T2)\x7d</c>".toList⟩,
           ⟨"xl/tables/table1.xml".toList, [], "<table name=\"T1\" ref=\"A2:C5\">".toList⟩]
          []).files = pre.map (eraseMarkers []) ++ f :: post :=
  have h : (adjustTableHeights itemsOfLength3
        [⟨"xl/worksheets/sheet1.xml".toList, [], "<c>\x7bd.items:tableGuide(T1)\x7d</c>".toList⟩,
         ⟨"xl/worksheets/sheet2.xml".toList, [], "<c>\x7bd.total:tableGuide(T2)\x7d</c>".toList⟩,
         ⟨"xl/tables/table1.xml".toList, [], "<table name=\"T1\" ref=\"A2:C5\">".toList⟩]
        []).error ≠ none := by decide
  ⟨h, by
    obtain ⟨pre, f, post, e1, _, _, _, e5, _⟩ :=
      C18_adjustTableHeights_failure_state itemsOfLength3 _ [] h
    exact ⟨pre, f, post, e1, e5⟩⟩

/-- C20: on fragments that are not empty, hold no line terminator and do not
hold `</si>`, `readSharedString` inverts the concatenation of the entries:
same length, same order, same contents. -/
theorem C20_readSharedString_inverts_poolOf (fs : List Str)
    (h : ∀ f ∈ fs, f ≠ [] ∧ (∀ c ∈ f, isLineTerminator c = false) ∧ ¬ "</si>".toList <:+: f) :
    readSharedString (some (poolOf fs)) = fs ∧
      (readSharedString (some (poolOf fs))).length = fs.length := by
  have h1 := readSharedString_poolOf fs h
  exact ⟨h1, by rw [h1]⟩

/-- C20, witness: three fragments, one of them holding markup. -/
theorem C20_readSharedString_inverts_poolOf_witness :
    (∀ f ∈ ["a".toList, "<t>b c</t>".toList, "</s".toList],
        f ≠ [] ∧ (∀ c ∈ f, isLineTerminator c = false) ∧ ¬ "</si>".toList <:+: f) ∧
      readSharedString (some (poolOf ["a".toList, "<t>b c</t>".toList, "</s".toList])) =
        ["a".toList, "<t>b c</t>".toList, "</s".toList] :=
  have h : ∀ f ∈ ["a".toList, "<t>b c</t>".toList, "</s".toList],
      f ≠ [] ∧ (∀ c ∈ f, isLineTerminator c = false) ∧ ¬ "</si>".toList <:+: f := by
    intro f hf
    simp only [List.mem_cons, List.mem_singleton, List.not_mem_nil, or_false] at hf
    rcases hf with rfl | rfl | rfl <;> exact ⟨by decide, by decide, by decide⟩
  ⟨h, (C20_readSharedString_inverts_poolOf _ h).1⟩

end preprocessor

namespace preprocessor

open Js

/-- C13, amended: `removeSoftPageBreak` rewrites only the first file of the
list whose name ends in `content.xml`: from its data the occurrences of
`text:use-soft-page-breaks="true"`, then those of `<text:soft-page-break/>`,
then those of `<text:soft-page-break></text:soft-page-break>` are deleted
(from left to right, text joined by a deletion not being searched again);
every other file is unchanged, and nothing changes when no name ends in
`content.xml`. -/
theorem C13_removeSoftPageBreak_first_content_part (files : List File) :
    ((∀ g ∈ files, ¬ "content.xml".toList <:+ g.name) ∧ removeSoftPageBreak files = files) ∨
    ∃ pre f post d1 d2 d3, files = pre ++ f :: post ∧
      (∀ g ∈ pre, ¬ "content.xml".toList <:+ g.name) ∧ "content.xml".toList <:+ f.name ∧
      Deleted "text:use-soft-page-breaks=\"true\"".toList f.data d1 ∧
      Deleted "<text:soft-page-break/>".toList d1 d2 ∧
      Deleted "<text:soft-page-break></text:soft-page-break>".toList d2 d3 ∧
      removeSoftPageBreak files = pre ++ { f with data := d3 } :: post := by
  induction files with
  | nil => left; simp [removeSoftPageBreak]
  | cons f fs ih =>
    by_cases hf : reContentPart.test f.name = true
    · right
      refine ⟨[], f, fs, _, _, _, rfl, by simp, (contentPart_test f.name).mp hf,
        replaceAll_str_deleted _ (by decide) f.data,
        replaceAll_str_deleted _ (by decide) _,
        replaceAll_str_deleted _ (by decide) _, ?_⟩
      simp [removeSoftPageBreak, hf, stripSoftPageBreaks]
    · have hnf : ¬ "content.xml".toList <:+ f.name := fun h => hf ((contentPart_test f.name).mpr h)
      rcases ih with ⟨h1, h2⟩ | ⟨pre, g, post, d1, d2, d3, e1, e2, e3, e4, e5, e6, e7⟩
      · left
        refine ⟨?_, by simp [removeSoftPageBreak, hf, h2]⟩
        intro g hg
        simp only [List.mem_cons] at hg
        rcases hg with rfl | hg
        · exact hnf
        · exact h1 g hg
      · right
        refine ⟨f :: pre, g, post, d1, d2, d3, by simp [e1], ?_, e3, e4, e5, e6, ?_⟩
        · intro x hx
          simp only [List.mem_cons] at hx
          rcases hx with rfl | hx
          · exact hnf
          · exact e2 x hx
        · simp [removeSoftPageBreak, hf, e7]

end preprocessor

namespace preprocessor

open Js

/-- C19: in `adjustTableHeights` the end row written is the start row plus the
length bound to the table, whatever end row the table declared. For every
template on which the loop over the sheets gets through, `refs` being what it
recorded: a table part of the scope (not itself a sheet part) whose first
`name=` attribute declares `T`, with `_tableRefs[T].length` reading `L`,
comes out with each of its range attributes `ref="<c1><r1>:<c2><r2>"`
rewritten to `ref="<c1><r1>:<c2><r1+L>"`, for every `r2` (the head of the
part and the texts after the ranges hold no other `ref=`, and `r1 + L` is
below 2^53). -/
theorem C19_end_row_is_start_row_plus_length (get : List Str → Option Nat)
    (files : List File) (parentFilter : Str) (refs : List TableRef) (j : Nat) (t : File)
    (p0 : Str) (q : Char) (T p1 : Str) (ps : List (Range × Str)) (L : Nat)
    (hrefs : (processTableRefs get parentFilter files []).2 = some refs)
    (hj : files.get? j = some t)
    (ht : isTable parentFilter t = true) (hts : isSheet parentFilter t = false)
    (hd : t.data = tableHead p0 q T p1 ++ rangesText ps)
    (hq : isQuote q = true) (hT : isTableName T = true)
    (hp0 : ¬ "name=".toList <:+: p0) (hhead : ¬ "ref=".toList <:+: tableHead p0 q T p1)
    (hps : ∀ p ∈ ps, p.1.wellFormed = true ∧ ¬ "ref=".toList <:+: p.2 ∧
      toNumber p.1.r1 + L < maxSafe)
    (href : lookupRef refs T = some (some L)) :
    (adjustTableHeights get files parentFilter).error = none ∧
    (adjustTableHeights get files parentFilter).files.get? j =
      some { t with data := tableHead p0 q T p1 ++ rangesText (withLength L ps) } := by
  rw [adjustTableHeights_of_refs get files parentFilter refs hrefs]
  refine ⟨rfl, ?_⟩
  show ((processTableRefs get parentFilter files []).1.map
    (processTable parentFilter refs)).get? j = _
  rw [List.get?_map, processTableRefs_get? get parentFilter files [] j t hj hts,
    Option.map_some',
    processTable_matched parentFilter refs t L p0 q T p1 ps ht hd hq hT hp0 hhead hps href]

set_option maxRecDepth 1000000 in
/-- C19, witness: two sheets with a marker each (`d.items`, three items, bound
to `T1` and to `T2`) and the table part of `T1`, whose table range ends at row
40 and whose filter range ends at row 7: both end at row 2 + 3 afterwards. -/
theorem C19_end_row_is_start_row_plus_length_witness :
    (adjustTableHeights itemsOfLength3
        [⟨"xl/worksheets/sheet1.xml".toList, [],
            "<c>".toList ++ guideMarker "items".toList "T2".toList ++ "</c>".toList⟩,
         ⟨"xl/tables/table1.xml".toList, [],
            tableHead "<table id=\"1\" ".toList dquote "T1".toList " displayName=\"T1\" ".toList ++
              rangesText (tableRanges
                ⟨dquote, "A".toList, "2".toList, "C".toList, "40".toList, dquote⟩
                ⟨dquote, "A".toList, "2".toList, "C".toList, "7".toList, dquote⟩)⟩,
         ⟨"xl/worksheets/sheet2.xml".toList, [],
            "<c>".toList ++ guideMarker "items".toList "T1".toList ++ "</c>".toList⟩]
        []).files.get? 1 =
      some ⟨"xl/tables/table1.xml".toList, [],
        tableHead "<table id=\"1\" ".toList dquote "T1".toList " displayName=\"T1\" ".toList ++
          rangesText (tableRanges ⟨dquote, "A".toList, "2".toList, "C".toList, "5".toList, dquote⟩
            ⟨dquote, "A".toList, "2".toList, "C".toList, "5".toList, dquote⟩)⟩ :=
  (C19_end_row_is_start_row_plus_length itemsOfLength3
    [⟨"xl/worksheets/sheet1.xml".toList, [],
        "<c>".toList ++ guideMarker "items".toList "T2".toList ++ "</c>".toList⟩,
     ⟨"xl/tables/table1.xml".toList, [],
        tableHead "<table id=\"1\" ".toList dquote "T1".toList " displayName=\"T1\" ".toList ++
          rangesText (tableRanges
            ⟨dquote, "A".toList, "2".toList, "C".toList, "40".toList, dquote⟩
            ⟨dquote, "A".toList, "2".toList, "C".toList, "7".toList, dquote⟩)⟩,
     ⟨"xl/worksheets/sheet2.xml".toList, [],
        "<c>".toList ++ guideMarker "items".toList "T1".toList ++ "</c>".toList⟩]
    []
    [⟨"T1".toList, "items".toList, 3⟩, ⟨"T2".toList, "items".toList, 3⟩]
    1 _ "<table id=\"1\" ".toList dquote "T1".toList " displayName=\"T1\" ".toList
    (tableRanges ⟨dquote, "A".toList, "2".toList, "C".toList, "40".toList, dquote⟩
      ⟨dquote, "A".toList, "2".toList, "C".toList, "7".toList, dquote⟩) 3
    (by decide) rfl (by decide) (by decide) rfl (by decide) (by decide) (by decide) (by decide)
    (by decide) (by decide)).2

end preprocessor

namespace preprocessor

open Js

/-- C1, amended: take a template in which one sheet part of the scope (not
itself a table part) has the text `s0 ++ {d.P:tableGuide('T')} ++ s1` with no
opening brace in `s0` and `s1`, no other sheet part of the scope holds an
opening brace, `P` is a data path resolving to an array of length `L` and `T`
a table name. Then `adjustTableHeights` returns without error, the marker is
erased from the sheet, and in every table part of the scope whose first
`name=` attribute declares `T` each range attribute `ref="<c1><r1>:<c2><r2>"`
becomes `ref="<c1><r1>:<c2><r1+L>"`: the end row is the start row plus `L`,
columns and start row are unchanged (the head of the part and the texts after
the ranges hold no other `ref=`, and `r1 + L` is below 2^53). Every file that
is neither that sheet nor a table part of the scope is unchanged. -/
theorem C1_end_row_becomes_start_row_plus_length (get : List Str → Option Nat)
    (parentFilter : Str) (pre post : List File) (sheet : File) (s0 s1 P T : Str) (L : Nat)
    (hsheet : isSheet parentFilter sheet = true) (hst : isTable parentFilter sheet = false)
    (hdata : sheet.data = s0 ++ guideMarker P T ++ s1)
    (hs0 : lbrace ∉ s0) (hs1 : lbrace ∉ s1)
    (hothers : ∀ f ∈ pre ++ post, isSheet parentFilter f = true → lbrace ∉ f.data)
    (hP : isDataPath P = true) (hT : isTableName T = true)
    (hget : get (split '.' P) = some L) :
    (adjustTableHeights get (pre ++ sheet :: post) parentFilter).error = none ∧
    (adjustTableHeights get (pre ++ sheet :: post) parentFilter).files.get? pre.length =
      some { sheet with data := s0 ++ s1 } ∧
    (∀ (j : Nat) (t : File) (p0 : Str) (q : Char) (p1 : Str) (ps : List (Range × Str)),
      (pre ++ sheet :: post).get? j = some t → isTable parentFilter t = true →
      t.data = tableHead p0 q T p1 ++ rangesText ps → isQuote q = true →
      ¬ "name=".toList <:+: p0 → ¬ "ref=".toList <:+: tableHead p0 q T p1 →
      (∀ p ∈ ps, p.1.wellFormed = true ∧ ¬ "ref=".toList <:+: p.2 ∧
        toNumber p.1.r1 + L < maxSafe) →
      (adjustTableHeights get (pre ++ sheet :: post) parentFilter).files.get? j =
        some { t with data := tableHead p0 q T p1 ++ rangesText (withLength L ps) }) ∧
    (∀ (j : Nat) (f : File), (pre ++ sheet :: post).get? j = some f → j ≠ pre.length →
      isTable parentFilter f = false →
      (adjustTableHeights get (pre ++ sheet :: post) parentFilter).files.get? j = some f) := by
  have hpre : ∀ f ∈ pre, isSheet parentFilter f = true → lbrace ∉ f.data :=
    fun f hf => hothers f (by simp [hf])
  have hpost : ∀ f ∈ post, isSheet parentFilter f = true → lbrace ∉ f.data :=
    fun f hf => hothers f (by simp [hf])
  rw [adjustTableHeights_one get parentFilter pre post sheet s0 s1 P T L hpre hpost hsheet hdata
    hs0 hs1 hP hT hget]
  refine ⟨rfl, ?_, ?_, ?_⟩
  · have hst2 : isTable parentFilter { sheet with data := s0 ++ s1 } = false := hst
    show ((pre ++ { sheet with data := s0 ++ s1 } :: post).map
      (processTable parentFilter [⟨T, P, L⟩])).get? pre.length = _
    rw [List.get?_map, get?_at_middle, Option.map_some',
      processTable_other parentFilter _ _ hst2]
  · intro j t p0 q p1 ps hj ht hd hq hp0 hhead hps
    have hne : j ≠ pre.length := by
      intro e
      rw [e, get?_at_middle] at hj
      simp only [Option.some.injEq] at hj
      rw [← hj, hst] at ht
      cases ht
    show ((pre ++ { sheet with data := s0 ++ s1 } :: post).map
      (processTable parentFilter [⟨T, P, L⟩])).get? j = _
    rw [List.get?_map, ← get?_middle pre post sheet _ j hne, hj, Option.map_some',
      processTable_matched parentFilter [⟨T, P, L⟩] t L p0 q T p1 ps ht hd hq hT hp0 hhead hps
        (lookupRef_head T P L [])]
  · intro j f hj hne hf
    show ((pre ++ { sheet with data := s0 ++ s1 } :: post).map
      (processTable parentFilter [⟨T, P, L⟩])).get? j = _
    rw [List.get?_map, ← get?_middle pre post sheet _ j hne, hj, Option.map_some',
      processTable_other parentFilter _ f hf]

set_option maxRecDepth 1000000 in
/-- C1, witness: a workbook with one sheet holding the marker on `d.items`
(three items), its manifest and the table part of `T1` declaring
`ref="A2:C9"` for the table and for its filter: both ranges become
`ref="A2:C5"`. -/
theorem C1_end_row_becomes_start_row_plus_length_witness :
    (adjustTableHeights itemsOfLength3
        ([] ++ ⟨"xl/worksheets/sheet1.xml".toList, [],
            "<c><is><t>".toList ++ guideMarker "items".toList "T1".toList ++
              "</t></is></c>".toList⟩ ::
          [⟨"xl/workbook.xml".toList, [], "<workbook/>".toList⟩,
           ⟨"xl/tables/table1.xml".toList, [],
            tableHead "<table id=\"1\" ".toList dquote "T1".toList " displayName=\"T1\" ".toList ++
              rangesText (tableRanges ⟨dquote, "A".toList, "2".toList, "C".toList, "9".toList, dquote⟩
                ⟨dquote, "A".toList, "2".toList, "C".toList, "9".toList, dquote⟩)⟩])
        []).files.get? 2 =
      some ⟨"xl/tables/table1.xml".toList, [],
        tableHead "<table id=\"1\" ".toList dquote "T1".toList " displayName=\"T1\" ".toList ++
          rangesText (tableRanges ⟨dquote, "A".toList, "2".toList, "C".toList, "5".toList, dquote⟩
            ⟨dquote, "A".toList, "2".toList, "C".toList, "5".toList, dquote⟩)⟩ :=
  (C1_end_row_becomes_start_row_plus_length itemsOfLength3 [] []
    [⟨"xl/workbook.xml".toList, [], "<workbook/>".toList⟩,
     ⟨"xl/tables/table1.xml".toList, [],
      tableHead "<table id=\"1\" ".toList dquote "T1".toList " displayName=\"T1\" ".toList ++
        rangesText (tableRanges ⟨dquote, "A".toList, "2".toList, "C".toList, "9".toList, dquote⟩
          ⟨dquote, "A".toList, "2".toList, "C".toList, "9".toList, dquote⟩)⟩]
    ⟨"xl/worksheets/sheet1.xml".toList, [],
      "<c><is><t>".toList ++ guideMarker "items".toList "T1".toList ++ "</t></is></c>".toList⟩
    "<c><is><t>".toList "</t></is></c>".toList "items".toList "T1".toList 3
    (by decide) (by decide) rfl (by decide) (by decide) (by decide) (by decide) (by decide)
    (by decide)).2.2.1 2 _ "<table id=\"1\" ".toList dquote " displayName=\"T1\" ".toList
    (tableRanges ⟨dquote, "A".toList, "2".toList, "C".toList, "9".toList, dquote⟩
      ⟨dquote, "A".toList, "2".toList, "C".toList, "9".toList, dquote⟩)
    rfl (by decide) rfl (by decide) (by decide) (by decide) (by decide)

end preprocessor

namespace preprocessor

open Js

end preprocessor

namespace preprocessor

open Js

end preprocessor

namespace preprocessor

open Js

end preprocessor

namespace preprocessor

open Js

end preprocessor
